import Mathlib

/-!
# Sword1 text layout (`engines/sword1/text.cpp`)

A shallow embedding of the word wrapper, the glyph compositor and the sprite
builder of the Broken Sword text engine, followed by theorems about them.

Conventions of the embedding

* `uint16` values are natural numbers below `65536`; every assignment to a
  `uint16` variable is written with an explicit `% 65536`.  Expressions that C
  evaluates in `int` (after integer promotion) are evaluated without wrapping.
* A C string is the list of the bytes stored at the pointer; reading past the
  end of the list yields the terminating NUL, and a `0` inside the list
  terminates the string as it does in memory.
* Pixel memory is a function from addresses (integers relative to the start of
  the pixel area) to bytes, so that pointer arithmetic is modelled as is.
* A failed `assert` is `Except.error Fault.assertFailed` and a call of
  `error(...)` is `Except.error Fault.errorCalled`.
-/

namespace Sword1

/-! ## Constants of text.cpp -/

def OVERLAP : Nat := 3
def DEMO_OVERLAP : Nat := 1
def DEBUG_OVERLAP : Nat := 2
def SPACE : Nat := 32
def MAX_LINES : Nat := 30

/-- The ways a call can stop without returning: a failed `assert`, a call of
`error(...)`, and `outOfFuel`, which belongs to the embedding only (loops that
the source does not bound are run with a step budget); for `analyzeSentence` it
is shown below never to happen. -/
inductive Fault where
  | assertFailed
  | errorCalled
  | outOfFuel
  deriving DecidableEq, Repr

/-- The engine-wide switches consulted by text.cpp: `_systemVars.isDemo`,
`SwordEngine::isPsx()`, `_systemVars.isLangRtl` and whether
`_systemVars.realLanguage == Common::EN_ANY`. -/
structure SystemVars where
  isDemo : Bool
  isPsx : Bool
  isLangRtl : Bool
  isEnglish : Bool
  deriving DecidableEq, Repr

/-- The record `LineInfo` filled by the wrapper (both fields `uint16`). -/
structure LineInfo where
  width : Nat
  length : Nat
  deriving DecidableEq, Repr

/-- A glyph frame as seen through `_resMan->fetchFrame(_font, i)`: the header
fields read with `getUint16` and the bytes that follow the header. -/
structure Frame where
  width : Nat
  height : Nat
  data : Nat → Nat

/-- The overlap in force: `OVERLAP`, or `DEMO_OVERLAP` in the demo. -/
def overlap (sv : SystemVars) : Nat :=
  if !sv.isDemo then OVERLAP else DEMO_OVERLAP

/-- Reading `*text`. -/
def deref (text : List Nat) : Nat := text.headD 0

/-- Writing `line[i] = v`. -/
def setLine (line : Nat → LineInfo) (i : Nat) (v : LineInfo) : Nat → LineInfo :=
  fun j => if j = i then v else line j

/-- `Text::charWidth`. -/
def charWidth (font : Int → Frame) (ch : Nat) : Nat :=
  let ch := if ch < SPACE then 64 else ch
  (font ((ch : Int) - (SPACE : Int))).width % 65536

/-- The inner loop of `analyzeSentence` (lines 169-180): scans one word,
accumulating `wordWidth` and `wordLength`, and returns them with the advanced
`text` pointer. -/
def scanWord (sv : SystemVars) (font : Int → Frame) :
    List Nat → Nat → Nat → Nat × Nat × List Nat
  | [], wordWidth, wordLength => (wordWidth, wordLength, [])
  | c :: rest, wordWidth, wordLength =>
    if c ≠ SPACE ∧ c ≠ 0 then
      let wordWidth := (wordWidth + charWidth font c) % 65536
      let wordWidth := (wordWidth + 65536 - overlap sv) % 65536
      scanWord sv font rest wordWidth ((wordLength + 1) % 65536)
    else (wordWidth, wordLength, c :: rest)

/-- The outer loop of `analyzeSentence` (lines 165-211), run with a step budget.
The state is `text`, `lineNo`, `firstWord` and the caller's `line` array. -/
def analyzeLoop (sv : SystemVars) (font : Int → Frame) (joinWidth maxWidth : Nat) :
    Nat → List Nat → Nat → Bool → (Nat → LineInfo) → Except Fault (Nat × (Nat → LineInfo))
  | 0, _, _, _, _ => .error .outOfFuel
  | fuel + 1, text, lineNo, firstWord, line =>
    if deref text = 0 then .ok ((lineNo + 1) % 65536, line)
    else
      let scanned := scanWord sv font text 0 0
      let wordLength := scanned.2.1
      let text := if deref scanned.2.2 = SPACE then scanned.2.2.tail else scanned.2.2
      -- no overlap on final letter of word!
      let wordWidth := (scanned.1 + overlap sv) % 65536
      if firstWord then
        analyzeLoop sv font joinWidth maxWidth fuel text lineNo false
          (setLine line 0 ⟨wordWidth, wordLength⟩)
      else
        let spaceNeeded := (joinWidth + wordWidth) % 65536
        if (line lineNo).width + spaceNeeded ≤ maxWidth then
          analyzeLoop sv font joinWidth maxWidth fuel text lineNo false
            (setLine line lineNo
              ⟨((line lineNo).width + spaceNeeded) % 65536,
               ((line lineNo).length + (1 + wordLength)) % 65536⟩)
        else
          let lineNo := (lineNo + 1) % 65536
          if lineNo < MAX_LINES then
            analyzeLoop sv font joinWidth maxWidth fuel text lineNo false
              (setLine line lineNo ⟨wordWidth, wordLength⟩)
          else .error .assertFailed

/-- `Text::analyzeSentence`. `joinWidth` is the member `_joinWidth`; `line` is
the caller's array as it is on entry. The result is the returned number of
lines with the array as it is on exit. -/
def analyzeSentence (sv : SystemVars) (font : Int → Frame) (joinWidth : Nat)
    (text : List Nat) (maxWidth : Nat) (line : Nat → LineInfo) :
    Except Fault (Nat × (Nat → LineInfo)) :=
  let maxWidth := if sv.isPsx then 254 else maxWidth
  analyzeLoop sv font joinWidth maxWidth (text.length + 1) text 0 true line

/-- The value the constructor `Text::Text` gives `_joinWidth` (lines 55-61),
as a 16-bit value. The member is declared in text.h; whether it is 16 bits wide
or wider makes no difference to `spaceNeeded`, which is a `uint16`. -/
def initJoinWidth (sv : SystemVars) (font : Int → Frame) : Nat :=
  let joinWidth := charWidth font SPACE
  if !sv.isDemo then (joinWidth + 65536 - 2 * OVERLAP) % 65536
  else (joinWidth + 65536 - 2 * DEMO_OVERLAP) % 65536


/-! ## Words and the functional description of the wrap -/

/-- The words of a text as the scan delimits them: every space ends a word
(two spaces in a row delimit an empty word), the string's end ends the last
word, and a space that ends the text is followed by no further word. -/
def textWords : List Nat → List (List Nat)
  | [] => []
  | c :: rest =>
    if c = 0 then []
    else if c = SPACE then [] :: textWords rest
    else
      match textWords rest with
      | [] => [[c]]
      | w :: ws => (c :: w) :: ws

/-- The characters of the word at the start of `text`. -/
def firstWord : List Nat → List Nat
  | [] => []
  | c :: rest => if c ≠ SPACE ∧ c ≠ 0 then c :: firstWord rest else []

/-- The text behind the word at the start of `text`. -/
def wordRest : List Nat → List Nat
  | [] => []
  | c :: rest => if c ≠ SPACE ∧ c ≠ 0 then wordRest rest else c :: rest

/-- The text behind the first word and the space that ends it. -/
def afterWord (text : List Nat) : List Nat :=
  if deref (wordRest text) = SPACE then (wordRest text).tail else wordRest text

/-- The width and length the program computes for one word (16-bit values):
what lines 166-190 leave in `wordWidth` and `wordLength`. -/
def wordInfo (sv : SystemVars) (font : Int → Frame) (w : List Nat) : LineInfo :=
  ⟨((scanWord sv font w 0 0).1 + overlap sv) % 65536, (scanWord sv font w 0 0).2.1⟩

/-- Greedy filling with the 16-bit arithmetic of the program: `cur` is the line
being filled, the list holds the measures of the words still to place. -/
def wrapFrom (joinWidth maxWidth : Nat) (cur : LineInfo) : List LineInfo → List LineInfo
  | [] => [cur]
  | m :: ms =>
    if cur.width + (joinWidth + m.width) % 65536 ≤ maxWidth then
      wrapFrom joinWidth maxWidth
        ⟨(cur.width + (joinWidth + m.width) % 65536) % 65536,
         (cur.length + (1 + m.length)) % 65536⟩ ms
    else cur :: wrapFrom joinWidth maxWidth m ms

/-- Greedy wrap of a list of word measures: the first word opens the first line. -/
def wrapInfos (joinWidth maxWidth : Nat) : List LineInfo → List LineInfo
  | [] => []
  | m :: ms => wrapFrom joinWidth maxWidth m ms

/-- The greedy wrap of a text, as a list of lines. -/
def wrapLines (sv : SystemVars) (font : Int → Frame) (joinWidth maxWidth : Nat)
    (text : List Nat) : List LineInfo :=
  wrapInfos joinWidth maxWidth ((textWords text).map (wordInfo sv font))

/-- The width limit in force: 254 on the PSX, the caller's otherwise. -/
def effMaxWidth (sv : SystemVars) (maxWidth : Nat) : Nat :=
  if sv.isPsx then 254 else maxWidth

/-- The array `line` with its first entries replaced by the lines of `L`. -/
def overlay (line : Nat → LineInfo) (L : List LineInfo) : Nat → LineInfo :=
  fun j => if j < L.length then L.getD j ⟨0, 0⟩ else line j

/-! ## The reference wrap of the specification

The definitions of this section follow the words of the specification (the
greedy rule of the word wrapper, with the formulas for `wordWidth` and
`joinWidth`), not the code: they compute in the integers, without wrap-around. -/

/-- A line of the reference wrap. Its width is an integer and its length a
character count: the reference computes without wrap-around. -/
structure RefLine where
  width : Int
  length : Nat
  deriving DecidableEq, Repr

/-- Reference word width: the sum of `charWidth` over the word's characters
minus `overlap * (n - 1)`. -/
def refWordWidth (sv : SystemVars) (font : Int → Frame) (w : List Nat) : Int :=
  (w.map fun c => (charWidth font c : Int)).sum - (overlap sv : Int) * ((w.length : Int) - 1)

/-- Reference join width: `charWidth(' ') - 2 * overlap`. -/
def refJoinWidth (sv : SystemVars) (font : Int → Frame) : Int :=
  (charWidth font SPACE : Int) - 2 * (overlap sv : Int)

/-- Reference greedy filling: a word joins the current line exactly when
`line.width + joinWidth + wordWidth <= maxWidth`, equality included; otherwise
it opens a new line holding the word alone. -/
def refFill (sv : SystemVars) (font : Int → Frame) (maxWidth : Int) (cur : RefLine) :
    List (List Nat) → List RefLine
  | [] => [cur]
  | w :: ws =>
    if cur.width + refJoinWidth sv font + refWordWidth sv font w ≤ maxWidth then
      refFill sv font maxWidth
        ⟨cur.width + (refJoinWidth sv font + refWordWidth sv font w),
         cur.length + (1 + w.length)⟩ ws
    else cur :: refFill sv font maxWidth ⟨refWordWidth sv font w, w.length⟩ ws

/-- The reference greedy wrap of a text: the first word opens line 0. -/
def referenceWrap (sv : SystemVars) (font : Int → Frame) (maxWidth : Nat)
    (text : List Nat) : List RefLine :=
  match textWords text with
  | [] => []
  | w :: ws => refFill sv font maxWidth ⟨refWordWidth sv font w, w.length⟩ ws

/-- A reference line as the 16-bit record the program stores. -/
def RefLine.toLineInfo (r : RefLine) : LineInfo := ⟨r.width.toNat, r.length % 65536⟩

/-! ## Concrete inputs used in the examples -/

/-- The full game on a PC, left-to-right, English. -/
def pcVars : SystemVars := ⟨false, false, false, true⟩

/-- The full game on the PSX. -/
def psxVars : SystemVars := ⟨false, true, false, true⟩

/-- A font all of whose glyphs are `w` pixels wide and 12 high. -/
def plainFont (w : Nat) : Int → Frame := fun _ => ⟨w, 12, fun _ => 0⟩

/-- A line array holding stale data on entry. -/
def staleLines : Nat → LineInfo := fun _ => ⟨7, 9⟩

/-- The text "HELLO WORLD". -/
def helloWorld : List Nat := [72, 69, 76, 76, 79, 32, 87, 79, 82, 76, 68]

/-- A font whose space glyph is 10 pixels wide and whose other glyphs are 3
pixels wide (as wide as the overlap). -/
def thinFont : Int → Frame :=
  fun i => if i = 0 then ⟨10, 12, fun _ => 0⟩ else ⟨3, 12, fun _ => 0⟩

/-- A single word of 65536 letters `A`. -/
def longWord : List Nat := List.replicate 65536 65

/-- The text "A B". -/
def textAB : List Nat := [65, 32, 66]

/-! ## The glyph compositor and the sprite builder -/

/-- Constants that text.cpp takes from the engine's headers (sworddefs.h,
swordres.h, text.h), which are not part of the file: they are parameters. -/
structure Defs where
  LETTER_COL : Nat
  BORDER_COL : Nat
  BORDER_COL_PSX : Nat
  NO_COL : Nat
  GAME_FONT : Nat
  CZECH_GAME_FONT : Nat

/-- Everything text.cpp reaches outside itself: the mode switches, the header
constants, the resource manager (`openFetchRes` followed by `fetchFrame`),
`Screen::decompressHIF` and `Common::convertBiDiString`. -/
structure Env where
  sv : SystemVars
  defs : Defs
  openFetchRes : Nat → Int → Frame
  decompressHIF : (Nat → Nat) → Nat → Nat
  convertBiDiString : List Nat → List Nat

/-- A text sprite: the `FrameHeader` fields, the number of bytes allocated for
the pixel area, and the memory at (and around) the pixel area, addressed
relative to its first byte. -/
structure Sprite where
  runTimeComp : List Nat
  compSize : Nat
  width : Nat
  height : Nat
  offsetX : Nat
  offsetY : Nat
  size : Nat
  pixels : Int → Nat

/-- The members of `Text`. `font` is `_font` seen through `fetchFrame`. The
declaration of `_textCount` is in text.h, which is not part of the file: the
counter is an integer here, incremented and decremented without wrap-around. -/
structure Text where
  font : Int → Frame
  fontId : Nat
  textCount : Int
  joinWidth : Nat
  charHeight : Nat
  textBlocks : Nat → Option Sprite

/-- The constructor `Text::Text`. -/
def Text.init (env : Env) (czechVersion : Bool) : Text :=
  let fontId := if czechVersion then env.defs.CZECH_GAME_FONT else env.defs.GAME_FONT
  let font := env.openFetchRes fontId
  let charHeight := (font 0).height % 65536
  { font := font
    fontId := fontId
    textCount := 0
    joinWidth := initJoinWidth env.sv font
    charHeight := if env.sv.isPsx then charHeight / 2 else charHeight
    textBlocks := fun _ => none }

/-- Writing one byte: `mem[a] = v`. -/
def poke (mem : Int → Nat) (a : Int) (v : Nat) : Int → Nat :=
  fun b => if b = a then v else mem b

/-- The body of the inner loop of `copyChar` (lines 240-243), for the source
byte `src = *decChr`. -/
def plotPixel (d : Defs) (pen src : Nat) (dest : Int) (cntx : Nat) (mem : Int → Nat) :
    Int → Nat :=
  if src = d.LETTER_COL then poke mem (dest + cntx) pen
  else if (src = d.BORDER_COL ∨ src = d.BORDER_COL_PSX) ∧ mem (dest + cntx) = 0 then
    poke mem (dest + cntx) d.BORDER_COL
  else mem

/-- The inner loop of `copyChar` (line 239) with `todo` turns left: returns the
advanced `decChr` position and the memory. -/
def copyRow (d : Defs) (pen : Nat) (decChr : Nat → Nat) (dest : Int) :
    Nat → Nat → Nat → (Int → Nat) → Nat × (Int → Nat)
  | 0, _, pos, mem => (pos, mem)
  | todo + 1, cntx, pos, mem =>
    copyRow d pen decChr dest todo (cntx + 1) (pos + 1)
      (plotPixel d pen (decChr pos) dest cntx mem)

/-- The outer loop of `copyChar` (lines 238-247) with `todo` rows left. -/
def copyRows (d : Defs) (pen : Nat) (decChr : Nat → Nat) (width sprWidth : Nat) :
    Nat → Int → Nat → (Int → Nat) → Int → Nat
  | 0, _, _, mem => mem
  | todo + 1, dest, pos, mem =>
    let row := copyRow d pen decChr dest width 0 pos mem
    copyRows d pen decChr width sprWidth todo (dest + sprWidth) row.1 row.2

/-- `Text::copyChar`: returns the glyph's width and the memory after drawing. -/
def copyChar (env : Env) (t : Text) (ch : Nat) (sprPtr : Int) (sprWidth pen : Nat)
    (mem : Int → Nat) : Nat × (Int → Nat) :=
  let ch := if ch < SPACE then 64 else ch
  let chFrame := t.font ((ch : Int) - (SPACE : Int))
  let width := chFrame.width % 65536
  let frameHeight :=
    if env.sv.isPsx then chFrame.height % 65536 / 2 else chFrame.height % 65536
  let decChr :=
    if env.sv.isPsx ∧ t.fontId = env.defs.CZECH_GAME_FONT then env.decompressHIF chFrame.data
    else chFrame.data
  (width, copyRows env.defs pen decChr width sprWidth frameHeight sprPtr 0 mem)

/-- The loop of `makeTextSprite` that finds the widest line (lines 98-102). -/
def widestLine (lines : Nat → LineInfo) (numLines : Nat) : Nat :=
  (List.range numLines).foldl
    (fun sprWidth lineCnt =>
      if (lines lineCnt).width > sprWidth then (lines lineCnt).width else sprWidth) 0

/-- The character loop of `makeTextSprite` (lines 132-140) with `todo`
characters left. -/
def drawChars (env : Env) (t : Text) (sprWidth pen : Nat) :
    Nat → List Nat → Int → (Int → Nat) → Int → Nat
  | 0, _, _, mem => mem
  | todo + 1, curTextLine, sprPtr, mem =>
    let drawn := copyChar env t (deref curTextLine) sprPtr sprWidth pen mem
    drawChars env t sprWidth pen todo curTextLine.tail
      (sprPtr + (drawn.1 : Int) - (overlap env.sv : Int)) drawn.2

/-- The line loop of `makeTextSprite` (lines 123-149) with `todo` lines left. -/
def drawLines (env : Env) (t : Text) (lines : Nat → LineInfo) (sprWidth pen : Nat) :
    Nat → Nat → List Nat → Int → (Int → Nat) → Int → Nat
  | 0, _, _, _, mem => mem
  | todo + 1, lineCnt, text, linePtr, mem =>
    -- center the text
    let sprPtr := linePtr + Int.tdiv ((sprWidth : Int) - ((lines lineCnt).width : Int)) 2
    let curTextLine :=
      if env.sv.isLangRtl then env.convertBiDiString (text.take (lines lineCnt).length)
      else text
    let mem := drawChars env t sprWidth pen (lines lineCnt).length curTextLine sprPtr mem
    let text := text.drop ((lines lineCnt).length + 1)
    let linePtr :=
      if env.sv.isPsx then linePtr + ((t.charHeight : Int) - 4) * (sprWidth : Int)
      else linePtr + (t.charHeight : Int) * (sprWidth : Int)
    drawLines env t lines sprWidth pen todo (lineCnt + 1) text linePtr mem

/-- `Text::makeTextSprite`. `stack` is the content of the local array `lines`
on entry (the array has no initialiser) and `heap` the memory at and around the
block `malloc` returns. -/
def makeTextSprite (env : Env) (t : Text) (stack : Nat → LineInfo) (heap : Int → Nat)
    (slot : Nat) (text : List Nat) (maxWidth pen : Nat) : Except Fault Text :=
  match analyzeSentence env.sv t.font t.joinWidth text maxWidth stack with
  | .error e => .error e
  | .ok (numLines, lines) =>
    let sprWidth := widestLine lines numLines
    let sprHeight := (t.charHeight * numLines) % 65536
    let sprHeight :=
      if env.sv.isPsx then
        (((2 * (t.charHeight : Int) * (numLines : Int) - 4 * ((numLines : Int) - 1)) % 65536).toNat)
      else sprHeight
    let sprWidth := if env.sv.isPsx then ((sprWidth + 1) &&& 0xFFFE) else sprWidth
    let sprSize := (sprWidth * sprHeight) % 4294967296
    -- if this triggers, the speechDriver failed to call Text::releaseText.
    if (t.textBlocks slot).isSome then .error .assertFailed
    else
      let cleared : Int → Nat :=
        fun a => if 0 ≤ a ∧ a < (sprSize : Int) then env.defs.NO_COL else heap a
      let pixels := drawLines env t lines sprWidth pen numLines 0 text 0 cleared
      let block : Sprite :=
        { runTimeComp := [78, 117, 32, 32]
          compSize := 0
          width := sprWidth
          height := sprHeight
          offsetX := 0
          offsetY := 0
          size := sprSize
          pixels := pixels }
      .ok { t with textBlocks := fun i => if i = slot then some block else t.textBlocks i }

/-- The colour rule of the compositor as a function of the source pixel and the
old destination pixel: the pen for a letter pixel, else the border colour for a
border pixel over a zero destination, else the old destination pixel. -/
def colourRule (d : Defs) (pen src old : Nat) : Nat :=
  if src = d.LETTER_COL then pen
  else if (src = d.BORDER_COL ∨ src = d.BORDER_COL_PSX) ∧ old = 0 then d.BORDER_COL
  else old

/-- The height `copyChar` uses for the glyph of `ch` (halved on the PSX). -/
def glyphHeight (env : Env) (t : Text) (ch : Nat) : Nat :=
  let ch := if ch < SPACE then 64 else ch
  if env.sv.isPsx then (t.font ((ch : Int) - (SPACE : Int))).height % 65536 / 2
  else (t.font ((ch : Int) - (SPACE : Int))).height % 65536

/-- The source pixels `copyChar` reads for the glyph of `ch`, in reading order
(the decompressed data for the Czech font on the PSX). -/
def glyphData (env : Env) (t : Text) (ch : Nat) : Nat → Nat :=
  let ch := if ch < SPACE then 64 else ch
  if env.sv.isPsx ∧ t.fontId = env.defs.CZECH_GAME_FONT then
    env.decompressHIF (t.font ((ch : Int) - (SPACE : Int))).data
  else (t.font ((ch : Int) - (SPACE : Int))).data

/-- The colour codes of the game. -/
def gameDefs : Defs := ⟨193, 200, 199, 0, 1, 2⟩

/-- An environment whose font resource is `font`, with no decompression and no
reordering. -/
def envOf (sv : SystemVars) (font : Int → Frame) : Env :=
  ⟨sv, gameDefs, fun _ => font, fun data => data, fun s => s⟩

/-- A font of glyphs 10 pixels wide and 40000 high. -/
def tallFont : Int → Frame := fun _ => ⟨10, 40000, fun _ => 0⟩

/-- The block `makeTextSprite` stores for a wrap result `(numLines, lines)`. -/
def spriteOf (env : Env) (t : Text) (heap : Int → Nat) (text : List Nat) (pen : Nat)
    (numLines : Nat) (lines : Nat → LineInfo) : Sprite :=
  let sprWidth :=
    if env.sv.isPsx then ((widestLine lines numLines + 1) &&& 0xFFFE)
    else widestLine lines numLines
  let sprHeight :=
    if env.sv.isPsx then
      (((2 * (t.charHeight : Int) * (numLines : Int) - 4 * ((numLines : Int) - 1)) % 65536).toNat)
    else (t.charHeight * numLines) % 65536
  let sprSize := (sprWidth * sprHeight) % 4294967296
  { runTimeComp := [78, 117, 32, 32]
    compSize := 0
    width := sprWidth
    height := sprHeight
    offsetX := 0
    offsetY := 0
    size := sprSize
    pixels := drawLines env t lines sprWidth pen numLines 0 text 0
      (fun a => if 0 ≤ a ∧ a < (sprSize : Int) then env.defs.NO_COL else heap a) }

/-- A font of 2 x 2 glyphs whose pixels are, in reading order: blank, letter,
border, blank. -/
def dotFont : Int → Frame :=
  fun _ => ⟨2, 2, fun i => if i = 1 then 193 else if i = 2 then 200 else 0⟩

/-! ## Lines as parts of the text -/

/-- The offset of line `i` in the text: `o_0 = 0` and
`o_(i+1) = o_i + length_i + 1`, the advance `text += lines[lineCnt].length + 1`
of `makeTextSprite` (line 143). -/
def lineStart (lines : Nat → LineInfo) : Nat → Nat
  | 0 => 0
  | i + 1 => lineStart lines i + (lines i).length + 1

/-- The characters line `i` covers: `length_i` characters from offset `o_i`. -/
def lineText (text : List Nat) (lines : Nat → LineInfo) (i : Nat) : List Nat :=
  (text.drop (lineStart lines i)).take (lines i).length

/-- Pieces of text joined with single spaces. -/
def joinWords : List (List Nat) → List Nat
  | [] => []
  | [w] => w
  | w :: v :: ws => w ++ SPACE :: joinWords (v :: ws)

/-- The text rebuilt from the first `n` lines: the substrings the lines cover,
joined with single spaces. -/
def rebuild (text : List Nat) (lines : Nat → LineInfo) (n : Nat) : List Nat :=
  joinWords ((List.range n).map (lineText text lines))

/-- The words each line of the greedy wrap receives: `g` holds the words of the
line being filled (whose measure is `cur`). -/
def groupFrom (sv : SystemVars) (font : Int → Frame) (joinWidth maxWidth : Nat)
    (cur : LineInfo) (g : List (List Nat)) : List (List Nat) → List (List (List Nat))
  | [] => [g]
  | w :: ws =>
    if cur.width + (joinWidth + (wordInfo sv font w).width) % 65536 ≤ maxWidth then
      groupFrom sv font joinWidth maxWidth
        ⟨(cur.width + (joinWidth + (wordInfo sv font w).width) % 65536) % 65536,
         (cur.length + (1 + (wordInfo sv font w).length)) % 65536⟩ (g ++ [w]) ws
    else g :: groupFrom sv font joinWidth maxWidth (wordInfo sv font w) [w] ws

/-- The words of the text, line by line. -/
def wrapGroups (sv : SystemVars) (font : Int → Frame) (joinWidth maxWidth : Nat)
    (text : List Nat) : List (List (List Nat)) :=
  match textWords text with
  | [] => []
  | w :: ws => groupFrom sv font joinWidth maxWidth (wordInfo sv font w) [w] ws

/-- The text "A " (one trailing space). -/
def textATrail : List Nat := [65, 32]

/-- The text "A  " (two trailing spaces). -/
def textATrail2 : List Nat := [65, 32, 32]

/-! ## The sprite pool and the debug printer -/

/-- Constants of the object table and of the pool that text.cpp takes from the
engine's headers (sworddefs.h, object.h, text.h), which are not part of the
file: they are parameters. -/
structure PoolDefs where
  MAX_TEXT_OBS : Nat
  ITM_ID : Nat
  ITM_PER_SEC : Nat
  TEXT_sect : Nat
  STAT_FORE : Nat

/-- Writing `fetchObject(id)->o_status = v` in the object table, which is seen
as the function from object ids to their `o_status`. -/
def setStatus (status : Nat → Nat) (id v : Nat) : Nat → Nat :=
  fun j => if j = id then v else status j

/-- The value `lowTextManager` gives `textObjId` before its loop (line 82), as a
`uint32`. -/
def firstTextObj (pd : PoolDefs) : Nat :=
  ((((pd.TEXT_sect * pd.ITM_PER_SEC : Nat) : Int) - 1) % 4294967296).toNat

/-- The `do ... while` loop of `lowTextManager` (lines 83-85), run with a step
budget (the source puts no bound on it). -/
def findFreeObject (status : Nat → Nat) : Nat → Nat → Option Nat
  | 0, _ => none
  | fuel + 1, textObjId =>
    let textObjId := (textObjId + 1) % 4294967296
    if status textObjId ≠ 0 then findFreeObject status fuel textObjId
    else some textObjId

/-- `Text::lowTextManager`. `status` is the object table of `_objMan`, `fuel`
the step budget of the search loop, `stack` and `heap` are as in
`makeTextSprite`. Returns the object id, the members and the object table. -/
def lowTextManager (pd : PoolDefs) (env : Env) (t : Text) (status : Nat → Nat) (fuel : Nat)
    (stack : Nat → LineInfo) (heap : Int → Nat) (ascii : List Nat) (width : Int) (pen : Nat) :
    Except Fault (Nat × Text × (Nat → Nat)) :=
  let t := { t with textCount := t.textCount + 1 }
  if t.textCount > (pd.MAX_TEXT_OBS : Int) then .error .errorCalled
  else
    match findFreeObject status fuel (firstTextObj pd) with
    | none => .error .outOfFuel
    | some textObjId =>
      -- okay, found a free text object
      let status := setStatus status textObjId pd.STAT_FORE
      match makeTextSprite env t stack heap (textObjId % 256) ascii
          ((width % 65536).toNat) pen with
      | .error e => .error e
      | .ok t => .ok (textObjId, t, status)

/-- `Text::giveSpriteData`: returns the slot's content together with the
members, which it leaves as they are. -/
def giveSpriteData (pd : PoolDefs) (t : Text) (textTarget : Nat) :
    Except Fault (Option Sprite × Text) :=
  let textTarget := textTarget &&& pd.ITM_ID
  if textTarget < pd.MAX_TEXT_OBS then .ok (t.textBlocks textTarget, t)
  else .error .assertFailed

/-- `Text::releaseText`. -/
def releaseText (pd : PoolDefs) (t : Text) (id : Nat) (updateCount : Bool) :
    Except Fault Text :=
  let id := id &&& pd.ITM_ID
  if id < pd.MAX_TEXT_OBS then
    if (t.textBlocks id).isSome then
      let t := { t with textBlocks := fun i => if i = id then none else t.textBlocks i }
      if updateCount then .ok { t with textCount := t.textCount - 1 }
      else .ok t
    else .ok t
  else .error .assertFailed

/-- One turn of the loop of `printDebugLine`: what is handed to
`spriteClipAndSet` (the glyph index and the `uint16` values `newCoordsX`,
`newCoordsY`, `newWidth`, `newHeight`) and what is then handed to `drawSprite`
(`incr` and the clipped values). -/
structure DrawCall where
  glyph : Int
  clipX : Nat
  clipY : Nat
  clipW : Nat
  clipH : Nat
  incr : Nat
  x : Nat
  y : Nat
  w : Nat
  h : Nat
  deriving DecidableEq, Repr

/-- The body of the loop of `printDebugLine` up to the call of `drawSprite`
(lines 277-293) for the character `c` at cursor `x`. `clip` is
`Screen::spriteClipAndSet`, returning the new x, y, width, height and `incr`. -/
def debugCall (env : Env) (clip : Nat → Nat → Nat → Nat → Nat × Nat × Nat × Nat × Nat)
    (t : Text) (first : Nat) (y : Int) (c : Nat) (x : Int) : DrawCall :=
  let chr : Int := (c : Int) - (first : Int)
  let head := t.font chr
  let newCoordsX := (x % 65536).toNat
  let newCoordsY := (y % 65536).toNat
  let newWidth := head.width % 65536
  let newHeight := if env.sv.isPsx then head.height % 65536 / 2 else head.height % 65536
  let clipped := clip newCoordsX newCoordsY newWidth newHeight
  { glyph := chr, clipX := newCoordsX, clipY := newCoordsY, clipW := newWidth,
    clipH := newHeight, incr := clipped.2.2.2.2, x := clipped.1, y := clipped.2.1,
    w := clipped.2.2.1, h := clipped.2.2.2.1 }

/-- The cursor after the character `c` (lines 295-299). -/
def debugAdvance (env : Env) (t : Text) (first : Nat) (c : Nat) (x : Int) : Int :=
  let x := x + (((t.font ((c : Int) - (first : Int))).width % 65536 : Nat) : Int)
  -- The very first executable version didn't use any overlap
  if !env.sv.isEnglish then x - (DEBUG_OVERLAP : Int) else x

/-- The `do ... while` loop of `printDebugLine`. The body runs for the character
under `ascii` before the test: on the empty string it runs for the terminator,
and the test then reads the byte behind it, which this embedding takes to be 0. -/
def debugLoop (env : Env) (clip : Nat → Nat → Nat → Nat → Nat × Nat × Nat × Nat × Nat)
    (t : Text) (first : Nat) (y : Int) : List Nat → Int → List DrawCall
  | [], x => [debugCall env clip t first y 0 x]
  | c :: rest, x =>
    debugCall env clip t first y c x ::
      (if deref rest ≠ 0 then debugLoop env clip t first y rest (debugAdvance env t first c x)
       else [])

/-- `Text::printDebugLine`: the calls of `spriteClipAndSet` and `drawSprite` it
makes, in order, together with the members, which it leaves as they are. -/
def printDebugLine (env : Env) (clip : Nat → Nat → Nat → Nat → Nat × Nat × Nat × Nat × Nat)
    (t : Text) (ascii : List Nat) (first : Nat) (x y : Int) : List DrawCall × Text :=
  (debugLoop env clip t first y ascii x, t)

/-- Pool constants used in the examples: three text slots, item ids in the low
16 bits, 65536 items per section, text objects in section 149. -/
def gamePool : PoolDefs := ⟨3, 0xFFFF, 0x10000, 149, 8⟩

/-- A text of 31 one-letter words: "A A A ... A ". -/
def text31 : List Nat := (List.replicate 31 [65, 32]).flatten

/-- An object table in which the first 256 text objects of `gamePool` are in
use and every other object is free. -/
def busy256 : Nat → Nat := fun j => if j < 9764864 + 256 then 1 else 0

/-- A call made on the pool: `lowTextManager` (with the object table and the
memory it meets at that moment) or `releaseText`. -/
inductive PoolOp where
  | acquire (status : Nat → Nat) (fuel : Nat) (stack : Nat → LineInfo) (heap : Int → Nat)
      (ascii : List Nat) (width : Int) (pen : Nat)
  | release (id : Nat) (updateCount : Bool)

/-- Running a sequence of calls from the members `t`; a call that fails stops
the run with its failure. -/
def runOps (pd : PoolDefs) (env : Env) : Text → List PoolOp → Except Fault Text
  | t, [] => .ok t
  | t, PoolOp.acquire status fuel stack heap ascii width pen :: ops =>
    match lowTextManager pd env t status fuel stack heap ascii width pen with
    | .error e => .error e
    | .ok r => runOps pd env r.2.1 ops
  | t, PoolOp.release id updateCount :: ops =>
    match releaseText pd t id updateCount with
    | .error e => .error e
    | .ok t1 => runOps pd env t1 ops

/-- The number of non-empty slots among the first `n` entries of `_textBlocks`. -/
def liveSlots (textBlocks : Nat → Option Sprite) (n : Nat) : Nat :=
  (List.range n).countP (fun i => (textBlocks i).isSome)

/-- The amount the cursor of `printDebugLine` moves for the character `c`: the
raw width of its glyph, less `DEBUG_OVERLAP` when the language is not English. -/
def debugPitch (env : Env) (t : Text) (first c : Nat) : Int :=
  (((t.font ((c : Int) - (first : Int))).width % 65536 : Nat) : Int) -
    (if env.sv.isEnglish then 0 else (DEBUG_OVERLAP : Int))

/-! ## The extent of a drawn line -/

/-- The sum of `charWidth` over the characters `cs` less `overlap` for every
character but one. -/
def lineExtent (sv : SystemVars) (font : Int → Frame) (cs : List Nat) : Int :=
  (cs.map fun c => (charWidth font c : Int)).sum - (overlap sv : Int) * ((cs.length : Int) - 1)

/-- The number of sprite rows `makeTextSprite` moves `linePtr` by after a line
(lines 145-148). -/
def linePitch (env : Env) (t : Text) : Int :=
  if env.sv.isPsx then (t.charHeight : Int) - 4 else (t.charHeight : Int)

/-- The column at which `makeTextSprite` starts line `i` in a sprite
`sprWidth` wide (line 124). -/
def lineLeft (lines : Nat → LineInfo) (sprWidth i : Nat) : Int :=
  Int.tdiv ((sprWidth : Int) - ((lines i).width : Int)) 2

/-! ## The drawing of the lines, glyph by glyph

The definitions of this section follow the words of the specification (each
line is centred, its characters are composited one after the other, each moving
the cursor by its width less the overlap), not the loops of `makeTextSprite`:
they are compared with `drawChars` and `drawLines` below. -/

/-- The cursor at which character `j` of the line `cs` is composited when the
line starts at `p`: every character before it moved the cursor by its width
less the overlap. -/
def glyphLeft (sv : SystemVars) (font : Int → Frame) (cs : List Nat) (p : Int) (j : Nat) :
    Int :=
  p + ((cs.take j).map fun c => (charWidth font c : Int) - (overlap sv : Int)).sum

/-- The line `cs` composited character by character from the cursor `p`:
character `j` is handed to `copyChar` at `glyphLeft cs p j`. -/
def paintLine (env : Env) (t : Text) (sprWidth pen : Nat) (cs : List Nat) (p : Int)
    (mem : Int → Nat) : Int → Nat :=
  (List.range cs.length).foldl
    (fun m j =>
      (copyChar env t (cs.getD j 0) (glyphLeft env.sv t.font cs p j) sprWidth pen m).2) mem

/-- The `n` lines composited one after the other: line `i` covers the
characters `lineText text lines i` and starts `lineLeft` columns into the row
`i * linePitch`. -/
def paintLines (env : Env) (t : Text) (lines : Nat → LineInfo) (sprWidth pen : Nat)
    (text : List Nat) (n : Nat) (mem : Int → Nat) : Int → Nat :=
  (List.range n).foldl
    (fun m i =>
      paintLine env t sprWidth pen (lineText text lines i)
        ((i : Int) * linePitch env t * (sprWidth : Int) + lineLeft lines sprWidth i) m) mem

/-- A font of glyphs 4 wide and 2 high, all of letter pixels. -/
def inkFont : Int → Frame := fun _ => ⟨4, 2, fun _ => 193⟩

/-- A font of glyphs 4 rows high, all of letter pixels, whose space glyph is 300
wide and whose other glyphs are 3 wide. -/
def lowFont : Int → Frame :=
  fun i => if i = 0 then ⟨300, 4, fun _ => 193⟩ else ⟨3, 4, fun _ => 193⟩

/-- A font whose space glyph is 10 pixels wide and whose other glyphs are 1
pixel wide (narrower than the overlap). -/
def hairFont : Int → Frame :=
  fun i => if i = 0 then ⟨10, 12, fun _ => 0⟩ else ⟨1, 12, fun _ => 0⟩

/-- A text of 31 two-letter words: "AA AA ... AA ". -/
def text31AA : List Nat := (List.replicate 31 [65, 65, 32]).flatten

/-! # Theorems

## Basic facts about the scan -/

theorem scanWord_rest (sv : SystemVars) (font : Int → Frame) (text : List Nat) :
    ∀ w l, (scanWord sv font text w l).2.2 = wordRest text := by
  induction text with
  | nil => intro w l; rfl
  | cons c rest ih =>
    intro w l
    by_cases h : c ≠ SPACE ∧ c ≠ 0
    · simp only [scanWord, wordRest, if_pos h]; exact ih _ _
    · simp only [scanWord, wordRest, if_neg h]

theorem scanWord_firstWord (sv : SystemVars) (font : Int → Frame) (text : List Nat) :
    ∀ w l, (scanWord sv font text w l).1 = (scanWord sv font (firstWord text) w l).1 ∧
      (scanWord sv font text w l).2.1 = (scanWord sv font (firstWord text) w l).2.1 := by
  induction text with
  | nil => intro w l; exact ⟨rfl, rfl⟩
  | cons c rest ih =>
    intro w l
    by_cases h : c ≠ SPACE ∧ c ≠ 0
    · simp only [scanWord, firstWord, if_pos h]; exact ih _ _
    · simp only [scanWord, firstWord, if_neg h]
      exact ⟨trivial, trivial⟩

theorem wordRest_length_le (text : List Nat) : (wordRest text).length ≤ text.length := by
  induction text with
  | nil => simp [wordRest]
  | cons c rest ih =>
    by_cases h : c ≠ SPACE ∧ c ≠ 0
    · simp only [wordRest, if_pos h, List.length_cons]; omega
    · simp only [wordRest, if_neg h]; exact le_refl _

theorem afterWord_length_lt (text : List Nat) (h : deref text ≠ 0) :
    (afterWord text).length < text.length := by
  cases text with
  | nil => simp [deref] at h
  | cons c rest =>
    simp only [deref, List.headD_cons] at h
    by_cases hc : c = SPACE
    · subst hc
      simp [afterWord, wordRest, deref]
    · have hw : wordRest (c :: rest) = wordRest rest := by
        simp [wordRest, hc, h]
      have hle := wordRest_length_le rest
      unfold afterWord
      rw [hw]
      split
      · simp only [List.length_tail, List.length_cons]; omega
      · simp only [List.length_cons]; omega

theorem textWords_eq (text : List Nat) (h : deref text ≠ 0) :
    textWords text = firstWord text :: textWords (afterWord text) := by
  induction text with
  | nil => simp [deref] at h
  | cons c rest ih =>
    simp only [deref, List.headD_cons] at h
    by_cases hc : c = SPACE
    · subst hc
      simp [textWords, firstWord, afterWord, wordRest, deref, SPACE]
    · have hw : wordRest (c :: rest) = wordRest rest := by simp [wordRest, hc, h]
      have ha : afterWord (c :: rest) = afterWord rest := by simp [afterWord, hw]
      have hf : firstWord (c :: rest) = c :: firstWord rest := by simp [firstWord, hc, h]
      rw [ha, hf]
      simp only [textWords, if_neg h, if_neg hc]
      cases rest with
      | nil => simp [textWords, firstWord, afterWord, wordRest, deref, SPACE]
      | cons d rest2 =>
        by_cases hd : d = 0
        · subst hd
          simp [textWords, firstWord, afterWord, wordRest, deref, SPACE]
        · have := ih (by simpa [deref] using hd)
          rw [this]


/-! ## The loop computes the functional wrap -/

theorem wrapFrom_length_pos (jw mw : Nat) (ms : List LineInfo) :
    ∀ cur, 0 < (wrapFrom jw mw cur ms).length := by
  induction ms with
  | nil => intro cur; simp [wrapFrom]
  | cons m ms ih =>
    intro cur
    simp only [wrapFrom]
    split
    · exact ih _
    · simp

/-- One turn of the outer loop on a text that is not at its end. -/
theorem analyzeLoop_step (sv : SystemVars) (font : Int → Frame) (jw mw fuel : Nat)
    (text : List Nat) (lineNo : Nat) (fw : Bool) (line : Nat → LineInfo)
    (h : deref text ≠ 0) :
    analyzeLoop sv font jw mw (fuel + 1) text lineNo fw line =
      if fw then
        analyzeLoop sv font jw mw fuel (afterWord text) lineNo false
          (setLine line 0 (wordInfo sv font (firstWord text)))
      else if (line lineNo).width + (jw + (wordInfo sv font (firstWord text)).width) % 65536 ≤ mw then
        analyzeLoop sv font jw mw fuel (afterWord text) lineNo false
          (setLine line lineNo
            ⟨((line lineNo).width + (jw + (wordInfo sv font (firstWord text)).width) % 65536) % 65536,
             ((line lineNo).length + (1 + (wordInfo sv font (firstWord text)).length)) % 65536⟩)
      else if (lineNo + 1) % 65536 < MAX_LINES then
        analyzeLoop sv font jw mw fuel (afterWord text) ((lineNo + 1) % 65536) false
          (setLine line ((lineNo + 1) % 65536) (wordInfo sv font (firstWord text)))
      else .error .assertFailed := by
  have h1 := (scanWord_firstWord sv font text 0 0).1
  have h2 := (scanWord_firstWord sv font text 0 0).2
  have h3 := scanWord_rest sv font text 0 0
  simp only [analyzeLoop, if_neg h, h3, wordInfo, ← h1, ← h2, afterWord]

theorem analyzeLoop_eq (sv : SystemVars) (font : Int → Frame) (jw mw : Nat) :
    ∀ (fuel : Nat) (text : List Nat) (lineNo : Nat) (line : Nat → LineInfo),
      text.length < fuel → lineNo < MAX_LINES →
      analyzeLoop sv font jw mw fuel text lineNo false line =
        if lineNo + (wrapFrom jw mw (line lineNo)
            ((textWords text).map (wordInfo sv font))).length ≤ MAX_LINES then
          .ok (lineNo + (wrapFrom jw mw (line lineNo)
                ((textWords text).map (wordInfo sv font))).length,
               fun j => if lineNo ≤ j ∧ j < lineNo + (wrapFrom jw mw (line lineNo)
                    ((textWords text).map (wordInfo sv font))).length
                 then (wrapFrom jw mw (line lineNo)
                    ((textWords text).map (wordInfo sv font))).getD (j - lineNo) ⟨0, 0⟩
                 else line j)
        else .error .assertFailed := by
  intro fuel
  induction fuel with
  | zero => intro text lineNo line h; omega
  | succ fuel ih =>
    intro text lineNo line hlen hline
    have hML : MAX_LINES = 30 := rfl
    by_cases h0 : deref text = 0
    · have hw : textWords text = [] := by
        cases text with
        | nil => rfl
        | cons c rest =>
          simp only [deref, List.headD_cons] at h0
          simp [textWords, h0]
      have hmod : (lineNo + 1) % 65536 = lineNo + 1 := by omega
      simp only [analyzeLoop, if_pos h0, hw, List.map_nil, wrapFrom, List.length_singleton, hmod]
      rw [if_pos (by omega)]
      congr 2
      funext j
      split
      · rename_i hj
        have : j = lineNo := by omega
        subst this
        simp
      · rfl
    · have hlt := afterWord_length_lt text h0
      have hmod : (lineNo + 1) % 65536 = lineNo + 1 := by omega
      rw [analyzeLoop_step sv font jw mw fuel text lineNo false line h0, textWords_eq text h0]
      simp only [Bool.false_eq_true, if_false, List.map_cons, wrapFrom, hmod]
      by_cases hfit : (line lineNo).width + (jw + (wordInfo sv font (firstWord text)).width) % 65536 ≤ mw
      · rw [if_pos hfit, if_pos hfit, ih _ _ _ (by omega) hline]
        simp only [setLine, if_true]
        have hpos := wrapFrom_length_pos jw mw ((textWords (afterWord text)).map (wordInfo sv font))
          ⟨((line lineNo).width + (jw + (wordInfo sv font (firstWord text)).width) % 65536) % 65536,
           ((line lineNo).length + (1 + (wordInfo sv font (firstWord text)).length)) % 65536⟩
        split
        · congr 2
          funext j
          by_cases hj : lineNo ≤ j ∧ j < lineNo + (wrapFrom jw mw
              ⟨((line lineNo).width + (jw + (wordInfo sv font (firstWord text)).width) % 65536) % 65536,
               ((line lineNo).length + (1 + (wordInfo sv font (firstWord text)).length)) % 65536⟩
              ((textWords (afterWord text)).map (wordInfo sv font))).length
          · rw [if_pos hj, if_pos hj]
          · rw [if_neg hj, if_neg hj]
            have : j ≠ lineNo := by
              intro hjl
              apply hj
              omega
            rw [if_neg this]
        · rfl
      · rw [if_neg hfit, if_neg hfit]
        have hpos := wrapFrom_length_pos jw mw ((textWords (afterWord text)).map (wordInfo sv font))
          (wordInfo sv font (firstWord text))
        by_cases hnext : lineNo + 1 < MAX_LINES
        · rw [if_pos hnext, ih _ _ _ (by omega) hnext]
          simp only [setLine, if_true, List.length_cons]
          by_cases hfin : lineNo + 1 + (wrapFrom jw mw (wordInfo sv font (firstWord text))
              ((textWords (afterWord text)).map (wordInfo sv font))).length ≤ MAX_LINES
          · rw [if_pos hfin, if_pos (by omega)]
            congr 1
            refine Prod.ext (by simp only; omega) ?_
            funext j
            simp only
            by_cases hj0 : j = lineNo
            · subst hj0
              rw [if_neg (by omega), if_neg (by omega), if_pos (by omega)]
              simp
            · by_cases hj : lineNo + 1 ≤ j ∧ j < lineNo + 1 + (wrapFrom jw mw
                  (wordInfo sv font (firstWord text))
                  ((textWords (afterWord text)).map (wordInfo sv font))).length
              · rw [if_pos hj, if_pos (by omega)]
                have : j - lineNo = (j - (lineNo + 1)) + 1 := by omega
                rw [this, List.getD_cons_succ]
              · rw [if_neg hj, if_neg (by omega), if_neg (by omega)]
          · rw [if_neg hfin, if_neg (by omega)]
        · rw [if_neg hnext, if_neg]
          simp only [List.length_cons]
          omega

/-- The whole of `analyzeSentence` in functional form: it fails exactly when
the greedy wrap has more than `MAX_LINES` lines, and otherwise returns the
number of lines (1 for a text without words) and the array with the lines of
the wrap written over its first entries. -/
theorem analyzeSentence_eq (sv : SystemVars) (font : Int → Frame) (jw : Nat)
    (text : List Nat) (maxWidth : Nat) (line : Nat → LineInfo) :
    analyzeSentence sv font jw text maxWidth line =
      if (wrapLines sv font jw (effMaxWidth sv maxWidth) text).length ≤ MAX_LINES then
        .ok (max 1 (wrapLines sv font jw (effMaxWidth sv maxWidth) text).length,
             overlay line (wrapLines sv font jw (effMaxWidth sv maxWidth) text))
      else .error .assertFailed := by
  unfold analyzeSentence wrapLines
  show analyzeLoop sv font jw (effMaxWidth sv maxWidth) (text.length + 1) text 0 true line = _
  generalize effMaxWidth sv maxWidth = mw
  by_cases h0 : deref text = 0
  · have hw : textWords text = [] := by
      cases text with
      | nil => rfl
      | cons c rest =>
        simp only [deref, List.headD_cons] at h0
        simp [textWords, h0]
    simp only [analyzeLoop, if_pos h0, hw, List.map_nil, wrapInfos, List.length_nil, Nat.zero_le,
      if_true]
    congr 2
  · have hlt := afterWord_length_lt text h0
    rw [analyzeLoop_step sv font jw mw _ text 0 true line h0, textWords_eq text h0]
    simp only [if_true, List.map_cons, wrapInfos]
    rw [analyzeLoop_eq sv font jw mw _ _ 0 _ (by omega) (by decide)]
    simp only [setLine, if_true, Nat.zero_add, Nat.zero_le, true_and, Nat.sub_zero]
    have hpos := wrapFrom_length_pos jw mw ((textWords (afterWord text)).map (wordInfo sv font))
      (wordInfo sv font (firstWord text))
    split
    · congr 1
      refine Prod.ext ?_ ?_
      · simp only; omega
      · funext j
        simp only [overlay]
        split
        · rfl
        · rename_i hj
          have : j ≠ 0 := by omega
          rw [if_neg this]
    · rfl

/-! ## The functional wrap and the reference wrap -/

theorem overlap_le (sv : SystemVars) : overlap sv ≤ 3 := by
  unfold overlap OVERLAP DEMO_OVERLAP
  split <;> omega

theorem textWords_clean (text : List Nat) :
    ∀ w ∈ textWords text, ∀ c ∈ w, c ≠ SPACE ∧ c ≠ 0 := by
  induction text with
  | nil => intro w hw; simp [textWords] at hw
  | cons d rest ih =>
    intro w hw
    by_cases h0 : d = 0
    · simp [textWords, h0] at hw
    · by_cases hs : d = SPACE
      · simp only [textWords, if_neg h0, if_pos hs, List.mem_cons] at hw
        rcases hw with hw | hw
        · subst hw; intro c hc; simp at hc
        · exact ih w hw
      · simp only [textWords, if_neg h0, if_neg hs] at hw
        cases hrest : textWords rest with
        | nil =>
          rw [hrest] at hw
          simp only [List.mem_singleton] at hw
          subst hw
          intro c hc
          simp only [List.mem_singleton] at hc
          subst hc
          exact ⟨hs, h0⟩
        | cons v vs =>
          rw [hrest] at hw ih
          simp only [List.mem_cons] at hw
          rcases hw with hw | hw
          · subst hw
            intro c hc
            simp only [List.mem_cons] at hc
            rcases hc with hc | hc
            · subst hc; exact ⟨hs, h0⟩
            · exact ih v (by simp) c hc
          · exact ih w (by simp [hw])

theorem charWidth_lt (font : Int → Frame) (c : Nat) : charWidth font c < 65536 := by
  unfold charWidth
  exact Nat.mod_lt _ (by decide)

theorem scanWord_clean (sv : SystemVars) (font : Int → Frame) (w : List Nat)
    (hw : ∀ c ∈ w, c ≠ SPACE ∧ c ≠ 0) :
    ∀ a l, ((scanWord sv font w a l).1 : Int) % 65536 =
        ((a : Int) + (w.map fun c => (charWidth font c : Int)).sum
          - (overlap sv : Int) * (w.length : Int)) % 65536 ∧
      (scanWord sv font w a l).2.1 % 65536 = (l + w.length) % 65536 ∧
      (scanWord sv font w a l).2.2 = [] := by
  induction w with
  | nil => intro a l; simp [scanWord]
  | cons c w ih =>
    intro a l
    have hc := hw c (by simp)
    have ih2 := ih (fun d hd => hw d (by simp [hd]))
      (((a + charWidth font c) % 65536 + 65536 - overlap sv) % 65536) ((l + 1) % 65536)
    have hov := overlap_le sv
    have hcw := charWidth_lt font c
    simp only [scanWord, if_pos hc, List.map_cons, List.sum_cons, List.length_cons]
    refine ⟨?_, ?_, ih2.2.2⟩
    · rw [ih2.1]
      have : (overlap sv : Int) * ((w.length + 1 : Nat) : Int)
          = (overlap sv : Int) * (w.length : Int) + overlap sv := by push_cast; ring
      rw [this]
      omega
    · rw [ih2.2.1]
      omega

theorem scanWord_lt (sv : SystemVars) (font : Int → Frame) (w : List Nat) :
    ∀ a l, l < 65536 → (scanWord sv font w a l).2.1 < 65536 := by
  induction w with
  | nil => intro a l h; simpa [scanWord] using h
  | cons c w ih =>
    intro a l h
    simp only [scanWord]
    split
    · exact ih _ _ (Nat.mod_lt _ (by decide))
    · exact h

theorem wordInfo_clean (sv : SystemVars) (font : Int → Frame) (w : List Nat)
    (hw : ∀ c ∈ w, c ≠ SPACE ∧ c ≠ 0) :
    ((wordInfo sv font w).width : Int) = refWordWidth sv font w % 65536 ∧
      (wordInfo sv font w).length = w.length % 65536 := by
  have h := scanWord_clean sv font w hw 0 0
  have hl := scanWord_lt sv font w 0 0 (by decide)
  unfold wordInfo refWordWidth
  refine ⟨?_, ?_⟩
  · have h1 := h.1
    have : (overlap sv : Int) * ((w.length : Int) - 1)
        = (overlap sv : Int) * (w.length : Int) - overlap sv := by ring
    rw [this]
    simp only
    omega
  · have h2 := h.2.1
    simp only
    omega

theorem initJoinWidth_ref (sv : SystemVars) (font : Int → Frame) :
    ((initJoinWidth sv font : Nat) : Int) = refJoinWidth sv font % 65536 := by
  have hcw := charWidth_lt font SPACE
  unfold initJoinWidth refJoinWidth overlap OVERLAP DEMO_OVERLAP
  cases sv.isDemo <;> simp <;> omega

theorem wrapFrom_ref (sv : SystemVars) (font : Int → Frame) (mw : Nat) (hmw : mw < 65536) :
    ∀ (ws : List (List Nat)) (cur : RefLine), 0 ≤ cur.width →
      (∀ w ∈ ws, (∀ c ∈ w, c ≠ SPACE ∧ c ≠ 0) ∧
        (0 ≤ refWordWidth sv font w ∧ refWordWidth sv font w < 65536) ∧
        (0 ≤ refJoinWidth sv font + refWordWidth sv font w ∧
          refJoinWidth sv font + refWordWidth sv font w < 65536)) →
      wrapFrom (initJoinWidth sv font) mw cur.toLineInfo (ws.map (wordInfo sv font)) =
        (refFill sv font mw cur ws).map RefLine.toLineInfo := by
  intro ws
  induction ws with
  | nil => intro cur _ _; simp [wrapFrom, refFill]
  | cons w ws ih =>
    intro cur hcur hws
    obtain ⟨hclean, hw1, hw2⟩ := hws w (by simp)
    have hrest : ∀ v ∈ ws, (∀ c ∈ v, c ≠ SPACE ∧ c ≠ 0) ∧
        (0 ≤ refWordWidth sv font v ∧ refWordWidth sv font v < 65536) ∧
        (0 ≤ refJoinWidth sv font + refWordWidth sv font v ∧
          refJoinWidth sv font + refWordWidth sv font v < 65536) :=
      fun v hv => hws v (by simp [hv])
    obtain ⟨hi1, hi2⟩ := wordInfo_clean sv font w hclean
    have hj := initJoinWidth_ref sv font
    have hneed : (((initJoinWidth sv font + (wordInfo sv font w).width) % 65536 : Nat) : Int)
        = refJoinWidth sv font + refWordWidth sv font w := by omega
    simp only [List.map_cons, wrapFrom, refFill, RefLine.toLineInfo]
    by_cases hfit : cur.width + refJoinWidth sv font + refWordWidth sv font w ≤ mw
    · rw [if_pos hfit, if_pos (by omega)]
      have := ih ⟨cur.width + (refJoinWidth sv font + refWordWidth sv font w),
        cur.length + (1 + w.length)⟩ (by simp only; omega) hrest
      rw [← this]
      congr 1
      simp only [RefLine.toLineInfo, LineInfo.mk.injEq]
      constructor <;> omega
    · rw [if_neg hfit, if_neg (by omega)]
      have := ih ⟨refWordWidth sv font w, w.length⟩ hw1.1 hrest
      simp only [List.map_cons, RefLine.toLineInfo]
      rw [← this]
      congr 2
      simp only [RefLine.toLineInfo]
      rw [show wordInfo sv font w = ⟨(wordInfo sv font w).width, (wordInfo sv font w).length⟩ from rfl]
      simp only [LineInfo.mk.injEq]
      constructor <;> omega

theorem wrapLines_ref (sv : SystemVars) (font : Int → Frame) (mw : Nat) (hmw : mw < 65536)
    (text : List Nat)
    (hw : ∀ w ∈ textWords text,
      0 ≤ refWordWidth sv font w ∧ refWordWidth sv font w < 65536)
    (hj : ∀ w ∈ (textWords text).tail,
      0 ≤ refJoinWidth sv font + refWordWidth sv font w ∧
        refJoinWidth sv font + refWordWidth sv font w < 65536) :
    wrapLines sv font (initJoinWidth sv font) mw text =
      (referenceWrap sv font mw text).map RefLine.toLineInfo := by
  have hclean := textWords_clean text
  unfold wrapLines referenceWrap
  cases hws : textWords text with
  | nil => simp [wrapInfos]
  | cons w ws =>
    rw [hws] at hw hj hclean
    simp only [List.map_cons, wrapInfos]
    obtain ⟨hi1, hi2⟩ := wordInfo_clean sv font w (hclean w (by simp))
    have h1 := hw w (by simp)
    have := wrapFrom_ref sv font mw hmw ws ⟨refWordWidth sv font w, w.length⟩ h1.1
      (fun v hv => ⟨hclean v (by simp [hv]), hw v (by simp [hv]), hj v (by simpa using hv)⟩)
    rw [← this]
    congr 1
    simp only [RefLine.toLineInfo]
    rw [show wordInfo sv font w = ⟨(wordInfo sv font w).width, (wordInfo sv font w).length⟩ from rfl]
    simp only [LineInfo.mk.injEq]
    constructor <;> omega

/-! ## C1: the wrapper and the reference greedy wrap -/

theorem textWords_replicate (c : Nat) (h0 : c ≠ 0) (hs : c ≠ SPACE) (n : Nat) :
    textWords (List.replicate (n + 1) c) = [List.replicate (n + 1) c] := by
  induction n with
  | zero => simp [textWords, h0, hs]
  | succ n ih =>
    rw [List.replicate_succ, textWords, if_neg h0, if_neg hs, ih]

theorem refWordWidth_replicate (n : Nat) :
    refWordWidth pcVars thinFont (List.replicate n 65) = 3 := by
  have hc : (charWidth thinFont 65 : Int) = 3 := by decide
  have ho : (overlap pcVars : Int) = 3 := rfl
  simp only [refWordWidth, hc, List.map_replicate, List.sum_replicate,
    List.length_replicate, ho, nsmul_eq_mul]
  ring

theorem wordInfo_replicate (n : Nat) :
    wordInfo pcVars thinFont (List.replicate n 65) = ⟨3, n % 65536⟩ := by
  have hclean : ∀ d ∈ List.replicate n 65, d ≠ SPACE ∧ d ≠ 0 := by
    intro d hd
    have := List.eq_of_mem_replicate hd
    subst this
    decide
  obtain ⟨h1, h2⟩ := wordInfo_clean pcVars thinFont (List.replicate n 65) hclean
  rw [refWordWidth_replicate] at h1
  rw [List.length_replicate] at h2
  rw [show wordInfo pcVars thinFont (List.replicate n 65) =
    ⟨(wordInfo pcVars thinFont (List.replicate n 65)).width,
     (wordInfo pcVars thinFont (List.replicate n 65)).length⟩ from rfl]
  simp only [LineInfo.mk.injEq]
  constructor <;> omega

theorem textWords_longWord : textWords longWord = [longWord] :=
  textWords_replicate 65 (by decide) (by decide) 65535

theorem refWordWidth_longWord : refWordWidth pcVars thinFont longWord = 3 :=
  refWordWidth_replicate 65536

theorem wordInfo_longWord : wordInfo pcVars thinFont longWord = ⟨3, 0⟩ :=
  wordInfo_replicate 65536

theorem length_longWord : longWord.length = 65536 :=
  List.length_replicate 65536 65

/-- **C1**, as amended. Outside PSX mode, for a non-empty text whose reference
word widths and join widths fit in 16 bits, `analyzeSentence` (with the
`_joinWidth` the constructor computes) returns the reference greedy wrap: the
returned count is the number of reference lines and entry `i` of the array
holds reference line `i`, its width as is and its length modulo `2^16`; the
other entries keep their content. When the reference wrap has more than
`MAX_LINES` lines the call fails on its assertion instead. -/
theorem analyzeSentence_eq_referenceWrap (sv : SystemVars) (font : Int → Frame)
    (text : List Nat) (maxWidth : Nat) (line : Nat → LineInfo)
    (hpsx : sv.isPsx = false) (hmax : maxWidth < 65536) (hne : deref text ≠ 0)
    (hw : ∀ w ∈ textWords text,
      0 ≤ refWordWidth sv font w ∧ refWordWidth sv font w < 65536)
    (hj : ∀ w ∈ (textWords text).tail,
      0 ≤ refJoinWidth sv font + refWordWidth sv font w ∧
        refJoinWidth sv font + refWordWidth sv font w < 65536) :
    analyzeSentence sv font (initJoinWidth sv font) text maxWidth line =
      if (referenceWrap sv font maxWidth text).length ≤ MAX_LINES then
        .ok ((referenceWrap sv font maxWidth text).length,
             overlay line ((referenceWrap sv font maxWidth text).map RefLine.toLineInfo))
      else .error .assertFailed := by
  have heff : effMaxWidth sv maxWidth = maxWidth := by simp [effMaxWidth, hpsx]
  rw [analyzeSentence_eq, heff, wrapLines_ref sv font maxWidth hmax text hw hj]
  simp only [List.length_map]
  have hpos : 0 < (referenceWrap sv font maxWidth text).length := by
    have := congrArg List.length (wrapLines_ref sv font maxWidth hmax text hw hj)
    simp only [List.length_map] at this
    rw [← this]
    unfold wrapLines
    rw [textWords_eq text hne]
    exact wrapFrom_length_pos _ _ _ _
  rw [max_eq_right hpos]

/-- Witness for C1: "HELLO WORLD" in a font of 10-pixel glyphs gives one line of
length 11 when both words fit (width 100) and two lines of lengths 5 and 5 when
only "HELLO" fits (width 40). -/
theorem analyzeSentence_eq_referenceWrap_witness :
    (∃ lines, analyzeSentence pcVars (plainFont 10) (initJoinWidth pcVars (plainFont 10))
        helloWorld 100 staleLines = .ok (1, lines) ∧ lines 0 = ⟨80, 11⟩) ∧
    (∃ lines, analyzeSentence pcVars (plainFont 10) (initJoinWidth pcVars (plainFont 10))
        helloWorld 40 staleLines = .ok (2, lines) ∧ lines 0 = ⟨38, 5⟩ ∧ lines 1 = ⟨38, 5⟩) := by
  have h1 := analyzeSentence_eq_referenceWrap pcVars (plainFont 10) helloWorld 100 staleLines
    rfl (by decide) (by decide) (by decide) (by decide)
  have h2 := analyzeSentence_eq_referenceWrap pcVars (plainFont 10) helloWorld 40 staleLines
    rfl (by decide) (by decide) (by decide) (by decide)
  rw [if_pos (by decide)] at h1 h2
  exact ⟨⟨_, h1, by decide⟩, ⟨_, h2, by decide, by decide⟩⟩


theorem wrapLines_longWord (jw mw : Nat) :
    wrapLines pcVars thinFont jw mw longWord = [⟨3, 0⟩] := by
  unfold wrapLines
  rw [textWords_longWord, List.map_singleton, wordInfo_longWord]
  rfl

theorem referenceWrap_single (sv : SystemVars) (font : Int → Frame) (mw : Nat)
    (text w : List Nat) (h : textWords text = [w]) :
    referenceWrap sv font mw text = [⟨refWordWidth sv font w, w.length⟩] := by
  unfold referenceWrap
  rw [h]
  rfl

theorem referenceWrap_longWord (mw : Nat) :
    referenceWrap pcVars thinFont mw longWord = [⟨3, 65536⟩] := by
  rw [referenceWrap_single _ _ _ _ _ textWords_longWord, refWordWidth_longWord, length_longWord]

/-- Counterexample to C1 as stated: in a font whose letters are 3 pixels wide
and whose space is 10 wide, the join width is 4 and a single word of 65536
letters has reference width 3, so no width leaves the 16-bit range; its
reference line has length 65536, and the program stores length 0. -/
theorem analyzeSentence_length_wraps :
    pcVars.isPsx = false ∧ refJoinWidth pcVars thinFont = 4 ∧
    initJoinWidth pcVars thinFont = 4 ∧
    (∀ w ∈ textWords longWord,
      0 ≤ refWordWidth pcVars thinFont w ∧ refWordWidth pcVars thinFont w < 65536) ∧
    (∀ w ∈ (textWords longWord).tail,
      0 ≤ refJoinWidth pcVars thinFont + refWordWidth pcVars thinFont w ∧
        refJoinWidth pcVars thinFont + refWordWidth pcVars thinFont w < 65536) ∧
    referenceWrap pcVars thinFont 100 longWord = [⟨3, 65536⟩] ∧
    ∃ lines, analyzeSentence pcVars thinFont (initJoinWidth pcVars thinFont)
        longWord 100 staleLines = .ok (1, lines) ∧ lines 0 = ⟨3, 0⟩ := by
  refine ⟨rfl, by decide, by decide, ?_, ?_, referenceWrap_longWord 100, ?_⟩
  · intro w hw
    rw [textWords_longWord, List.mem_singleton] at hw
    rw [hw, refWordWidth_longWord]
    omega
  · intro w hw
    rw [textWords_longWord] at hw
    exact absurd hw (List.not_mem_nil w)
  · refine ⟨overlay staleLines [⟨3, 0⟩], ?_, rfl⟩
    rw [analyzeSentence_eq, wrapLines_longWord]
    rfl

/-! ## What a successful call returns -/

theorem wrapLines_length_pos (sv : SystemVars) (font : Int → Frame) (jw mw : Nat)
    (text : List Nat) (h : deref text ≠ 0) : 0 < (wrapLines sv font jw mw text).length := by
  unfold wrapLines
  rw [textWords_eq text h]
  exact wrapFrom_length_pos _ _ _ _

theorem analyzeSentence_ok (sv : SystemVars) (font : Int → Frame) (jw : Nat)
    (text : List Nat) (maxWidth : Nat) (line : Nat → LineInfo) (n : Nat)
    (lines : Nat → LineInfo)
    (h : analyzeSentence sv font jw text maxWidth line = .ok (n, lines)) :
    (wrapLines sv font jw (effMaxWidth sv maxWidth) text).length ≤ MAX_LINES ∧
      n = max 1 (wrapLines sv font jw (effMaxWidth sv maxWidth) text).length ∧
      lines = overlay line (wrapLines sv font jw (effMaxWidth sv maxWidth) text) := by
  rw [analyzeSentence_eq] at h
  split at h
  · rename_i hle
    simp only [Except.ok.injEq, Prod.mk.injEq] at h
    exact ⟨hle, h.1.symm, h.2.symm⟩
  · simp at h

theorem overlay_lt (line : Nat → LineInfo) (L : List LineInfo) (i : Nat) (h : i < L.length) :
    overlay line L i = L.get ⟨i, h⟩ := by
  simp [overlay, h, List.getD_eq_getElem]

theorem overlay_ge (line : Nat → LineInfo) (L : List LineInfo) (i : Nat) (h : L.length ≤ i) :
    overlay line L i = line i := by
  simp [overlay, Nat.not_lt.mpr h]

/-! ## C2: no line is wider than the limit, a lone over-wide word apart -/

theorem wrapFrom_width (jw mw : Nat) (M : List LineInfo) :
    ∀ (ms : List LineInfo) (cur : LineInfo),
      (cur.width ≤ mw ∨ (cur ∈ M ∧ mw < cur.width)) → (∀ m ∈ ms, m ∈ M) →
      ∀ l ∈ wrapFrom jw mw cur ms, l.width ≤ mw ∨ (l ∈ M ∧ mw < l.width) := by
  intro ms
  induction ms with
  | nil =>
    intro cur hcur _ l hl
    simp only [wrapFrom, List.mem_singleton] at hl
    subst hl
    exact hcur
  | cons m ms ih =>
    intro cur hcur hM l hl
    simp only [wrapFrom] at hl
    split at hl
    · rename_i hfit
      refine ih _ (Or.inl ?_) (fun x hx => hM x (by simp [hx])) l hl
      exact le_trans (Nat.mod_le _ _) hfit
    · simp only [List.mem_cons] at hl
      rcases hl with hl | hl
      · subst hl; exact hcur
      · refine ih m ?_ (fun x hx => hM x (by simp [hx])) l hl
        by_cases hm : m.width ≤ mw
        · exact Or.inl hm
        · exact Or.inr ⟨hM m (by simp), by omega⟩

theorem wrapLines_width (sv : SystemVars) (font : Int → Frame) (jw mw : Nat) (text : List Nat) :
    ∀ l ∈ wrapLines sv font jw mw text, l.width ≤ mw ∨
      ∃ w ∈ textWords text, l = wordInfo sv font w ∧ mw < (wordInfo sv font w).width := by
  intro l hl
  unfold wrapLines at hl
  cases hws : textWords text with
  | nil => rw [hws] at hl; simp [wrapInfos] at hl
  | cons w ws =>
    rw [hws] at hl
    simp only [List.map_cons, wrapInfos] at hl
    have := wrapFrom_width jw mw ((w :: ws).map (wordInfo sv font)) (ws.map (wordInfo sv font))
      (wordInfo sv font w) (by
        by_cases hm : (wordInfo sv font w).width ≤ mw
        · exact Or.inl hm
        · exact Or.inr ⟨by simp, by omega⟩)
      (fun m hm => by simp only [List.map_cons, List.mem_cons]; exact Or.inr hm) l hl
    rcases this with h | ⟨hmem, hwide⟩
    · exact Or.inl h
    · obtain ⟨v, hv, rfl⟩ := List.mem_map.mp hmem
      exact Or.inr ⟨v, hv, rfl, hwide⟩

/-- **C2**, as amended. For every non-empty text, every line that
`analyzeSentence` returns has width at most the limit in force (the caller's
`maxWidth`, or 254 on the PSX), except a line that is a single word of the text
whose own width exceeds that limit: such a line holds exactly that word (its
width and length are the word's). -/
theorem analyzeSentence_width_le (sv : SystemVars) (font : Int → Frame) (jw : Nat)
    (text : List Nat) (maxWidth : Nat) (line : Nat → LineInfo) (n : Nat)
    (lines : Nat → LineInfo) (hne : deref text ≠ 0)
    (h : analyzeSentence sv font jw text maxWidth line = .ok (n, lines)) :
    ∀ i, i < n → (lines i).width ≤ effMaxWidth sv maxWidth ∨
      ∃ w ∈ textWords text, lines i = wordInfo sv font w ∧
        effMaxWidth sv maxWidth < (wordInfo sv font w).width := by
  obtain ⟨_, hn, hlines⟩ := analyzeSentence_ok sv font jw text maxWidth line n lines h
  have hpos := wrapLines_length_pos sv font jw (effMaxWidth sv maxWidth) text hne
  intro i hi
  have hi2 : i < (wrapLines sv font jw (effMaxWidth sv maxWidth) text).length := by
    rw [hn] at hi; omega
  rw [hlines, overlay_lt _ _ i hi2]
  exact wrapLines_width sv font jw (effMaxWidth sv maxWidth) text _ (List.get_mem _ _ _)

/-- Witness for C2: "HELLO WORLD" in a font of 10-pixel glyphs. At width 40 both
lines are 38 wide; at width 20 each line is a single word that is wider than
the limit. -/
theorem analyzeSentence_width_le_witness :
    ((overlay staleLines [⟨38, 5⟩, ⟨38, 5⟩] 0).width ≤ effMaxWidth pcVars 40 ∨
      ∃ w ∈ textWords helloWorld,
        overlay staleLines [⟨38, 5⟩, ⟨38, 5⟩] 0 = wordInfo pcVars (plainFont 10) w ∧
        effMaxWidth pcVars 40 < (wordInfo pcVars (plainFont 10) w).width) ∧
    ((overlay staleLines [⟨38, 5⟩, ⟨38, 5⟩] 1).width ≤ effMaxWidth pcVars 20 ∨
      ∃ w ∈ textWords helloWorld,
        overlay staleLines [⟨38, 5⟩, ⟨38, 5⟩] 1 = wordInfo pcVars (plainFont 10) w ∧
        effMaxWidth pcVars 20 < (wordInfo pcVars (plainFont 10) w).width) :=
  ⟨analyzeSentence_width_le pcVars (plainFont 10) (initJoinWidth pcVars (plainFont 10))
      helloWorld 40 staleLines 2 (overlay staleLines [⟨38, 5⟩, ⟨38, 5⟩]) (by decide)
      (by rw [analyzeSentence_eq]; rfl) 0 (by decide),
   analyzeSentence_width_le pcVars (plainFont 10) (initJoinWidth pcVars (plainFont 10))
      helloWorld 20 staleLines 2 (overlay staleLines [⟨38, 5⟩, ⟨38, 5⟩]) (by decide)
      (by rw [analyzeSentence_eq]; rfl) 1 (by decide)⟩

/-- Counterexample to C2 as stated: on the PSX with `maxWidth = 10`, "A B" in a
font of 10-pixel glyphs is returned as one line that is 24 wide and holds both
words. -/
theorem analyzeSentence_psx_exceeds_maxWidth :
    textWords textAB = [[65], [66]] ∧
    ∃ lines, analyzeSentence psxVars (plainFont 10) (initJoinWidth psxVars (plainFont 10))
        textAB 10 staleLines = .ok (1, lines) ∧ lines 0 = ⟨24, 3⟩ ∧ ¬ (lines 0).width ≤ 10 := by
  refine ⟨by decide, overlay staleLines [⟨24, 3⟩], ?_, by decide, by decide⟩
  rw [analyzeSentence_eq]
  rfl

/-! ## C6: the assertion on the number of lines -/

/-- **C6**, as amended. `analyzeSentence` stops only on its assertion, and
does so if and only if the wrap computed with the 16-bit widths of the program
(under the width limit in force) has more than `MAX_LINES = 30` lines. When
`_joinWidth` is as constructed and no word width and no `joinWidth + wordWidth`
leaves the range `0 .. 65535`, this is the case if and only if the greedy wrap
of the text (the reference wrap of the specification, under the width limit in
force) needs more than 30 lines. Whenever the call returns, the returned count
`n` satisfies `1 <= n <= 30` and the entries of the line array from `n` on are
untouched. -/
theorem analyzeSentence_fails_iff (sv : SystemVars) (font : Int → Frame) (jw : Nat)
    (text : List Nat) (maxWidth : Nat) (line : Nat → LineInfo) :
    (analyzeSentence sv font jw text maxWidth line = .error .assertFailed ↔
      MAX_LINES < (wrapLines sv font jw (effMaxWidth sv maxWidth) text).length) ∧
    (jw = initJoinWidth sv font → maxWidth < 65536 →
      (∀ w ∈ textWords text,
        0 ≤ refWordWidth sv font w ∧ refWordWidth sv font w < 65536) →
      (∀ w ∈ (textWords text).tail,
        0 ≤ refJoinWidth sv font + refWordWidth sv font w ∧
          refJoinWidth sv font + refWordWidth sv font w < 65536) →
      (analyzeSentence sv font jw text maxWidth line = .error .assertFailed ↔
        MAX_LINES < (referenceWrap sv font (effMaxWidth sv maxWidth) text).length)) ∧
    analyzeSentence sv font jw text maxWidth line ≠ .error .outOfFuel ∧
    ∀ n lines, analyzeSentence sv font jw text maxWidth line = .ok (n, lines) →
      1 ≤ n ∧ n ≤ MAX_LINES ∧ ∀ i, n ≤ i → lines i = line i := by
  have hiff : analyzeSentence sv font jw text maxWidth line = .error .assertFailed ↔
      MAX_LINES < (wrapLines sv font jw (effMaxWidth sv maxWidth) text).length := by
    rw [analyzeSentence_eq]
    split
    · rename_i hle
      simp only [reduceCtorEq, false_iff, not_lt]
      exact hle
    · rename_i hle
      simp only [true_iff]
      omega
  refine ⟨hiff, ?_, ?_, ?_⟩
  · intro hjw hmax hw hj
    have hmw : effMaxWidth sv maxWidth < 65536 := by
      unfold effMaxWidth
      split <;> omega
    have href := wrapLines_ref sv font (effMaxWidth sv maxWidth) hmw text hw hj
    rw [hiff, hjw, href, List.length_map]
  · rw [analyzeSentence_eq]
    split <;> simp
  · intro n lines h
    obtain ⟨hle, hn, hlines⟩ := analyzeSentence_ok sv font jw text maxWidth line n lines h
    have hML : MAX_LINES = 30 := rfl
    refine ⟨by omega, by omega, ?_⟩
    intro i hi
    rw [hlines, overlay_ge]
    omega

/-- Witness for C6: 31 one-letter words at width 0 in a font of glyphs 10 wide:
no width leaves the 16-bit range, the greedy wrap needs 31 lines, and the call
fails on its assertion. -/
theorem analyzeSentence_fails_iff_witness :
    MAX_LINES < (referenceWrap pcVars (plainFont 10) (effMaxWidth pcVars 0) text31).length ∧
    analyzeSentence pcVars (plainFont 10) (initJoinWidth pcVars (plainFont 10)) text31 0
      staleLines = .error .assertFailed := by
  have h := (analyzeSentence_fails_iff pcVars (plainFont 10)
    (initJoinWidth pcVars (plainFont 10)) text31 0 staleLines).2.1 rfl (by decide)
    (by decide) (by decide)
  have hlen : MAX_LINES <
      (referenceWrap pcVars (plainFont 10) (effMaxWidth pcVars 0) text31).length := by
    decide
  exact ⟨hlen, h.mpr hlen⟩

/-- Counterexample to C6 as stated: in a font whose letters are 1 pixel wide
(narrower than the overlap) and whose space is 10 wide, the greedy wrap of 31
words "AA" at width 100 needs one line (each word is -1 wide and joins at +3),
yet the call fails on its assertion: the program stores the word width as
65535, so every word opens a line. -/
theorem analyzeSentence_fails_on_one_line :
    (referenceWrap pcVars hairFont 100 text31AA).length = 1 ∧
    (wrapLines pcVars hairFont (initJoinWidth pcVars hairFont) (effMaxWidth pcVars 100)
      text31AA).length = 31 ∧
    analyzeSentence pcVars hairFont (initJoinWidth pcVars hairFont) text31AA 100 staleLines =
      .error .assertFailed := by
  have hlen : (wrapLines pcVars hairFont (initJoinWidth pcVars hairFont)
      (effMaxWidth pcVars 100) text31AA).length = 31 := by decide
  refine ⟨by decide, hlen, ?_⟩
  rw [analyzeSentence_eq, hlen]
  rfl

/-! ## The sprite builder -/

theorem makeTextSprite_ok (env : Env) (t : Text) (stack : Nat → LineInfo) (heap : Int → Nat)
    (slot : Nat) (text : List Nat) (maxWidth pen n : Nat) (lines : Nat → LineInfo)
    (hA : analyzeSentence env.sv t.font t.joinWidth text maxWidth stack = .ok (n, lines))
    (hS : t.textBlocks slot = none) :
    makeTextSprite env t stack heap slot text maxWidth pen =
      .ok { t with textBlocks := fun i =>
              if i = slot then some (spriteOf env t heap text pen n lines)
              else t.textBlocks i } := by
  unfold makeTextSprite
  rw [hA]
  simp only [hS, Option.isSome_none, Bool.false_eq_true, if_false]
  unfold spriteOf
  cases env.sv.isPsx <;> rfl

theorem makeTextSprite_error (env : Env) (t : Text) (stack : Nat → LineInfo)
    (heap : Int → Nat) (slot : Nat) (text : List Nat) (maxWidth pen : Nat) (e : Fault)
    (hA : analyzeSentence env.sv t.font t.joinWidth text maxWidth stack = .error e) :
    makeTextSprite env t stack heap slot text maxWidth pen = .error e := by
  unfold makeTextSprite
  rw [hA]

theorem makeTextSprite_occupied (env : Env) (t : Text) (stack : Nat → LineInfo)
    (heap : Int → Nat) (slot : Nat) (text : List Nat) (maxWidth pen n : Nat)
    (lines : Nat → LineInfo)
    (hA : analyzeSentence env.sv t.font t.joinWidth text maxWidth stack = .ok (n, lines))
    (hS : (t.textBlocks slot).isSome = true) :
    makeTextSprite env t stack heap slot text maxWidth pen = .error .assertFailed := by
  unfold makeTextSprite
  rw [hA]
  simp only [hS, if_true]

theorem widestLine_succ (lines : Nat → LineInfo) (n : Nat) :
    widestLine lines (n + 1) =
      if (lines n).width > widestLine lines n then (lines n).width else widestLine lines n := by
  unfold widestLine
  rw [List.range_succ, List.foldl_append]
  rfl

theorem widestLine_ge (lines : Nat → LineInfo) (n : Nat) :
    ∀ i, i < n → (lines i).width ≤ widestLine lines n := by
  induction n with
  | zero => intro i hi; omega
  | succ n ih =>
    intro i hi
    rw [widestLine_succ]
    by_cases hin : i = n
    · subst hin
      split <;> omega
    · have := ih i (by omega)
      split <;> omega

theorem widestLine_attained (lines : Nat → LineInfo) (n : Nat) (hn : 0 < n) :
    ∃ i, i < n ∧ (lines i).width = widestLine lines n := by
  induction n with
  | zero => omega
  | succ n ih =>
    rw [widestLine_succ]
    by_cases hgt : (lines n).width > widestLine lines n
    · rw [if_pos hgt]
      exact ⟨n, by omega, rfl⟩
    · rw [if_neg hgt]
      by_cases h0 : n = 0
      · subst h0
        refine ⟨0, by omega, ?_⟩
        have : widestLine lines 0 = 0 := rfl
        omega
      · obtain ⟨i, hi, hw⟩ := ih (by omega)
        exact ⟨i, by omega, hw⟩

theorem widestLine_lt (lines : Nat → LineInfo) (n : Nat)
    (h : ∀ i, i < n → (lines i).width < 65536) : widestLine lines n < 65536 := by
  induction n with
  | zero => show (0 : Nat) < 65536; omega
  | succ n ih =>
    rw [widestLine_succ]
    have := ih (fun i hi => h i (by omega))
    have := h n (by omega)
    split <;> omega

theorem land_fffe (x : Nat) : x &&& 0xFFFE = (x / 2 * 2) % 65536 := by
  apply Nat.eq_of_testBit_eq
  intro i
  have h2 : (65536 : Nat) = 2 ^ 16 := by norm_num
  have h3 : (0xFFFE : Nat) = (2 ^ 15 - 1) <<< 1 := by decide
  have h4 : x / 2 * 2 = (x >>> 1) <<< 1 := by
    rw [Nat.shiftLeft_eq, Nat.shiftRight_eq_div_pow]
  rw [Nat.testBit_land, h2, Nat.testBit_mod_two_pow, h4, h3, Nat.testBit_shiftLeft,
    Nat.testBit_shiftLeft, Nat.testBit_two_pow_sub_one]
  rw [Nat.testBit_shiftRight]
  by_cases hi : 1 ≤ i
  · by_cases hi2 : i < 16
    · have : i - 1 < 15 := by omega
      simp [hi, hi2, this]
    · have : ¬ (i - 1 < 15) := by omega
      simp [hi, hi2, this]
  · simp [hi]

theorem wrapFrom_width_lt (jw mw : Nat) :
    ∀ (ms : List LineInfo) (cur : LineInfo), cur.width < 65536 →
      (∀ m ∈ ms, m.width < 65536) →
      ∀ l ∈ wrapFrom jw mw cur ms, l.width < 65536 := by
  intro ms
  induction ms with
  | nil =>
    intro cur hcur _ l hl
    simp only [wrapFrom, List.mem_singleton] at hl
    subst hl
    exact hcur
  | cons m ms ih =>
    intro cur hcur hM l hl
    simp only [wrapFrom] at hl
    split at hl
    · exact ih _ (Nat.mod_lt _ (by decide)) (fun x hx => hM x (by simp [hx])) l hl
    · simp only [List.mem_cons] at hl
      rcases hl with hl | hl
      · subst hl; exact hcur
      · exact ih m (hM m (by simp)) (fun x hx => hM x (by simp [hx])) l hl

theorem wordInfo_width_lt (sv : SystemVars) (font : Int → Frame) (w : List Nat) :
    (wordInfo sv font w).width < 65536 :=
  Nat.mod_lt _ (by decide)

theorem wrapLines_width_lt (sv : SystemVars) (font : Int → Frame) (jw mw : Nat)
    (text : List Nat) : ∀ l ∈ wrapLines sv font jw mw text, l.width < 65536 := by
  intro l hl
  unfold wrapLines at hl
  cases hws : textWords text with
  | nil => rw [hws] at hl; simp [wrapInfos] at hl
  | cons w ws =>
    rw [hws] at hl
    simp only [List.map_cons, wrapInfos] at hl
    refine wrapFrom_width_lt jw mw _ _ (wordInfo_width_lt sv font w) ?_ l hl
    intro m hm
    obtain ⟨v, _, rfl⟩ := List.mem_map.mp hm
    exact wordInfo_width_lt sv font v

theorem analyzeSentence_width_lt (sv : SystemVars) (font : Int → Frame) (jw : Nat)
    (text : List Nat) (maxWidth : Nat) (line : Nat → LineInfo) (n : Nat)
    (lines : Nat → LineInfo) (hline : ∀ i, (line i).width < 65536)
    (h : analyzeSentence sv font jw text maxWidth line = .ok (n, lines)) :
    ∀ i, (lines i).width < 65536 := by
  obtain ⟨_, _, hlines⟩ := analyzeSentence_ok sv font jw text maxWidth line n lines h
  intro i
  rw [hlines]
  by_cases hi : i < (wrapLines sv font jw (effMaxWidth sv maxWidth) text).length
  · rw [overlay_lt _ _ i hi]
    exact wrapLines_width_lt sv font jw _ text _ (List.get_mem _ _ _)
  · rw [overlay_ge _ _ i (by omega)]
    exact hline i

/-! ## C7: the empty string -/

/-- **C7**, evaluated on the code. For the empty string `analyzeSentence`
returns the count 1 and writes no entry of the line array, so line 0 is whatever
the caller's array held; with stale data `{7, 9}` there, the line has width 7
and length 9 and `makeTextSprite` builds a sprite of width 7, not 0. -/
theorem analyzeSentence_empty_unwritten :
    (∀ (sv : SystemVars) (font : Int → Frame) (jw maxWidth : Nat) (line : Nat → LineInfo),
      analyzeSentence sv font jw [] maxWidth line = .ok (1, line)) ∧
    staleLines 0 = ⟨7, 9⟩ ∧
    ∃ t', makeTextSprite (envOf pcVars (plainFont 10)) (Text.init (envOf pcVars (plainFont 10)) false)
        staleLines (fun _ => 0) 0 [] 100 1 = .ok t' ∧
      (t'.textBlocks 0).map Sprite.width = some 7 := by
  have h : ∀ (sv : SystemVars) (font : Int → Frame) (jw maxWidth : Nat) (line : Nat → LineInfo),
      analyzeSentence sv font jw [] maxWidth line = .ok (1, line) := by
    intro sv font jw maxWidth line
    rfl
  refine ⟨h, rfl, _, makeTextSprite_ok _ _ _ _ _ _ _ _ 1 staleLines (h _ _ _ _ _) rfl, ?_⟩
  rfl

/-! ## C10: the header of the sprite -/

/-- **C10**, as amended. When the wrapper returns `n` lines and the slot is
empty, `makeTextSprite` succeeds and the stored block has the marker "Nu  ",
`compSize = 0`, `offsetX = offsetY = 0` and a pixel area of exactly
`width * height` bytes, where outside PSX mode `width` is the maximum of the `n`
line widths and `height = charHeight * n` modulo `2^16`, and in PSX mode `width`
is that maximum rounded up to an even number modulo `2^16` and
`height = 2 * charHeight * n - 4 * (n - 1)` modulo `2^16`. -/
theorem makeTextSprite_header (env : Env) (t : Text) (stack : Nat → LineInfo)
    (heap : Int → Nat) (slot : Nat) (text : List Nat) (maxWidth pen n : Nat)
    (lines : Nat → LineInfo) (hstack : ∀ i, (stack i).width < 65536)
    (hA : analyzeSentence env.sv t.font t.joinWidth text maxWidth stack = .ok (n, lines))
    (hS : t.textBlocks slot = none) :
    ∃ t' s, makeTextSprite env t stack heap slot text maxWidth pen = .ok t' ∧
      t'.textBlocks slot = some s ∧
      s.runTimeComp = [78, 117, 32, 32] ∧ s.compSize = 0 ∧ s.offsetX = 0 ∧ s.offsetY = 0 ∧
      s.size = s.width * s.height ∧
      (∀ i, i < n → (lines i).width ≤ widestLine lines n) ∧
      (∃ i, i < n ∧ (lines i).width = widestLine lines n) ∧
      (env.sv.isPsx = false →
        s.width = widestLine lines n ∧ s.height = (t.charHeight * n) % 65536) ∧
      (env.sv.isPsx = true →
        s.width = ((widestLine lines n + 1) / 2 * 2) % 65536 ∧
        (s.height : Int) = (2 * (t.charHeight : Int) * (n : Int) - 4 * ((n : Int) - 1)) % 65536) := by
  have hn : 0 < n := by
    have := (analyzeSentence_ok _ _ _ _ _ _ _ _ hA).2.1
    omega
  have hw := widestLine_lt lines n
    (fun i _ => analyzeSentence_width_lt _ _ _ _ _ _ _ _ hstack hA i)
  refine ⟨_, spriteOf env t heap text pen n lines,
    makeTextSprite_ok env t stack heap slot text maxWidth pen n lines hA hS, by simp,
    rfl, rfl, rfl, rfl, ?_, widestLine_ge lines n, widestLine_attained lines n hn, ?_, ?_⟩
  · unfold spriteOf
    simp only [land_fffe]
    apply Nat.mod_eq_of_lt
    have h1 : (if env.sv.isPsx = true then (widestLine lines n + 1) / 2 * 2 % 65536
        else widestLine lines n) < 65536 := by split <;> omega
    have h2 : (if env.sv.isPsx = true then
        ((2 * (t.charHeight : Int) * (n : Int) - 4 * ((n : Int) - 1)) % 65536).toNat
        else t.charHeight * n % 65536) < 65536 := by split <;> omega
    calc _ < 65536 * 65536 := Nat.mul_lt_mul'' h1 h2
      _ = 4294967296 := by norm_num
  · intro hp
    simp [spriteOf, hp]
  · intro hp
    simp only [spriteOf, hp, if_true, land_fffe, true_and]
    omega

/-- Witness for C10: "HELLO WORLD" at width 40 in a font of 10 x 12 glyphs gives
a sprite 38 wide and 24 high. -/
theorem makeTextSprite_header_witness :
    ∃ t' s, makeTextSprite (envOf pcVars (plainFont 10))
        (Text.init (envOf pcVars (plainFont 10)) false) staleLines (fun _ => 0) 0
        helloWorld 40 1 = .ok t' ∧
      t'.textBlocks 0 = some s ∧ s.width = 38 ∧ s.height = 24 ∧ s.size = 38 * 24 := by
  obtain ⟨t', s, h1, h2, _, _, _, _, h3, _, _, h4, _⟩ :=
    makeTextSprite_header (envOf pcVars (plainFont 10))
      (Text.init (envOf pcVars (plainFont 10)) false) staleLines (fun _ => 0) 0
      helloWorld 40 1 2 (overlay staleLines [⟨38, 5⟩, ⟨38, 5⟩])
      (fun _ => show (7 : Nat) < 65536 by decide)
      (by rw [analyzeSentence_eq]; rfl) rfl
  obtain ⟨h5, h6⟩ := h4 rfl
  have h7 : widestLine (overlay staleLines [⟨38, 5⟩, ⟨38, 5⟩]) 2 = 38 := by decide
  have h8 : (Text.init (envOf pcVars (plainFont 10)) false).charHeight = 12 := by decide
  rw [h7] at h5
  rw [h8] at h6
  exact ⟨t', s, h1, h2, h5, h6, by rw [h3, h5, h6]⟩

/-- Counterexample to C10 as stated: with glyphs 40000 high, the two lines of
"A B" at width 0 give the stored height 14464, not `charHeight * n = 80000`. -/
theorem makeTextSprite_height_wraps :
    (Text.init (envOf pcVars tallFont) false).charHeight = 40000 ∧
    ∃ lines t' s, analyzeSentence pcVars tallFont
        (Text.init (envOf pcVars tallFont) false).joinWidth textAB 0 staleLines = .ok (2, lines) ∧
      makeTextSprite (envOf pcVars tallFont) (Text.init (envOf pcVars tallFont) false)
        staleLines (fun _ => 0) 0 textAB 0 1 = .ok t' ∧
      t'.textBlocks 0 = some s ∧ s.height = 14464 ∧ s.height ≠ 40000 * 2 := by
  have hA : analyzeSentence pcVars tallFont
      (Text.init (envOf pcVars tallFont) false).joinWidth textAB 0 staleLines =
      .ok (2, overlay staleLines [⟨10, 1⟩, ⟨10, 1⟩]) := by
    rw [analyzeSentence_eq]; rfl
  refine ⟨by decide, _, _, spriteOf (envOf pcVars tallFont)
    (Text.init (envOf pcVars tallFont) false) (fun _ => 0) textAB 1 2
    (overlay staleLines [⟨10, 1⟩, ⟨10, 1⟩]), hA,
    makeTextSprite_ok _ _ _ _ _ _ _ _ _ _ hA rfl, by simp, by decide, by decide⟩

/-! ## The glyph compositor -/

theorem plotPixel_apply (d : Defs) (pen src : Nat) (dest : Int) (cntx : Nat)
    (mem : Int → Nat) (b : Int) :
    plotPixel d pen src dest cntx mem b =
      if b = dest + cntx then colourRule d pen src (mem b) else mem b := by
  unfold plotPixel colourRule poke
  by_cases hb : b = dest + cntx
  · subst hb
    simp only [if_true]
    split
    · simp
    · split <;> simp
  · simp only [if_neg hb]
    split
    · simp [hb]
    · split <;> simp [hb]

theorem copyRow_spec (d : Defs) (pen : Nat) (decChr : Nat → Nat) (dest : Int) :
    ∀ (todo cntx pos : Nat) (mem : Int → Nat),
      (copyRow d pen decChr dest todo cntx pos mem).1 = pos + todo ∧
      ∀ b, (copyRow d pen decChr dest todo cntx pos mem).2 b =
        if dest + cntx ≤ b ∧ b < dest + cntx + todo then
          colourRule d pen (decChr (pos + (b - dest - cntx).toNat)) (mem b)
        else mem b := by
  intro todo
  induction todo with
  | zero =>
    intro cntx pos mem
    refine ⟨rfl, fun b => ?_⟩
    simp only [copyRow]
    rw [if_neg]
    push_cast
    omega
  | succ todo ih =>
    intro cntx pos mem
    obtain ⟨ih1, ih2⟩ := ih (cntx + 1) (pos + 1) (plotPixel d pen (decChr pos) dest cntx mem)
    simp only [copyRow]
    refine ⟨by rw [ih1]; omega, fun b => ?_⟩
    rw [ih2 b, plotPixel_apply]
    by_cases hb : b = dest + cntx
    · subst hb
      rw [if_neg (by push_cast; omega), if_pos rfl, if_pos (by push_cast; omega)]
      congr 2
      omega
    · rw [if_neg hb]
      by_cases hr : dest + ((cntx + 1 : Nat) : Int) ≤ b ∧ b < dest + ((cntx + 1 : Nat) : Int) + todo
      · rw [if_pos hr, if_pos (by push_cast at hr ⊢; omega)]
        congr 2
        push_cast at hr ⊢
        omega
      · rw [if_neg hr, if_neg (by push_cast at hr ⊢; omega)]

theorem copyRows_outside (d : Defs) (pen : Nat) (decChr : Nat → Nat) (width sprWidth : Nat) :
    ∀ (todo : Nat) (dest : Int) (pos : Nat) (mem : Int → Nat) (b : Int),
      (∀ y : Nat, y < todo →
        ¬ (dest + (y : Int) * (sprWidth : Int) ≤ b ∧
          b < dest + (y : Int) * (sprWidth : Int) + (width : Int))) →
      copyRows d pen decChr width sprWidth todo dest pos mem b = mem b := by
  intro todo
  induction todo with
  | zero => intro dest pos mem b _; rfl
  | succ todo ih =>
    intro dest pos mem b hb
    simp only [copyRows]
    rw [ih]
    · rw [(copyRow_spec d pen decChr dest width 0 pos mem).2 b, if_neg]
      have := hb 0 (by omega)
      push_cast at this ⊢
      omega
    · intro y hy
      have := hb (y + 1) (by omega)
      have e : ((y + 1 : Nat) : Int) * (sprWidth : Int) = (y : Int) * (sprWidth : Int) + sprWidth := by
        push_cast; ring
      rw [e] at this
      omega

theorem copyRows_inside (d : Defs) (pen : Nat) (decChr : Nat → Nat) (width sprWidth : Nat)
    (hstride : width ≤ sprWidth) :
    ∀ (todo : Nat) (dest : Int) (pos : Nat) (mem : Int → Nat) (x y : Nat),
      x < width → y < todo →
      copyRows d pen decChr width sprWidth todo dest pos mem
          (dest + (y : Int) * (sprWidth : Int) + (x : Int)) =
        colourRule d pen (decChr (pos + y * width + x))
          (mem (dest + (y : Int) * (sprWidth : Int) + (x : Int))) := by
  intro todo
  induction todo with
  | zero => intro dest pos mem x y _ hy; omega
  | succ todo ih =>
    intro dest pos mem x y hx hy
    obtain ⟨hr1, hr2⟩ := copyRow_spec d pen decChr dest width 0 pos mem
    simp only [copyRows]
    cases y with
    | zero =>
      rw [copyRows_outside, hr2, if_pos (by push_cast; omega)]
      · congr 2
        push_cast
        simp
      · intro y' _
        have : (0 : Int) ≤ (y' : Int) * (sprWidth : Int) :=
          mul_nonneg (Int.ofNat_nonneg _) (Int.ofNat_nonneg _)
        push_cast
        omega
    | succ y' =>
      have e : ((y' + 1 : Nat) : Int) * (sprWidth : Int)
          = (y' : Int) * (sprWidth : Int) + sprWidth := by
        push_cast; ring
      have hnn : (0 : Int) ≤ (y' : Int) * (sprWidth : Int) :=
        mul_nonneg (Int.ofNat_nonneg _) (Int.ofNat_nonneg _)
      have haddr : dest + ((y' + 1 : Nat) : Int) * (sprWidth : Int) + (x : Int)
          = (dest + sprWidth) + (y' : Int) * (sprWidth : Int) + (x : Int) := by
        rw [e]; ring
      rw [haddr, ih (dest + sprWidth) _ _ x y' hx (by omega), hr1, hr2, if_neg (by omega)]
      congr 2
      rw [Nat.succ_mul]
      omega

theorem copyChar_fst (env : Env) (t : Text) (ch : Nat) (sprPtr : Int) (sprWidth pen : Nat)
    (mem : Int → Nat) : (copyChar env t ch sprPtr sprWidth pen mem).1 = charWidth t.font ch :=
  rfl

theorem copyChar_snd (env : Env) (t : Text) (ch : Nat) (sprPtr : Int) (sprWidth pen : Nat)
    (mem : Int → Nat) :
    (copyChar env t ch sprPtr sprWidth pen mem).2 =
      copyRows env.defs pen (glyphData env t ch) (charWidth t.font ch) sprWidth
        (glyphHeight env t ch) sprPtr 0 mem := by
  unfold copyChar glyphData glyphHeight charWidth
  rfl

theorem copyChar_rect (env : Env) (t : Text) (ch : Nat) (sprPtr : Int)
    (sprWidth pen : Nat) (mem : Int → Nat) (hstride : charWidth t.font ch ≤ sprWidth) :
    (∀ x y : Nat, x < charWidth t.font ch → y < glyphHeight env t ch →
      (copyChar env t ch sprPtr sprWidth pen mem).2
          (sprPtr + (y : Int) * (sprWidth : Int) + (x : Int)) =
        colourRule env.defs pen (glyphData env t ch (y * charWidth t.font ch + x))
          (mem (sprPtr + (y : Int) * (sprWidth : Int) + (x : Int)))) ∧
    (∀ a : Int,
      (∀ x y : Nat, x < charWidth t.font ch → y < glyphHeight env t ch →
        a ≠ sprPtr + (y : Int) * (sprWidth : Int) + (x : Int)) →
      (copyChar env t ch sprPtr sprWidth pen mem).2 a = mem a) := by
  refine ⟨?_, ?_⟩
  · intro x y hx hy
    rw [copyChar_snd, copyRows_inside _ _ _ _ _ hstride _ _ _ _ x y hx hy, Nat.zero_add]
  · intro a ha
    rw [copyChar_snd]
    apply copyRows_outside
    intro y hy hin
    have hx : (a - sprPtr - (y : Int) * (sprWidth : Int)).toNat < charWidth t.font ch := by omega
    exact ha _ y hx hy (by omega)

/-- **C8**, as amended. For a stride `sprWidth` not smaller than the glyph's
width, `copyChar` leaves each pixel `(x, y)` of the `width x frameHeight`
rectangle at the value the colour rule gives (the pen for a `LETTER_COL` source
pixel; else `BORDER_COL` for a `BORDER_COL` or `BORDER_COL_PSX` source pixel
over a destination pixel that was 0; else the old pixel), and leaves every byte
outside that rectangle unchanged. -/
theorem copyChar_pixels (env : Env) (t : Text) (ch : Nat) (sprPtr : Int)
    (sprWidth pen : Nat) (mem : Int → Nat) (hstride : charWidth t.font ch ≤ sprWidth) :
    (∀ x y : Nat, x < charWidth t.font ch → y < glyphHeight env t ch →
      (copyChar env t ch sprPtr sprWidth pen mem).2
          (sprPtr + (y : Int) * (sprWidth : Int) + (x : Int)) =
        colourRule env.defs pen (glyphData env t ch (y * charWidth t.font ch + x))
          (mem (sprPtr + (y : Int) * (sprWidth : Int) + (x : Int)))) ∧
    (∀ a : Int,
      (∀ x y : Nat, x < charWidth t.font ch → y < glyphHeight env t ch →
        a ≠ sprPtr + (y : Int) * (sprWidth : Int) + (x : Int)) →
      (copyChar env t ch sprPtr sprWidth pen mem).2 a = mem a) :=
  copyChar_rect env t ch sprPtr sprWidth pen mem hstride

/-- Witness for C8: a 2 x 2 glyph drawn with stride 2 and pen 7 into memory
full of 5s: the letter pixel `(1, 0)` becomes 7 and the border pixel `(0, 1)`,
over a non-zero byte, stays 5. -/
theorem copyChar_pixels_witness :
    (copyChar (envOf pcVars dotFont) (Text.init (envOf pcVars dotFont) false) 65 0 2 7
        (fun _ => 5)).2 1 = 7 ∧
    (copyChar (envOf pcVars dotFont) (Text.init (envOf pcVars dotFont) false) 65 0 2 7
        (fun _ => 5)).2 2 = 5 := by
  have h := (copyChar_pixels (envOf pcVars dotFont) (Text.init (envOf pcVars dotFont) false)
    65 0 2 7 (fun _ => 5) (by decide)).1
  exact ⟨h 1 0 (by decide) (by decide), h 0 1 (by decide) (by decide)⟩

/-- Counterexample to C8 as stated: with stride 1 the rows of a 2 x 2 glyph
overlap. Pixel `(0, 1)` has a border source pixel over a destination byte that
was 5, so the rule leaves it unchanged, yet after the call it holds the pen 7
(written for the letter pixel `(1, 0)`, which lies at the same address). -/
theorem copyChar_rows_overlap :
    glyphData (envOf pcVars dotFont) (Text.init (envOf pcVars dotFont) false) 65 (1 * 2 + 0)
      = gameDefs.BORDER_COL ∧
    colourRule gameDefs 7 (glyphData (envOf pcVars dotFont)
      (Text.init (envOf pcVars dotFont) false) 65 (1 * 2 + 0)) 5 = 5 ∧
    (copyChar (envOf pcVars dotFont) (Text.init (envOf pcVars dotFont) false) 65 0 1 7
        (fun _ => 5)).2 (0 + 1 * 1 + 0) = 7 := by
  decide

/-! ## C9: overlap safety -/

theorem copyRow_inv (d : Defs) (pen : Nat) (decChr : Nat → Nat) (Q : (Int → Nat) → Prop)
    (hQ : ∀ src dest cntx mem, Q mem → Q (plotPixel d pen src dest cntx mem)) (dest : Int) :
    ∀ (todo cntx pos : Nat) (mem : Int → Nat), Q mem →
      Q (copyRow d pen decChr dest todo cntx pos mem).2 := by
  intro todo
  induction todo with
  | zero => intro cntx pos mem h; exact h
  | succ todo ih =>
    intro cntx pos mem h
    simp only [copyRow]
    exact ih _ _ _ (hQ _ _ _ _ h)

theorem copyRows_inv (d : Defs) (pen : Nat) (decChr : Nat → Nat) (width sprWidth : Nat)
    (Q : (Int → Nat) → Prop)
    (hQ : ∀ src dest cntx mem, Q mem → Q (plotPixel d pen src dest cntx mem)) :
    ∀ (todo : Nat) (dest : Int) (pos : Nat) (mem : Int → Nat), Q mem →
      Q (copyRows d pen decChr width sprWidth todo dest pos mem) := by
  intro todo
  induction todo with
  | zero => intro dest pos mem h; exact h
  | succ todo ih =>
    intro dest pos mem h
    simp only [copyRows]
    exact ih _ _ _ (copyRow_inv d pen decChr Q hQ dest width 0 pos mem h)

theorem copyChar_inv (env : Env) (t : Text) (ch : Nat) (sprPtr : Int) (sprWidth pen : Nat)
    (mem : Int → Nat) (Q : (Int → Nat) → Prop)
    (hQ : ∀ src dest cntx mem, Q mem → Q (plotPixel env.defs pen src dest cntx mem))
    (h : Q mem) : Q (copyChar env t ch sprPtr sprWidth pen mem).2 := by
  rw [copyChar_snd]
  exact copyRows_inv _ _ _ _ _ Q hQ _ _ _ _ h

theorem colourRule_nonzero (d : Defs) (pen src old : Nat) (h : old ≠ 0) :
    colourRule d pen src old = old ∨ colourRule d pen src old = pen := by
  unfold colourRule
  split
  · exact Or.inr rfl
  · rw [if_neg (by intro hc; exact h hc.2)]
    exact Or.inl rfl

theorem copyChar_keeps_pen (env : Env) (t : Text) (ch : Nat) (sprPtr : Int)
    (sprWidth pen : Nat) (mem : Int → Nat) (a : Int) (hpen : pen ≠ 0) (h : mem a = pen) :
    (copyChar env t ch sprPtr sprWidth pen mem).2 a = pen := by
  refine copyChar_inv env t ch sprPtr sprWidth pen mem (fun m => m a = pen) ?_ h
  intro src dest cntx m hm
  rw [plotPixel_apply]
  split
  · rcases colourRule_nonzero env.defs pen src (m a) (by rw [hm]; exact hpen) with h1 | h1
    · rw [h1, hm]
    · exact h1
  · exact hm

theorem copyChar_nonzero_pen (env : Env) (t : Text) (ch : Nat) (sprPtr : Int)
    (sprWidth pen : Nat) (mem : Int → Nat) (a : Int) (hpen : pen ≠ 0) (h : mem a ≠ 0) :
    (copyChar env t ch sprPtr sprWidth pen mem).2 a = mem a ∨
      (copyChar env t ch sprPtr sprWidth pen mem).2 a = pen := by
  have := copyChar_inv env t ch sprPtr sprWidth pen mem
    (fun m => (m a = mem a ∨ m a = pen)) ?_ (Or.inl rfl)
  · exact this
  · intro src dest cntx m hm
    rw [plotPixel_apply]
    split
    · have hnz : m a ≠ 0 := by
        rcases hm with hm | hm
        · rw [hm]; exact h
        · rw [hm]; exact hpen
      rcases colourRule_nonzero env.defs pen src (m a) hnz with h1 | h1
      · rw [h1]; exact hm
      · exact Or.inr h1
    · exact hm

/-- **C9**, as amended. Overlap safety of `copyChar`. (1) For a non-zero pen, a
pixel that holds the pen colour after one call still holds it after a second
call with the same pen, whatever glyph, position and stride the second call
has. (2) When the pen is non-zero or the stride is not smaller than the glyph's
width, a pixel that is non-zero before a call is afterwards either unchanged or
equal to the pen: the border rule never paints it, so (for a pen other than
`BORDER_COL`) the call never changes it to `BORDER_COL`. -/
theorem copyChar_overlap_safe (env : Env) (t : Text) (ch : Nat) (sprPtr : Int)
    (sprWidth pen : Nat) (mem : Int → Nat)
    (hp : pen ≠ 0 ∨ charWidth t.font ch ≤ sprWidth) :
    (∀ (env2 : Env) (t2 : Text) (ch2 : Nat) (sprPtr2 : Int) (sprWidth2 : Nat) (a : Int),
      pen ≠ 0 →
      (copyChar env t ch sprPtr sprWidth pen mem).2 a = pen →
      (copyChar env2 t2 ch2 sprPtr2 sprWidth2 pen
        (copyChar env t ch sprPtr sprWidth pen mem).2).2 a = pen) ∧
    (∀ a : Int, mem a ≠ 0 →
      ((copyChar env t ch sprPtr sprWidth pen mem).2 a = mem a ∨
        (copyChar env t ch sprPtr sprWidth pen mem).2 a = pen) ∧
      (pen ≠ env.defs.BORDER_COL →
        (copyChar env t ch sprPtr sprWidth pen mem).2 a ≠ mem a →
        (copyChar env t ch sprPtr sprWidth pen mem).2 a ≠ env.defs.BORDER_COL)) := by
  refine ⟨?_, ?_⟩
  · intro env2 t2 ch2 sprPtr2 sprWidth2 a hpen h
    exact copyChar_keeps_pen env2 t2 ch2 sprPtr2 sprWidth2 pen _ a hpen h
  · intro a ha
    suffices hmain : (copyChar env t ch sprPtr sprWidth pen mem).2 a = mem a ∨
        (copyChar env t ch sprPtr sprWidth pen mem).2 a = pen by
      refine ⟨hmain, fun hb hch => ?_⟩
      rcases hmain with h1 | h1
      · exact absurd h1 hch
      · rw [h1]; exact hb
    rcases hp with hpen | hstride
    · exact copyChar_nonzero_pen env t ch sprPtr sprWidth pen mem a hpen ha
    · obtain ⟨hin, hout⟩ := copyChar_rect env t ch sprPtr sprWidth pen mem hstride
      by_cases hex : ∃ x y : Nat, x < charWidth t.font ch ∧ y < glyphHeight env t ch ∧
          a = sprPtr + (y : Int) * (sprWidth : Int) + (x : Int)
      · obtain ⟨x, y, hx, hy, rfl⟩ := hex
        rw [hin x y hx hy]
        exact colourRule_nonzero _ _ _ _ ha
      · refine Or.inl (hout a ?_)
        intro x y hx hy hc
        exact hex ⟨x, y, hx, hy, hc⟩

/-- Witness for C9: with pen 7 and stride 1 (overlapping rows), two glyphs drawn
over each other into memory full of 5s leave the pen at address 1. -/
theorem copyChar_overlap_safe_witness :
    (copyChar (envOf pcVars dotFont) (Text.init (envOf pcVars dotFont) false) 65 0 1 7
      (fun _ => 5)).2 1 = 7 ∧
    (copyChar (envOf pcVars dotFont) (Text.init (envOf pcVars dotFont) false) 66 (-1) 1 7
      (copyChar (envOf pcVars dotFont) (Text.init (envOf pcVars dotFont) false) 65 0 1 7
        (fun _ => 5)).2).2 1 = 7 := by
  have h1 : (copyChar (envOf pcVars dotFont) (Text.init (envOf pcVars dotFont) false) 65 0 1 7
      (fun _ => 5)).2 1 = 7 := by decide
  exact ⟨h1, (copyChar_overlap_safe (envOf pcVars dotFont)
    (Text.init (envOf pcVars dotFont) false) 65 0 1 7 (fun _ => 5) (Or.inl (by decide))).1
    (envOf pcVars dotFont) (Text.init (envOf pcVars dotFont) false) 66 (-1) 1 (1 : Int)
    (by decide) h1⟩

/-- Counterexample to C9 as stated: one call with pen 0 and stride 1 on a
2 x 2 glyph. The byte at address 1 is 5 before the call; the letter pixel
`(1, 0)` sets it to the pen 0 and the border pixel `(0, 1)`, which lies at the
same address, then sets it to `BORDER_COL`. -/
theorem copyChar_border_over_nonzero :
    (fun _ => 5 : Int → Nat) 1 ≠ 0 ∧
    (copyChar (envOf pcVars dotFont) (Text.init (envOf pcVars dotFont) false) 65 0 1 0
        (fun _ => 5)).2 1 = gameDefs.BORDER_COL := by
  decide

/-! ## Texts, words and joins -/

theorem joinWords_cons_ne (w : List Nat) (ws : List (List Nat)) (h : ws ≠ []) :
    joinWords (w :: ws) = w ++ SPACE :: joinWords ws := by
  cases ws with
  | nil => exact absurd rfl h
  | cons v vs => rfl

theorem joinWords_char_cons (c : Nat) (w : List Nat) (ws : List (List Nat)) :
    joinWords ((c :: w) :: ws) = c :: joinWords (w :: ws) := by
  cases ws with
  | nil => rfl
  | cons v vs => rfl

theorem textWords_ne_nil (c : Nat) (rest : List Nat) (h : c ≠ 0) :
    textWords (c :: rest) ≠ [] := by
  rw [textWords_eq (c :: rest) (by simpa [deref] using h)]
  simp

theorem text_eq_joinWords (text : List Nat) (hz : ∀ c ∈ text, c ≠ 0) :
    text = joinWords (textWords text) ++
      (if text.getLast? = some SPACE then [SPACE] else []) := by
  induction text with
  | nil => simp [textWords, joinWords]
  | cons c rest ih =>
    have hc : c ≠ 0 := hz c (by simp)
    have ih2 := ih (fun d hd => hz d (by simp [hd]))
    cases rest with
    | nil =>
      by_cases hs : c = SPACE
      · subst hs
        simp [textWords, joinWords, SPACE]
      · simp [textWords, joinWords, hs, hc]
    | cons d r =>
      have hd : d ≠ 0 := hz d (by simp)
      have hne := textWords_ne_nil d r hd
      rw [List.getLast?_cons_cons]
      by_cases hs : c = SPACE
      · subst hs
        have : textWords (SPACE :: d :: r) = [] :: textWords (d :: r) := by
          simp [textWords, SPACE]
        rw [this, joinWords_cons_ne _ _ hne]
        simp only [List.nil_append, List.cons_append]
        rw [← ih2]
      · cases hws : textWords (d :: r) with
        | nil => exact absurd hws hne
        | cons w ws =>
          have : textWords (c :: d :: r) = (c :: w) :: ws := by
            rw [textWords, if_neg hc, if_neg hs, hws]
          rw [this, joinWords_char_cons]
          rw [hws] at ih2
          simp only [List.cons_append]
          rw [← ih2]

theorem textWords_append_space (w r : List Nat) (hw : ∀ c ∈ w, c ≠ SPACE ∧ c ≠ 0) :
    textWords (w ++ SPACE :: r) = w :: textWords r := by
  induction w with
  | nil => simp [textWords, SPACE]
  | cons c w ih =>
    obtain ⟨hs, h0⟩ := hw c (by simp)
    have := ih (fun d hd => hw d (by simp [hd]))
    simp only [List.cons_append]
    rw [textWords, if_neg h0, if_neg hs, this]

theorem textWords_word (w : List Nat) (hw : ∀ c ∈ w, c ≠ SPACE ∧ c ≠ 0) (hne : w ≠ []) :
    textWords w = [w] := by
  induction w with
  | nil => exact absurd rfl hne
  | cons c w ih =>
    obtain ⟨hs, h0⟩ := hw c (by simp)
    rw [textWords, if_neg h0, if_neg hs]
    cases w with
    | nil => rfl
    | cons d v =>
      rw [ih (fun e he => hw e (by simp [he])) (by simp)]

theorem textWords_joinWords (ws : List (List Nat))
    (hclean : ∀ w ∈ ws, ∀ c ∈ w, c ≠ SPACE ∧ c ≠ 0) (hlast : ws.getLast? ≠ some []) :
    textWords (joinWords ws) = ws := by
  induction ws with
  | nil => rfl
  | cons w ws ih =>
    cases ws with
    | nil =>
      have hne : w ≠ [] := by
        intro h
        apply hlast
        simp [h]
      exact textWords_word w (hclean w (by simp)) hne
    | cons v vs =>
      rw [List.getLast?_cons_cons] at hlast
      have := ih (fun x hx => hclean x (by simp [hx])) hlast
      show textWords (w ++ SPACE :: joinWords (v :: vs)) = _
      rw [textWords_append_space _ _ (hclean w (by simp)), this]

theorem joinWords_append (g h : List (List Nat)) (hg : g ≠ []) (hh : h ≠ []) :
    joinWords (g ++ h) = joinWords g ++ SPACE :: joinWords h := by
  induction g with
  | nil => exact absurd rfl hg
  | cons w g ih =>
    cases g with
    | nil => exact joinWords_cons_ne w h hh
    | cons v g2 =>
      have := ih (by simp)
      show w ++ SPACE :: joinWords (v :: g2 ++ h) = (w ++ SPACE :: joinWords (v :: g2)) ++ _
      rw [this]
      simp

theorem joinWords_flatten (G : List (List (List Nat))) (hG : ∀ g ∈ G, g ≠ []) :
    joinWords (G.map joinWords) = joinWords G.flatten := by
  induction G with
  | nil => rfl
  | cons g G ih =>
    cases G with
    | nil => simp [joinWords]
    | cons g2 G2 =>
      have hg : g ≠ [] := hG g (by simp)
      have hg2 : g2 ≠ [] := hG g2 (by simp)
      have := ih (fun x hx => hG x (by simp [hx]))
      have hne : (g2 :: G2).flatten ≠ [] := by
        cases g2 with
        | nil => exact absurd rfl hg2
        | cons a b => simp
      rw [List.flatten_cons, joinWords_append g _ hg hne, ← this]
      rfl

theorem joinWords_length (g : List (List Nat)) :
    (joinWords g).length = (g.map List.length).sum + (g.length - 1) := by
  induction g with
  | nil => rfl
  | cons w g ih =>
    cases g with
    | nil => simp [joinWords]
    | cons v g2 =>
      show (w ++ SPACE :: joinWords (v :: g2)).length = _
      simp only [List.length_append, List.length_cons, ih, List.map_cons, List.sum_cons]
      omega

theorem length_le_joinWords (ps : List (List Nat)) (p : List Nat) (hp : p ∈ ps) :
    p.length ≤ (joinWords ps).length := by
  rw [joinWords_length]
  have := List.single_le_sum (fun x _ => Nat.zero_le x) _ (List.mem_map_of_mem List.length hp)
  omega

/-! ## The words of each line -/

theorem groupFrom_spec (sv : SystemVars) (font : Int → Frame) (jw mw : Nat) :
    ∀ (ws : List (List Nat)) (cur : LineInfo) (g : List (List Nat)), g ≠ [] →
      (∀ w ∈ ws, ∀ c ∈ w, c ≠ SPACE ∧ c ≠ 0) →
      cur.length = (joinWords g).length % 65536 →
      (groupFrom sv font jw mw cur g ws).flatten = g ++ ws ∧
      (∀ x ∈ groupFrom sv font jw mw cur g ws, x ≠ []) ∧
      (wrapFrom jw mw cur (ws.map (wordInfo sv font))).map LineInfo.length =
        (groupFrom sv font jw mw cur g ws).map (fun x => (joinWords x).length % 65536) := by
  intro ws
  induction ws with
  | nil =>
    intro cur g hg _ hcur
    simp [groupFrom, wrapFrom, hcur, hg]
  | cons w ws ih =>
    intro cur g hg hclean hcur
    have hw := (wordInfo_clean sv font w (hclean w (by simp))).2
    have hrest : ∀ v ∈ ws, ∀ c ∈ v, c ≠ SPACE ∧ c ≠ 0 := fun v hv => hclean v (by simp [hv])
    simp only [groupFrom, wrapFrom, List.map_cons]
    by_cases hfit : cur.width + (jw + (wordInfo sv font w).width) % 65536 ≤ mw
    · rw [if_pos hfit, if_pos hfit]
      have hlen : (joinWords (g ++ [w])).length = (joinWords g).length + 1 + w.length := by
        rw [joinWords_append g [w] hg (by simp)]
        simp [joinWords]
        omega
      obtain ⟨h1, h2, h3⟩ := ih
        ⟨(cur.width + (jw + (wordInfo sv font w).width) % 65536) % 65536,
         (cur.length + (1 + (wordInfo sv font w).length)) % 65536⟩ (g ++ [w]) (by simp) hrest
        (by simp only; rw [hlen, hcur, hw]; omega)
      refine ⟨by rw [h1]; simp, h2, h3⟩
    · rw [if_neg hfit, if_neg hfit]
      obtain ⟨h1, h2, h3⟩ := ih (wordInfo sv font w) [w] (by simp) hrest
        (by rw [hw]; simp [joinWords])
      refine ⟨by rw [List.flatten_cons, h1]; simp, ?_, ?_⟩
      · intro x hx
        simp only [List.mem_cons] at hx
        rcases hx with hx | hx
        · rw [hx]; exact hg
        · exact h2 x hx
      · simp only [List.map_cons, h3, hcur]

theorem wrapGroups_spec (sv : SystemVars) (font : Int → Frame) (jw mw : Nat)
    (text : List Nat) :
    (wrapGroups sv font jw mw text).flatten = textWords text ∧
    (∀ x ∈ wrapGroups sv font jw mw text, x ≠ []) ∧
    (wrapLines sv font jw mw text).map LineInfo.length =
      (wrapGroups sv font jw mw text).map (fun x => (joinWords x).length % 65536) := by
  have hclean := textWords_clean text
  unfold wrapGroups wrapLines
  cases hws : textWords text with
  | nil => simp [wrapInfos]
  | cons w ws =>
    rw [hws] at hclean
    simp only [List.map_cons, wrapInfos]
    have := groupFrom_spec sv font jw mw ws (wordInfo sv font w) [w] (by simp)
      (fun v hv => hclean v (by simp [hv]))
      (by rw [(wordInfo_clean sv font w (hclean w (by simp))).2]; simp [joinWords])
    simpa using this

/-! ## Lines as parts of a joined text -/

theorem lineStart_shift (lines : Nat → LineInfo) (i : Nat) :
    lineStart lines (i + 1) =
      (lines 0).length + 1 + lineStart (fun k => lines (k + 1)) i := by
  induction i with
  | zero => simp [lineStart]
  | succ i ih =>
    rw [lineStart, ih]
    simp only [lineStart]
    omega

theorem lineStart_sum (lines : Nat → LineInfo) (n : Nat) :
    ((List.range n).map (fun k => (lines k).length)).sum + n = lineStart lines n := by
  induction n with
  | zero => rfl
  | succ n ih =>
    rw [List.sum_range_succ, lineStart, ← ih]
    omega

theorem joinWords_cover :
    ∀ (ps : List (List Nat)) (lines : Nat → LineInfo) (tr : List Nat),
      (∀ k, k < ps.length → (lines k).length = (ps.getD k []).length) →
      ∀ i, i < ps.length → lineText (joinWords ps ++ tr) lines i = ps.getD i [] := by
  intro ps
  induction ps with
  | nil => intro lines tr _ i hi; simp at hi
  | cons p qs ih =>
    intro lines tr hlen i hi
    have h0 := hlen 0 (by simp)
    simp only [List.getD_cons_zero] at h0
    cases i with
    | zero =>
      simp only [lineText, lineStart, List.drop_zero, List.getD_cons_zero, h0]
      cases qs with
      | nil => simp [joinWords]
      | cons q qs2 =>
        show List.take p.length ((p ++ SPACE :: joinWords (q :: qs2)) ++ tr) = p
        rw [List.append_assoc, List.take_left]
    | succ i =>
      have hi2 : i < qs.length := by simpa using hi
      have hne : qs ≠ [] := by
        intro h; rw [h] at hi2; simp at hi2
      have := ih (fun k => lines (k + 1)) tr
        (fun k hk => by
          have := hlen (k + 1) (by simpa using hk)
          simpa using this) i hi2
      rw [List.getD_cons_succ, ← this]
      unfold lineText
      rw [lineStart_shift, h0, joinWords_cons_ne p qs hne]
      congr 1
      rw [List.append_assoc, Nat.add_assoc, List.drop_append, List.cons_append,
        Nat.add_comm 1, List.drop_succ_cons]

theorem joinWords_break :
    ∀ (ps : List (List Nat)) (lines : Nat → LineInfo) (tr : List Nat),
      (∀ k, k < ps.length → (lines k).length = (ps.getD k []).length) →
      ∀ i, i + 1 < ps.length →
        (joinWords ps ++ tr)[lineStart lines i + (lines i).length]? = some SPACE := by
  intro ps
  induction ps with
  | nil => intro lines tr _ i hi; simp at hi
  | cons p qs ih =>
    intro lines tr hlen i hi
    have h0 := hlen 0 (by simp)
    simp only [List.getD_cons_zero] at h0
    have hne : qs ≠ [] := by
      intro h; rw [h] at hi; simp at hi
    rw [joinWords_cons_ne p qs hne, List.append_assoc]
    cases i with
    | zero =>
      simp only [lineStart, Nat.zero_add, h0]
      rw [List.getElem?_append_right (le_refl _)]
      simp
    | succ i =>
      have hi2 : i + 1 < qs.length := by simpa using hi
      have := ih (fun k => lines (k + 1)) tr
        (fun k hk => by
          have := hlen (k + 1) (by simpa using hk)
          simpa using this) i hi2
      rw [lineStart_shift, h0, List.getElem?_append_right (by omega)]
      have e : p.length + 1 + lineStart (fun k => lines (k + 1)) i + (lines (i + 1)).length
          - p.length = (lineStart (fun k => lines (k + 1)) i + (lines (i + 1)).length) + 1 := by
        omega
      rw [e, List.cons_append, List.getElem?_cons_succ]
      exact this

theorem joinWords_total :
    ∀ (ps : List (List Nat)) (lines : Nat → LineInfo), ps ≠ [] →
      (∀ k, k < ps.length → (lines k).length = (ps.getD k []).length) →
      lineStart lines (ps.length - 1) + (lines (ps.length - 1)).length =
        (joinWords ps).length := by
  intro ps
  induction ps with
  | nil => intro lines h; exact absurd rfl h
  | cons p qs ih =>
    intro lines _ hlen
    have h0 := hlen 0 (by simp)
    simp only [List.getD_cons_zero] at h0
    cases qs with
    | nil => simp [lineStart, joinWords, h0]
    | cons q qs2 =>
      have := ih (fun k => lines (k + 1)) (by simp)
        (fun k hk => by
          have := hlen (k + 1) (by simpa using hk)
          simpa using this)
      simp only [List.length_cons, Nat.add_sub_cancel] at this ⊢
      rw [lineStart_shift, h0]
      show _ = (p ++ SPACE :: joinWords (q :: qs2)).length
      simp only [List.length_append, List.length_cons]
      omega

theorem deref_ne_zero (text : List Nat) (hz : ∀ c ∈ text, c ≠ 0) (hne : text ≠ []) :
    deref text ≠ 0 := by
  cases text with
  | nil => exact absurd rfl hne
  | cons c rest => simpa [deref] using hz c (by simp)

theorem analyzeSentence_parts (sv : SystemVars) (font : Int → Frame) (jw : Nat)
    (text : List Nat) (maxWidth : Nat) (line : Nat → LineInfo) (n : Nat)
    (lines : Nat → LineInfo) (hz : ∀ c ∈ text, c ≠ 0) (hne : text ≠ [])
    (hlen : text.length < 65536)
    (h : analyzeSentence sv font jw text maxWidth line = .ok (n, lines)) :
    (wrapGroups sv font jw (effMaxWidth sv maxWidth) text).length = n ∧ 0 < n ∧
    (∀ k, k < n → (lines k).length =
      (((wrapGroups sv font jw (effMaxWidth sv maxWidth) text).map joinWords).getD k []).length) ∧
    text = joinWords ((wrapGroups sv font jw (effMaxWidth sv maxWidth) text).map joinWords) ++
      (if text.getLast? = some SPACE then [SPACE] else []) := by
  obtain ⟨_, hn, hlines⟩ := analyzeSentence_ok sv font jw text maxWidth line n lines h
  have hpos := wrapLines_length_pos sv font jw (effMaxWidth sv maxWidth) text
    (deref_ne_zero text hz hne)
  obtain ⟨hflat, hnonempty, hmap⟩ := wrapGroups_spec sv font jw (effMaxWidth sv maxWidth) text
  generalize wrapGroups sv font jw (effMaxWidth sv maxWidth) text = G at *
  generalize wrapLines sv font jw (effMaxWidth sv maxWidth) text = L at *
  have hLG : L.length = G.length := by
    have := congrArg List.length hmap
    simpa using this
  have hnL : n = L.length := by omega
  have htext : text = joinWords (G.map joinWords) ++
      (if text.getLast? = some SPACE then [SPACE] else []) := by
    rw [joinWords_flatten G hnonempty, hflat]
    exact text_eq_joinWords text hz
  have hjoin : (joinWords (G.map joinWords)).length ≤ text.length := by
    have := congrArg List.length htext
    rw [List.length_append] at this
    omega
  refine ⟨by omega, by omega, ?_, htext⟩
  intro k hk
  have hkL : k < L.length := by omega
  have hkG : k < G.length := by omega
  have h1 : (lines k).length = (L.map LineInfo.length).getD k 0 := by
    rw [hlines]
    simp [overlay, hkL, List.getD_eq_getElem]
  have h2 : (G.map joinWords).getD k [] = joinWords (G.getD k []) := by
    simp [List.getD_eq_getElem, hkG]
  have h3 : (G.map (fun x => (joinWords x).length % 65536)).getD k 0
      = (joinWords (G.getD k [])).length % 65536 := by
    simp [List.getD_eq_getElem, hkG]
  have hmem : joinWords (G.getD k []) ∈ G.map joinWords := by
    rw [← h2, List.getD_eq_getElem _ _ (by simpa using hkG)]
    exact List.getElem_mem _
  have hle := length_le_joinWords _ _ hmem
  rw [h1, hmap, h3, h2]
  omega

/-! ## C3: the lines account for the text -/

/-- **C3**, as amended. For a non-empty text of fewer than 65536 characters
(given as the list of its characters, none of them NUL), the lines `analyzeSentence` returns account for the text: the words of the text
split into `n` consecutive non-empty groups, line `i` covers (from offset `o_i`,
for `length_i` characters) exactly the words of group `i` joined by single
spaces, so `length_i` is the number of word characters of the line plus one per
word boundary inside it, and the sum of all lengths plus one separator per line
break equals the length of the text, less one when the text ends with a space
(that space is consumed as a separator but belongs to no line). -/
theorem analyzeSentence_accounts (sv : SystemVars) (font : Int → Frame) (jw : Nat)
    (text : List Nat) (maxWidth : Nat) (line : Nat → LineInfo) (n : Nat)
    (lines : Nat → LineInfo) (hz : ∀ c ∈ text, c ≠ 0) (hne : text ≠ [])
    (hlen : text.length < 65536)
    (h : analyzeSentence sv font jw text maxWidth line = .ok (n, lines)) :
    ∃ groups : List (List (List Nat)),
      groups.length = n ∧ groups.flatten = textWords text ∧ (∀ g ∈ groups, g ≠ []) ∧
      (∀ i, i < n → lineText text lines i = joinWords (groups.getD i []) ∧
        (lines i).length =
          ((groups.getD i []).map List.length).sum + ((groups.getD i []).length - 1)) ∧
      ((List.range n).map (fun i => (lines i).length)).sum + (n - 1) +
        (if text.getLast? = some SPACE then 1 else 0) = text.length := by
  obtain ⟨hG, hn, hlens, htext⟩ :=
    analyzeSentence_parts sv font jw text maxWidth line n lines hz hne hlen h
  obtain ⟨hflat, hnonempty, _⟩ := wrapGroups_spec sv font jw (effMaxWidth sv maxWidth) text
  generalize wrapGroups sv font jw (effMaxWidth sv maxWidth) text = G at *
  have hlenP : (G.map joinWords).length = n := by simpa using hG
  refine ⟨G, hG, hflat, hnonempty, ?_, ?_⟩
  · intro i hi
    have hcov := joinWords_cover (G.map joinWords) lines
      (if text.getLast? = some SPACE then [SPACE] else [])
      (fun k hk => hlens k (by omega)) i (by omega)
    rw [← htext] at hcov
    have h2 : (G.map joinWords).getD i [] = joinWords (G.getD i []) := by
      simp [List.getD_eq_getElem, hG, hi]
    rw [hcov, h2]
    refine ⟨rfl, ?_⟩
    rw [hlens i hi, h2, joinWords_length]
  · have htot := joinWords_total (G.map joinWords) lines
      (by intro hc; rw [hc] at hlenP; simp at hlenP; omega)
      (fun k hk => hlens k (by omega))
    rw [hlenP] at htot
    have hsum := lineStart_sum lines (n - 1 + 1)
    rw [lineStart] at hsum
    have hn1 : n - 1 + 1 = n := by omega
    rw [hn1] at hsum
    have hl := congrArg List.length htext
    rw [List.length_append] at hl
    have : (if text.getLast? = some SPACE then [SPACE] else []).length
        = if text.getLast? = some SPACE then 1 else 0 := by
      split <;> rfl
    omega

/-- Witness for C3: "HELLO WORLD" at width 40 is covered by two lines of
lengths 5 and 5 with one separator between them: 5 + 5 + 1 = 11. -/
theorem analyzeSentence_accounts_witness :
    ∃ groups : List (List (List Nat)),
      groups.length = 2 ∧ groups.flatten = textWords helloWorld ∧ (∀ g ∈ groups, g ≠ []) ∧
      (∀ i, i < 2 →
        lineText helloWorld (overlay staleLines [⟨38, 5⟩, ⟨38, 5⟩]) i =
          joinWords (groups.getD i []) ∧
        (overlay staleLines [⟨38, 5⟩, ⟨38, 5⟩] i).length =
          ((groups.getD i []).map List.length).sum + ((groups.getD i []).length - 1)) ∧
      ((List.range 2).map (fun i => (overlay staleLines [⟨38, 5⟩, ⟨38, 5⟩] i).length)).sum
        + (2 - 1) + (if helloWorld.getLast? = some SPACE then 1 else 0) = helloWorld.length :=
  analyzeSentence_accounts pcVars (plainFont 10) (initJoinWidth pcVars (plainFont 10))
    helloWorld 40 staleLines 2 (overlay staleLines [⟨38, 5⟩, ⟨38, 5⟩]) (by decide) (by decide)
    (by decide) (by rw [analyzeSentence_eq]; rfl)

/-- Counterexample to C3 as stated: "A " (a trailing space) is returned as one
line of length 1, so the lengths and separators add up to 1 while the text has
2 characters. -/
theorem analyzeSentence_trailing_space :
    ∃ lines, analyzeSentence pcVars (plainFont 10) (initJoinWidth pcVars (plainFont 10))
        textATrail 100 staleLines = .ok (1, lines) ∧
      ((List.range 1).map (fun i => (lines i).length)).sum + (1 - 1) = 1 ∧
      textATrail.length = 2 := by
  refine ⟨overlay staleLines [⟨10, 1⟩], ?_, by decide, by decide⟩
  rw [analyzeSentence_eq]
  rfl

/-! ## C4: wrapping the rebuilt text again -/

theorem rebuild_eq (sv : SystemVars) (font : Int → Frame) (jw : Nat)
    (text : List Nat) (maxWidth : Nat) (line : Nat → LineInfo) (n : Nat)
    (lines : Nat → LineInfo) (hz : ∀ c ∈ text, c ≠ 0) (hne : text ≠ [])
    (hlen : text.length < 65536)
    (h : analyzeSentence sv font jw text maxWidth line = .ok (n, lines)) :
    rebuild text lines n = joinWords (textWords text) := by
  obtain ⟨hG, hn, hlens, htext⟩ :=
    analyzeSentence_parts sv font jw text maxWidth line n lines hz hne hlen h
  obtain ⟨hflat, hnonempty, _⟩ := wrapGroups_spec sv font jw (effMaxWidth sv maxWidth) text
  generalize wrapGroups sv font jw (effMaxWidth sv maxWidth) text = G at *
  have hlenP : (G.map joinWords).length = n := by simpa using hG
  have hpieces : (List.range n).map (lineText text lines) = G.map joinWords := by
    apply List.ext_getElem
    · simp [hG]
    · intro i h1 h2
      have hi : i < n := by simpa using h1
      have hcov := joinWords_cover (G.map joinWords) lines
        (if text.getLast? = some SPACE then [SPACE] else [])
        (fun k hk => hlens k (by omega)) i (by omega)
      rw [← htext] at hcov
      rw [List.getElem_map, List.getElem_range, hcov, List.getD_eq_getElem _ _ h2]
  unfold rebuild
  rw [hpieces, joinWords_flatten G hnonempty, hflat]

/-- **C4**, as amended. Wrapping is idempotent on a non-empty text of fewer
than 65536 characters (none of them NUL) whose last word is not empty (the text does not end with
two spaces and is not a single space): when `analyzeSentence` returns `n` lines,
calling it with the same `maxWidth` on the text rebuilt from the substrings the
lines cover, joined with single spaces, returns `n` lines again, each with the
same width and length. -/
theorem analyzeSentence_rewrap (sv : SystemVars) (font : Int → Frame) (jw : Nat)
    (text : List Nat) (maxWidth : Nat) (line line2 : Nat → LineInfo) (n : Nat)
    (lines : Nat → LineInfo) (hz : ∀ c ∈ text, c ≠ 0) (hne : text ≠ [])
    (hlen : text.length < 65536) (hlast : (textWords text).getLast? ≠ some [])
    (h : analyzeSentence sv font jw text maxWidth line = .ok (n, lines)) :
    ∃ lines2, analyzeSentence sv font jw (rebuild text lines n) maxWidth line2 = .ok (n, lines2) ∧
      ∀ i, i < n → lines2 i = lines i := by
  have hre := rebuild_eq sv font jw text maxWidth line n lines hz hne hlen h
  have hwords : textWords (rebuild text lines n) = textWords text := by
    rw [hre]
    exact textWords_joinWords _ (textWords_clean text) hlast
  have hwrap : wrapLines sv font jw (effMaxWidth sv maxWidth) (rebuild text lines n)
      = wrapLines sv font jw (effMaxWidth sv maxWidth) text := by
    unfold wrapLines
    rw [hwords]
  obtain ⟨hle, hn, hlines⟩ := analyzeSentence_ok sv font jw text maxWidth line n lines h
  have hpos := wrapLines_length_pos sv font jw (effMaxWidth sv maxWidth) text
    (deref_ne_zero text hz hne)
  refine ⟨overlay line2 (wrapLines sv font jw (effMaxWidth sv maxWidth) text), ?_, ?_⟩
  · rw [analyzeSentence_eq, hwrap, if_pos hle, hn]
  · intro i hi
    have hi2 : i < (wrapLines sv font jw (effMaxWidth sv maxWidth) text).length := by omega
    rw [hlines, overlay_lt _ _ i hi2, overlay_lt _ _ i hi2]

/-- Witness for C4: "HELLO WORLD" at width 40 wraps to two lines, and the text
rebuilt from them wraps to the same two lines. -/
theorem analyzeSentence_rewrap_witness :
    ∃ lines2, analyzeSentence pcVars (plainFont 10) (initJoinWidth pcVars (plainFont 10))
        (rebuild helloWorld (overlay staleLines [⟨38, 5⟩, ⟨38, 5⟩]) 2) 40
        (fun _ => ⟨1, 1⟩) = .ok (2, lines2) ∧
      ∀ i, i < 2 → lines2 i = overlay staleLines [⟨38, 5⟩, ⟨38, 5⟩] i :=
  analyzeSentence_rewrap pcVars (plainFont 10) (initJoinWidth pcVars (plainFont 10))
    helloWorld 40 staleLines (fun _ => ⟨1, 1⟩) 2 (overlay staleLines [⟨38, 5⟩, ⟨38, 5⟩])
    (by decide) (by decide) (by decide) (by decide) (by rw [analyzeSentence_eq]; rfl)

/-- Counterexample to C4 as stated: "A  " (two trailing spaces) at width 100
wraps to one line of width 17 and length 2, covering "A "; the rebuilt text
"A " wraps to one line of width 10 and length 1. -/
theorem analyzeSentence_rewrap_differs :
    ∃ lines lines2,
      analyzeSentence pcVars (plainFont 10) (initJoinWidth pcVars (plainFont 10))
        textATrail2 100 staleLines = .ok (1, lines) ∧
      lines 0 = ⟨17, 2⟩ ∧ rebuild textATrail2 lines 1 = [65, 32] ∧
      analyzeSentence pcVars (plainFont 10) (initJoinWidth pcVars (plainFont 10))
        (rebuild textATrail2 lines 1) 100 staleLines = .ok (1, lines2) ∧
      lines2 0 = ⟨10, 1⟩ := by
  have hre : rebuild textATrail2 (overlay staleLines [⟨17, 2⟩]) 1 = [65, 32] := by decide
  refine ⟨overlay staleLines [⟨17, 2⟩], overlay staleLines [⟨10, 1⟩], ?_, by decide, hre, ?_,
    by decide⟩
  · rw [analyzeSentence_eq]; rfl
  · rw [hre, analyzeSentence_eq]; rfl

/-! ## C5: line breaks fall on spaces -/

/-- **C5**, as amended. For a non-empty text of fewer than 65536 characters
(none of them NUL), `analyzeSentence` never splits a word: whenever it returns, the character at
offset `o_i + length_i` is a space for every line `i` but the last; and a text
that contains no space is returned as exactly one line whose length is the
length of the text, whatever `maxWidth` is. -/
theorem analyzeSentence_breaks_at_spaces (sv : SystemVars) (font : Int → Frame) (jw : Nat)
    (text : List Nat) (maxWidth : Nat) (line : Nat → LineInfo)
    (hz : ∀ c ∈ text, c ≠ 0) (hne : text ≠ []) (hlen : text.length < 65536) :
    (∀ n lines, analyzeSentence sv font jw text maxWidth line = .ok (n, lines) →
      ∀ i, i + 1 < n → text[lineStart lines i + (lines i).length]? = some SPACE) ∧
    ((∀ c ∈ text, c ≠ SPACE) →
      ∃ lines, analyzeSentence sv font jw text maxWidth line = .ok (1, lines) ∧
        (lines 0).length = text.length) := by
  refine ⟨?_, ?_⟩
  · intro n lines h i hi
    obtain ⟨hG, hn, hlens, htext⟩ :=
      analyzeSentence_parts sv font jw text maxWidth line n lines hz hne hlen h
    generalize wrapGroups sv font jw (effMaxWidth sv maxWidth) text = G at *
    have hlenP : (G.map joinWords).length = n := by simpa using hG
    have hbr := joinWords_break (G.map joinWords) lines
      (if text.getLast? = some SPACE then [SPACE] else [])
      (fun k hk => hlens k (by omega)) i (by omega)
    rw [← htext] at hbr
    exact hbr
  · intro hs
    have hclean : ∀ c ∈ text, c ≠ SPACE ∧ c ≠ 0 := fun c hc => ⟨hs c hc, hz c hc⟩
    have hwords := textWords_word text hclean hne
    have hwrap : wrapLines sv font jw (effMaxWidth sv maxWidth) text = [wordInfo sv font text] := by
      unfold wrapLines
      rw [hwords]
      rfl
    refine ⟨overlay line [wordInfo sv font text], ?_, ?_⟩
    · rw [analyzeSentence_eq, hwrap]
      rfl
    · have := (wordInfo_clean sv font text hclean).2
      show (wordInfo sv font text).length = text.length
      omega

/-- Witness for C5: in "HELLO WORLD" at width 40 the first line ends at offset
5, where the text has its space. -/
theorem analyzeSentence_breaks_at_spaces_witness :
    helloWorld[lineStart (overlay staleLines [⟨38, 5⟩, ⟨38, 5⟩]) 0
      + (overlay staleLines [⟨38, 5⟩, ⟨38, 5⟩] 0).length]? = some SPACE :=
  (analyzeSentence_breaks_at_spaces pcVars (plainFont 10) (initJoinWidth pcVars (plainFont 10))
    helloWorld 40 staleLines (by decide) (by decide) (by decide)).1 2
    (overlay staleLines [⟨38, 5⟩, ⟨38, 5⟩]) (by rw [analyzeSentence_eq]; rfl) 0 (by decide)

/-- Counterexample to C5 as stated: a text of 65536 letters `A` contains no
space and is returned (in a font of 3-pixel letters) as one line of length 0,
not 65536. -/
theorem analyzeSentence_long_word_length :
    (∀ c ∈ longWord, c ≠ SPACE) ∧ longWord.length = 65536 ∧
    ∃ lines, analyzeSentence pcVars thinFont (initJoinWidth pcVars thinFont)
        longWord 100 staleLines = .ok (1, lines) ∧ (lines 0).length = 0 := by
  refine ⟨?_, length_longWord, overlay staleLines [⟨3, 0⟩], ?_, rfl⟩
  · intro c hc
    have := List.eq_of_mem_replicate hc
    rw [this]
    decide
  · rw [analyzeSentence_eq, wrapLines_longWord]
    rfl

/-! ## C12 and C13: releasing and looking up a slot -/

/-- **C12**. `releaseText(id, updateCount)` with `(id & ITM_ID) < MAX_TEXT_OBS`
returns, empties slot `id & ITM_ID` and leaves every other slot unchanged; the
live-text counter is decremented by exactly 1 when `updateCount` is true and the
slot held a buffer, and is unchanged otherwise; on an already-empty slot the
whole state is unchanged, even with `updateCount = true`. -/
theorem releaseText_frame (pd : PoolDefs) (t : Text) (id : Nat) (updateCount : Bool)
    (hid : id &&& pd.ITM_ID < pd.MAX_TEXT_OBS) :
    ∃ t', releaseText pd t id updateCount = .ok t' ∧
      t'.textBlocks (id &&& pd.ITM_ID) = none ∧
      (∀ i, i ≠ id &&& pd.ITM_ID → t'.textBlocks i = t.textBlocks i) ∧
      t'.textCount =
        (if updateCount = true ∧ (t.textBlocks (id &&& pd.ITM_ID)).isSome = true
          then t.textCount - 1 else t.textCount) ∧
      t'.font = t.font ∧ t'.fontId = t.fontId ∧ t'.joinWidth = t.joinWidth ∧
      t'.charHeight = t.charHeight ∧
      (t.textBlocks (id &&& pd.ITM_ID) = none → t' = t) := by
  unfold releaseText
  simp only [if_pos hid]
  by_cases hs : (t.textBlocks (id &&& pd.ITM_ID)).isSome = true
  · have hne : t.textBlocks (id &&& pd.ITM_ID) ≠ none := by
      intro h; rw [h] at hs; simp at hs
    cases updateCount
    · simp [hs, hne]
      intro i hi
      simp [hi]
    · simp [hs, hne]
      intro i hi
      simp [hi]
  · have hnone : t.textBlocks (id &&& pd.ITM_ID) = none := by
      cases h : t.textBlocks (id &&& pd.ITM_ID) with
      | none => rfl
      | some v => rw [h] at hs; simp at hs
    simp [hs, hnone]

/-- Witness for C12: after a sprite was built into slot 1, releasing the id
0x950001 with `updateCount` empties slot 1. -/
theorem releaseText_frame_witness :
    ∃ t', releaseText gamePool
        { Text.init (envOf pcVars (plainFont 10)) false with
          textCount := 1
          textBlocks := fun i => if i = 1 then some ⟨[], 0, 0, 0, 0, 0, 0, fun _ => 0⟩ else none }
        0x950001 true = .ok t' ∧
      t'.textBlocks 1 = none ∧ t'.textCount = 0 := by
  obtain ⟨t', h1, h2, _, h4, _⟩ := releaseText_frame gamePool
    { Text.init (envOf pcVars (plainFont 10)) false with
      textCount := 1
      textBlocks := fun i => if i = 1 then some ⟨[], 0, 0, 0, 0, 0, 0, fun _ => 0⟩ else none }
    0x950001 true (by decide)
  refine ⟨t', h1, h2, ?_⟩
  rw [h4]
  decide

/-- **C13**. `giveSpriteData(id)` and `releaseText(id, _)` fail (assertion) if
and only if `(id & ITM_ID) >= MAX_TEXT_OBS`; otherwise `giveSpriteData` returns
the content of slot `id & ITM_ID` (which may be empty) and leaves the state as
it is; and it returns the same result for any two ids that agree on the bits
selected by `ITM_ID`, whatever their other bits are. -/
theorem giveSpriteData_spec (pd : PoolDefs) (t : Text) (id : Nat) :
    (giveSpriteData pd t id = .error .assertFailed ↔ pd.MAX_TEXT_OBS ≤ id &&& pd.ITM_ID) ∧
    (∀ updateCount, releaseText pd t id updateCount = .error .assertFailed ↔
      pd.MAX_TEXT_OBS ≤ id &&& pd.ITM_ID) ∧
    (id &&& pd.ITM_ID < pd.MAX_TEXT_OBS →
      giveSpriteData pd t id = .ok (t.textBlocks (id &&& pd.ITM_ID), t)) ∧
    (∀ e, giveSpriteData pd t id = .error e → e = .assertFailed) ∧
    (∀ e updateCount, releaseText pd t id updateCount = .error e → e = .assertFailed) ∧
    (∀ id2, id2 &&& pd.ITM_ID = id &&& pd.ITM_ID →
      giveSpriteData pd t id2 = giveSpriteData pd t id) := by
  have hrel : ∀ updateCount, id &&& pd.ITM_ID < pd.MAX_TEXT_OBS →
      ∃ t', releaseText pd t id updateCount = .ok t' := by
    intro updateCount h
    unfold releaseText
    simp only [if_pos h]
    by_cases hs : (t.textBlocks (id &&& pd.ITM_ID)).isSome = true
    · cases updateCount <;> simp [hs]
    · simp [hs]
  have hrel2 : ∀ updateCount, ¬ id &&& pd.ITM_ID < pd.MAX_TEXT_OBS →
      releaseText pd t id updateCount = .error .assertFailed := by
    intro updateCount h
    simp [releaseText, h]
  refine ⟨?_, ?_, ?_, ?_, ?_, ?_⟩
  · unfold giveSpriteData
    by_cases h : id &&& pd.ITM_ID < pd.MAX_TEXT_OBS
    · simp [h]
    · simp [h]; omega
  · intro updateCount
    by_cases h : id &&& pd.ITM_ID < pd.MAX_TEXT_OBS
    · obtain ⟨t', ht⟩ := hrel updateCount h
      rw [ht]
      simp; omega
    · rw [hrel2 updateCount h]
      simp; omega
  · intro h
    simp [giveSpriteData, h]
  · intro e he
    unfold giveSpriteData at he
    by_cases h : id &&& pd.ITM_ID < pd.MAX_TEXT_OBS
    · simp [h] at he
    · simp [h] at he; exact he.symm
  · intro e updateCount he
    by_cases h : id &&& pd.ITM_ID < pd.MAX_TEXT_OBS
    · obtain ⟨t', ht⟩ := hrel updateCount h
      rw [ht] at he
      simp at he
    · rw [hrel2 updateCount h] at he
      simp at he; exact he.symm
  · intro id2 h
    unfold giveSpriteData
    simp only [h]

/-! ## C11: building into a slot -/

theorem analyzeSentence_cases (sv : SystemVars) (font : Int → Frame) (jw : Nat)
    (text : List Nat) (maxWidth : Nat) (line : Nat → LineInfo) :
    (MAX_LINES < (wrapLines sv font jw (effMaxWidth sv maxWidth) text).length ∧
      analyzeSentence sv font jw text maxWidth line = .error .assertFailed) ∨
    ((wrapLines sv font jw (effMaxWidth sv maxWidth) text).length ≤ MAX_LINES ∧
      ∃ n lines, analyzeSentence sv font jw text maxWidth line = .ok (n, lines)) := by
  rw [analyzeSentence_eq]
  by_cases h : (wrapLines sv font jw (effMaxWidth sv maxWidth) text).length ≤ MAX_LINES
  · exact Or.inr ⟨h, _, _, by rw [if_pos h]⟩
  · exact Or.inl ⟨by omega, by rw [if_neg h]⟩

theorem makeTextSprite_cases (env : Env) (t : Text) (stack : Nat → LineInfo)
    (heap : Int → Nat) (slot : Nat) (text : List Nat) (maxWidth pen : Nat) :
    (((t.textBlocks slot).isSome = true ∨
        MAX_LINES < (wrapLines env.sv t.font t.joinWidth
          (effMaxWidth env.sv maxWidth) text).length) ∧
      makeTextSprite env t stack heap slot text maxWidth pen = .error .assertFailed) ∨
    (t.textBlocks slot = none ∧
      (wrapLines env.sv t.font t.joinWidth (effMaxWidth env.sv maxWidth) text).length
        ≤ MAX_LINES ∧
      ∃ n lines, analyzeSentence env.sv t.font t.joinWidth text maxWidth stack = .ok (n, lines) ∧
        makeTextSprite env t stack heap slot text maxWidth pen =
          .ok { t with textBlocks := fun i =>
                  if i = slot then some (spriteOf env t heap text pen n lines)
                  else t.textBlocks i }) := by
  rcases analyzeSentence_cases env.sv t.font t.joinWidth text maxWidth stack with
    ⟨hlt, hA⟩ | ⟨hle, n, lines, hA⟩
  · exact Or.inl ⟨Or.inr hlt, makeTextSprite_error _ _ _ _ _ _ _ _ _ hA⟩
  · by_cases hs : (t.textBlocks slot).isSome = true
    · exact Or.inl ⟨Or.inl hs, makeTextSprite_occupied _ _ _ _ _ _ _ _ _ _ hA hs⟩
    · have hnone : t.textBlocks slot = none := by
        cases h : t.textBlocks slot with
        | none => rfl
        | some v => rw [h] at hs; simp at hs
      exact Or.inr ⟨hnone, hle, n, lines, hA, makeTextSprite_ok _ _ _ _ _ _ _ _ _ _ hA hnone⟩

/-- **C11**, as amended. `makeTextSprite(slot, ...)` fails (on an assertion, and
in no other way) if and only if the slot already holds a live buffer or the
text wraps to more than `MAX_LINES` lines; when the slot is empty and the text
wraps to at most `MAX_LINES` lines the call succeeds, leaves that slot
non-empty and leaves every other slot and the live-text counter unchanged, and
any second build into the same slot, with no release in between, fails. -/
theorem makeTextSprite_fails_iff (env : Env) (t : Text) (stack : Nat → LineInfo)
    (heap : Int → Nat) (slot : Nat) (text : List Nat) (maxWidth pen : Nat) :
    (makeTextSprite env t stack heap slot text maxWidth pen = .error .assertFailed ↔
      ((t.textBlocks slot).isSome = true ∨
        MAX_LINES < (wrapLines env.sv t.font t.joinWidth
          (effMaxWidth env.sv maxWidth) text).length)) ∧
    (∀ e, makeTextSprite env t stack heap slot text maxWidth pen = .error e →
      e = .assertFailed) ∧
    (t.textBlocks slot = none →
      (wrapLines env.sv t.font t.joinWidth (effMaxWidth env.sv maxWidth) text).length
        ≤ MAX_LINES →
      ∃ t', makeTextSprite env t stack heap slot text maxWidth pen = .ok t' ∧
        (t'.textBlocks slot).isSome = true ∧
        (∀ i, i ≠ slot → t'.textBlocks i = t.textBlocks i) ∧
        t'.textCount = t.textCount ∧
        ∀ stack2 heap2 text2 maxWidth2 pen2,
          makeTextSprite env t' stack2 heap2 slot text2 maxWidth2 pen2 =
            .error .assertFailed) := by
  rcases makeTextSprite_cases env t stack heap slot text maxWidth pen with
    ⟨hc, hfail⟩ | ⟨hnone, hle, n, lines, hA, hok⟩
  · refine ⟨⟨fun _ => hc, fun _ => hfail⟩, ?_, ?_⟩
    · intro e he
      rw [hfail] at he
      simp at he
      exact he.symm
    · intro hnone hle
      rcases hc with hc | hc
      · rw [hnone] at hc; simp at hc
      · omega
  · refine ⟨⟨?_, ?_⟩, ?_, ?_⟩
    · intro h; rw [hok] at h; simp at h
    · intro h
      rcases h with h | h
      · rw [hnone] at h; simp at h
      · omega
    · intro e he; rw [hok] at he; simp at he
    · intro _ _
      refine ⟨_, hok, by simp, ?_, rfl, ?_⟩
      · intro i hi
        simp [hi]
      · intro stack2 heap2 text2 maxWidth2 pen2
        rcases makeTextSprite_cases env
          { t with textBlocks := fun i =>
              if i = slot then some (spriteOf env t heap text pen n lines)
              else t.textBlocks i } stack2 heap2 slot text2 maxWidth2 pen2 with
          ⟨_, hfail2⟩ | ⟨hnone2, _⟩
        · exact hfail2
        · simp at hnone2

theorem wrapLines_text31 :
    (wrapLines pcVars (plainFont 10) (initJoinWidth pcVars (plainFont 10))
      (effMaxWidth pcVars 0) text31).length = 31 := by
  decide

/-- Counterexample to C11 as stated: slot 3 is empty, yet building a text of 31
one-letter words at width 0 (31 lines) into it fails. -/
theorem makeTextSprite_fails_on_empty_slot :
    (Text.init (envOf pcVars (plainFont 10)) false).textBlocks 3 = none ∧
    makeTextSprite (envOf pcVars (plainFont 10)) (Text.init (envOf pcVars (plainFont 10)) false)
      staleLines (fun _ => 0) 3 text31 0 1 = .error .assertFailed := by
  refine ⟨rfl, makeTextSprite_error _ _ _ _ _ _ _ _ _ ?_⟩
  rw [analyzeSentence_eq]
  have h : (wrapLines (envOf pcVars (plainFont 10)).sv
      (Text.init (envOf pcVars (plainFont 10)) false).font
      (Text.init (envOf pcVars (plainFont 10)) false).joinWidth
      (effMaxWidth (envOf pcVars (plainFont 10)).sv 0) text31).length = 31 := wrapLines_text31
  rw [h]
  rfl

/-! ## C16: the width limit on the PSX -/

theorem scanWord_congr (sv sv2 : SystemVars) (font : Int → Frame)
    (h : overlap sv = overlap sv2) :
    ∀ (text : List Nat) (a b : Nat), scanWord sv font text a b = scanWord sv2 font text a b := by
  intro text
  induction text with
  | nil => intro a b; rfl
  | cons c rest ih =>
    intro a b
    simp only [scanWord]
    rw [h]
    split
    · exact ih _ _
    · rfl

theorem analyzeLoop_congr (sv sv2 : SystemVars) (font : Int → Frame) (jw maxWidth : Nat)
    (h : overlap sv = overlap sv2) :
    ∀ (fuel : Nat) (text : List Nat) (lineNo : Nat) ( firstWord : Bool) (line : Nat → LineInfo),
      analyzeLoop sv font jw maxWidth fuel text lineNo firstWord line =
        analyzeLoop sv2 font jw maxWidth fuel text lineNo firstWord line := by
  intro fuel
  induction fuel with
  | zero => intro text lineNo fw line; rfl
  | succ fuel ih =>
    intro text lineNo fw line
    simp only [analyzeLoop]
    rw [scanWord_congr sv sv2 font h text 0 0, h]
    simp only [ih]

/-- **C16**. In PSX mode the caller's `maxWidth` is ignored: for every text,
line array and any two widths `w1` and `w2`, `analyzeSentence(text, w1)` and
`analyzeSentence(text, w2)` give the same result (the same number of lines and
the same array, or the same failure), and both equal what the call gives
outside PSX mode, all else equal, for the width 254. -/
theorem analyzeSentence_psx_ignores_maxWidth (sv : SystemVars) (font : Int → Frame)
    (joinWidth : Nat) (text : List Nat) (w1 w2 : Nat) (line : Nat → LineInfo)
    (hpsx : sv.isPsx = true) :
    analyzeSentence sv font joinWidth text w1 line =
      analyzeSentence sv font joinWidth text w2 line ∧
    analyzeSentence sv font joinWidth text w1 line =
      analyzeSentence { sv with isPsx := false } font joinWidth text 254 line := by
  unfold analyzeSentence
  simp only [hpsx, if_true, Bool.false_eq_true, if_false, true_and]
  exact analyzeLoop_congr sv { sv with isPsx := false } font joinWidth 254 rfl _ _ _ _ _

/-- Witness for C16: "A B" on the PSX with a font of glyphs 10 wide, asked for
the widths 10 and 500. -/
theorem analyzeSentence_psx_ignores_maxWidth_witness :
    psxVars.isPsx = true ∧
    analyzeSentence psxVars (plainFont 10) (initJoinWidth psxVars (plainFont 10)) textAB 10
        staleLines =
      analyzeSentence psxVars (plainFont 10) (initJoinWidth psxVars (plainFont 10)) textAB 500
        staleLines ∧
    analyzeSentence psxVars (plainFont 10) (initJoinWidth psxVars (plainFont 10)) textAB 10
        staleLines =
      analyzeSentence pcVars (plainFont 10) (initJoinWidth psxVars (plainFont 10)) textAB 254
        staleLines :=
  ⟨rfl, analyzeSentence_psx_ignores_maxWidth psxVars (plainFont 10)
    (initJoinWidth psxVars (plainFont 10)) textAB 10 500 staleLines rfl⟩

/-! ## C18: the compositor and the wrapper agree on the widths -/

/-- **C18**. For every character code `ch`, `copyChar(ch, ...)` returns exactly
`charWidth(ch)`; for `ch >= 32` this is the raw (16-bit) width of the glyph at
index `ch - 32`; for `ch < 32` both use the fallback glyph at index 32 (code
64): `copyChar` draws and returns what it does for code 64 and `charWidth`
returns the width of code 64. Such a code, when it is a character of the text
(non-zero), is not a separator: the word scan consumes it as a word character,
adding the fallback width less the overlap and 1 to the length, and it
belongs to the word it stands in. -/
theorem copyChar_agrees_charWidth (env : Env) (t : Text) (ch : Nat) (sprPtr : Int)
    (sprWidth pen : Nat) (mem : Int → Nat) :
    (copyChar env t ch sprPtr sprWidth pen mem).1 = charWidth t.font ch ∧
    (SPACE ≤ ch → charWidth t.font ch = (t.font ((ch : Int) - 32)).width % 65536) ∧
    (ch < SPACE →
      charWidth t.font ch = (t.font 32).width % 65536 ∧
      charWidth t.font ch = charWidth t.font 64 ∧
      copyChar env t ch sprPtr sprWidth pen mem = copyChar env t 64 sprPtr sprWidth pen mem) ∧
    (0 < ch → ch < SPACE → ∀ (rest : List Nat) (wordWidth wordLength : Nat),
      scanWord env.sv t.font (ch :: rest) wordWidth wordLength =
        scanWord env.sv t.font rest
          (((wordWidth + (t.font 32).width % 65536) % 65536 + 65536 - overlap env.sv) % 65536)
          ((wordLength + 1) % 65536) ∧
      firstWord (ch :: rest) = ch :: firstWord rest) := by
  refine ⟨rfl, ?_, ?_, ?_⟩
  · intro h
    unfold charWidth
    rw [if_neg (by omega)]
    rfl
  · intro h
    have h1 : charWidth t.font ch = (t.font 32).width % 65536 := by
      unfold charWidth
      rw [if_pos h]
      rfl
    refine ⟨h1, ?_, ?_⟩
    · rw [h1]; rfl
    · unfold copyChar
      rw [if_pos h]
      rfl
  · intro h0 h rest a b
    have h1 : charWidth t.font ch = (t.font 32).width % 65536 := by
      unfold charWidth
      rw [if_pos h]
      rfl
    have hne : ch ≠ SPACE ∧ ch ≠ 0 := by
      unfold SPACE at h ⊢
      omega
    refine ⟨?_, ?_⟩
    · simp only [scanWord]
      rw [if_pos hne, h1]
    · simp only [firstWord]
      rw [if_pos hne]

/-! ## C14: the first free text object -/

theorem findFreeObject_spec (status : Nat → Nat) (f : Nat) (hfree : status f = 0)
    (hf : f < 4294967296) :
    ∀ (fuel prev k : Nat), (prev + 1) % 4294967296 = k → k ≤ f →
      (∀ j, k ≤ j → j < f → status j ≠ 0) → f - k < fuel →
      findFreeObject status fuel prev = some f := by
  intro fuel
  induction fuel with
  | zero => intro prev k _ _ _ h; omega
  | succ fuel ih =>
    intro prev k hk hle hbusy hfuel
    simp only [findFreeObject]
    rw [hk]
    by_cases hkf : k = f
    · subst hkf
      rw [if_neg (by simp [hfree])]
    · rw [if_pos (hbusy k (le_refl k) (by omega))]
      exact ih k (k + 1) (by omega) (by omega)
        (fun j hj hjf => hbusy j (by omega) hjf) (by omega)

theorem findFreeObject_some (status : Nat → Nat) :
    ∀ (fuel prev id : Nat), findFreeObject status fuel prev = some id → status id = 0 := by
  intro fuel
  induction fuel with
  | zero => intro prev id h; simp [findFreeObject] at h
  | succ fuel ih =>
    intro prev id h
    simp only [findFreeObject] at h
    by_cases hs : status ((prev + 1) % 4294967296) ≠ 0
    · rw [if_pos hs] at h
      exact ih _ _ h
    · rw [if_neg hs] at h
      simp only [Option.some.injEq] at h
      subst h
      simpa using hs

theorem findFreeObject_first (pd : PoolDefs) (status : Nat → Nat) (fuel f : Nat)
    (hbase : pd.TEXT_sect * pd.ITM_PER_SEC ≤ f) (hf : f < 4294967296)
    (hfree : status f = 0)
    (hmin : ∀ j, pd.TEXT_sect * pd.ITM_PER_SEC ≤ j → j < f → status j ≠ 0)
    (hfuel : f - pd.TEXT_sect * pd.ITM_PER_SEC < fuel) :
    findFreeObject status fuel (firstTextObj pd) = some f := by
  apply findFreeObject_spec status f hfree hf fuel (firstTextObj pd)
    (pd.TEXT_sect * pd.ITM_PER_SEC) _ hbase hmin hfuel
  unfold firstTextObj
  omega

theorem lowTextManager_eq (pd : PoolDefs) (env : Env) (t : Text) (status : Nat → Nat)
    (fuel : Nat) (stack : Nat → LineInfo) (heap : Int → Nat) (ascii : List Nat) (width : Int)
    (pen : Nat) (f : Nat)
    (hfind : findFreeObject status fuel (firstTextObj pd) = some f)
    (hcount : t.textCount < (pd.MAX_TEXT_OBS : Int)) :
    lowTextManager pd env t status fuel stack heap ascii width pen =
      match makeTextSprite env { t with textCount := t.textCount + 1 } stack heap (f % 256)
          ascii ((width % 65536).toNat) pen with
      | .error e => .error e
      | .ok t2 => .ok (f, t2, setStatus status f pd.STAT_FORE) := by
  unfold lowTextManager
  simp only [hfind]
  rw [if_neg (by simp only [gt_iff_lt]; omega)]

theorem lowTextManager_full (pd : PoolDefs) (env : Env) (t : Text) (status : Nat → Nat)
    (fuel : Nat) (stack : Nat → LineInfo) (heap : Int → Nat) (ascii : List Nat) (width : Int)
    (pen : Nat) (hcount : (pd.MAX_TEXT_OBS : Int) ≤ t.textCount) :
    lowTextManager pd env t status fuel stack heap ascii width pen = .error .errorCalled := by
  unfold lowTextManager
  simp only
  rw [if_pos (by simp only [gt_iff_lt]; omega)]


/-- **C14**, as amended. Let `f` be the smallest object id `>= TEXT_sect *
ITM_PER_SEC` whose status is free (0), the search loop being given enough
steps to reach it. Then `lowTextManager` stops on `error(...)` if and only if
the live-text counter is already `>= MAX_TEXT_OBS` before the call. Below the
ceiling it fails on an assertion if and only if the slot given by the low 8
bits of `f` already holds a buffer or the text wraps to more than `MAX_LINES`
lines; otherwise it returns `f`, sets that object's status to `STAT_FORE`,
leaves every other object's status unchanged, increments the counter by
exactly 1 and stores what `makeTextSprite` builds in the slot given by the low
8 bits of `f`, leaving every other slot unchanged. -/
theorem lowTextManager_first_fit (pd : PoolDefs) (env : Env) (t : Text) (status : Nat → Nat)
    (fuel : Nat) (stack : Nat → LineInfo) (heap : Int → Nat) (ascii : List Nat) (width : Int)
    (pen : Nat) (f : Nat)
    (hbase : pd.TEXT_sect * pd.ITM_PER_SEC ≤ f) (hf : f < 4294967296)
    (hfree : status f = 0)
    (hmin : ∀ j, pd.TEXT_sect * pd.ITM_PER_SEC ≤ j → j < f → status j ≠ 0)
    (hfuel : f - pd.TEXT_sect * pd.ITM_PER_SEC < fuel) :
    (lowTextManager pd env t status fuel stack heap ascii width pen = .error .errorCalled ↔
      (pd.MAX_TEXT_OBS : Int) ≤ t.textCount) ∧
    (t.textCount < (pd.MAX_TEXT_OBS : Int) →
      (lowTextManager pd env t status fuel stack heap ascii width pen = .error .assertFailed ↔
        ((t.textBlocks (f % 256)).isSome = true ∨
          MAX_LINES < (wrapLines env.sv t.font t.joinWidth
            (effMaxWidth env.sv ((width % 65536).toNat)) ascii).length)) ∧
      (t.textBlocks (f % 256) = none →
        (wrapLines env.sv t.font t.joinWidth
          (effMaxWidth env.sv ((width % 65536).toNat)) ascii).length ≤ MAX_LINES →
        ∃ t', lowTextManager pd env t status fuel stack heap ascii width pen =
            .ok (f, t', setStatus status f pd.STAT_FORE) ∧
          setStatus status f pd.STAT_FORE f = pd.STAT_FORE ∧
          (∀ j, j ≠ f → setStatus status f pd.STAT_FORE j = status j) ∧
          t'.textCount = t.textCount + 1 ∧
          makeTextSprite env { t with textCount := t.textCount + 1 } stack heap (f % 256)
            ascii ((width % 65536).toNat) pen = .ok t' ∧
          (t'.textBlocks (f % 256)).isSome = true ∧
          ∀ i, i ≠ f % 256 → t'.textBlocks i = t.textBlocks i)) := by
  have hfind := findFreeObject_first pd status fuel f hbase hf hfree hmin hfuel
  by_cases hc : t.textCount < (pd.MAX_TEXT_OBS : Int)
  · have heq := lowTextManager_eq pd env t status fuel stack heap ascii width pen f hfind hc
    rcases makeTextSprite_cases env { t with textCount := t.textCount + 1 } stack heap
        (f % 256) ascii ((width % 65536).toNat) pen with
      ⟨hcase, hfail⟩ | ⟨hnone, hle, n, lines, _, hok⟩
    · rw [hfail] at heq
      refine ⟨⟨fun h => ?_, fun h => ?_⟩, fun _ => ⟨⟨fun _ => hcase, fun _ => heq⟩, ?_⟩⟩
      · rw [heq] at h; simp at h
      · omega
      · intro hnone hle
        rcases hcase with h | h
        · rw [show ({ t with textCount := t.textCount + 1 } : Text).textBlocks (f % 256)
            = t.textBlocks (f % 256) from rfl, hnone] at h
          simp at h
        · have h2 : MAX_LINES < (wrapLines env.sv t.font t.joinWidth
            (effMaxWidth env.sv ((width % 65536).toNat)) ascii).length := h
          omega
    · rw [hok] at heq
      refine ⟨⟨fun h => ?_, fun h => ?_⟩, fun _ => ⟨⟨fun h => ?_, fun h => ?_⟩, ?_⟩⟩
      · rw [heq] at h; simp at h
      · omega
      · rw [heq] at h; simp at h
      · rcases h with h | h
        · rw [show t.textBlocks (f % 256)
            = ({ t with textCount := t.textCount + 1 } : Text).textBlocks (f % 256) from rfl,
            hnone] at h
          simp at h
        · have h2 : (wrapLines env.sv t.font t.joinWidth
            (effMaxWidth env.sv ((width % 65536).toNat)) ascii).length ≤ MAX_LINES := hle
          omega
      · intro _ _
        refine ⟨_, heq, by simp [setStatus], ?_, rfl, hok, by simp, ?_⟩
        · intro j hj
          simp [setStatus, hj]
        · intro i hi
          simp [hi]
  · have hfull := lowTextManager_full pd env t status fuel stack heap ascii width pen
      (by omega)
    refine ⟨⟨fun _ => by omega, fun _ => hfull⟩, fun h => absurd h hc⟩

/-- Witness for C14: a fresh pool, every object free, the text "A B": the call
returns the first text object, 149 * 65536, and the counter becomes 1. -/
theorem lowTextManager_first_fit_witness :
    ∃ t', lowTextManager gamePool (envOf pcVars (plainFont 10))
        (Text.init (envOf pcVars (plainFont 10)) false) (fun _ => 0) 1 staleLines
        (fun _ => 0) textAB 500 1 = .ok (9764864, t', setStatus (fun _ => 0) 9764864 8) ∧
      t'.textCount = 1 ∧ (t'.textBlocks 0).isSome = true := by
  obtain ⟨t', h1, _, _, h4, _, h6, _⟩ :=
    (lowTextManager_first_fit gamePool (envOf pcVars (plainFont 10))
      (Text.init (envOf pcVars (plainFont 10)) false) (fun _ => 0) 1 staleLines
      (fun _ => 0) textAB 500 1 9764864 (by decide) (by decide) rfl
      (fun j h1 h2 => by simp only [gamePool] at h1; omega) (by decide)).2 (by decide) |>.2
      rfl (by decide)
  exact ⟨t', h1, h4, h6⟩

/-- Counterexample to C14 as stated: the counter is 0, below the ceiling 3, and
the first text object is free, yet the call fails, because the text of 31
one-letter words wraps to 31 lines at width 0. -/
theorem lowTextManager_fails_below_ceiling :
    (Text.init (envOf pcVars (plainFont 10)) false).textCount = 0 ∧
    gamePool.MAX_TEXT_OBS = 3 ∧
    lowTextManager gamePool (envOf pcVars (plainFont 10))
      (Text.init (envOf pcVars (plainFont 10)) false) (fun _ => 0) 1 staleLines
      (fun _ => 0) text31 0 1 = .error .assertFailed := by
  refine ⟨rfl, rfl, ?_⟩
  rw [lowTextManager_eq gamePool _ _ _ _ _ _ _ _ _ 9764864
    (findFreeObject_first gamePool (fun _ => 0) 1 9764864 (by decide) (by decide) rfl
      (fun j h1 h2 => by simp only [gamePool] at h1; omega) (by decide)) (by decide)]
  rcases makeTextSprite_cases (envOf pcVars (plainFont 10))
      { Text.init (envOf pcVars (plainFont 10)) false with
        textCount := (Text.init (envOf pcVars (plainFont 10)) false).textCount + 1 }
      staleLines (fun _ => 0) (9764864 % 256) text31 (((0 : Int) % 65536).toNat) 1 with
    ⟨_, hfail⟩ | ⟨_, hle, _⟩
  · rw [hfail]
  · have h31 : (wrapLines pcVars (plainFont 10) (initJoinWidth pcVars (plainFont 10))
      (effMaxWidth pcVars 0) text31).length = 31 := wrapLines_text31
    have hle2 : (wrapLines pcVars (plainFont 10) (initJoinWidth pcVars (plainFont 10))
      (effMaxWidth pcVars 0) text31).length ≤ MAX_LINES := hle
    rw [h31] at hle2
    exact absurd hle2 (by decide)


/-! ## C15: the round trip through the pool -/

theorem drawChars_textCount (env : Env) (t : Text) (c : Int) (sprWidth pen : Nat) :
    ∀ (todo : Nat) (cur : List Nat) (sprPtr : Int) (mem : Int → Nat),
      drawChars env { t with textCount := c } sprWidth pen todo cur sprPtr mem =
        drawChars env t sprWidth pen todo cur sprPtr mem := by
  intro todo
  induction todo with
  | zero => intro cur sprPtr mem; rfl
  | succ todo ih =>
    intro cur sprPtr mem
    simp only [drawChars]
    rw [ih]
    rfl

theorem drawLines_textCount (env : Env) (t : Text) (c : Int) (lines : Nat → LineInfo)
    (sprWidth pen : Nat) :
    ∀ (todo lineCnt : Nat) (text : List Nat) (linePtr : Int) (mem : Int → Nat),
      drawLines env { t with textCount := c } lines sprWidth pen todo lineCnt text linePtr mem =
        drawLines env t lines sprWidth pen todo lineCnt text linePtr mem := by
  intro todo
  induction todo with
  | zero => intro lineCnt text linePtr mem; rfl
  | succ todo ih =>
    intro lineCnt text linePtr mem
    simp only [drawLines]
    rw [ih, drawChars_textCount]

theorem spriteOf_textCount (env : Env) (t : Text) (c : Int) (heap : Int → Nat)
    (text : List Nat) (pen numLines : Nat) (lines : Nat → LineInfo) :
    spriteOf env { t with textCount := c } heap text pen numLines lines =
      spriteOf env t heap text pen numLines lines := by
  unfold spriteOf
  simp only [drawLines_textCount]

theorem lowTextManager_ok_inv (pd : PoolDefs) (env : Env) (t : Text) (status : Nat → Nat)
    (fuel : Nat) (stack : Nat → LineInfo) (heap : Int → Nat) (ascii : List Nat) (width : Int)
    (pen : Nat) (id : Nat) (t1 : Text) (st1 : Nat → Nat)
    (hok : lowTextManager pd env t status fuel stack heap ascii width pen = .ok (id, t1, st1)) :
    t.textCount < (pd.MAX_TEXT_OBS : Int) ∧
    status id = 0 ∧
    st1 = setStatus status id pd.STAT_FORE ∧
    t.textBlocks (id % 256) = none ∧
    ∃ n lines,
      analyzeSentence env.sv t.font t.joinWidth ascii ((width % 65536).toNat) stack
        = .ok (n, lines) ∧
      t1 = { t with
        textCount := t.textCount + 1
        textBlocks := fun i =>
          if i = id % 256 then some (spriteOf env t heap ascii pen n lines)
          else t.textBlocks i } := by
  by_cases hc : t.textCount < (pd.MAX_TEXT_OBS : Int)
  · cases hfind : findFreeObject status fuel (firstTextObj pd) with
    | none =>
      unfold lowTextManager at hok
      simp only [hfind] at hok
      rw [if_neg (by simp only [gt_iff_lt]; omega)] at hok
      simp at hok
    | some f =>
      rw [lowTextManager_eq pd env t status fuel stack heap ascii width pen f hfind hc] at hok
      rcases makeTextSprite_cases env { t with textCount := t.textCount + 1 } stack heap
          (f % 256) ascii ((width % 65536).toNat) pen with
        ⟨_, hfail⟩ | ⟨hnone, _, n, lines, hA, hmk⟩
      · rw [hfail] at hok
        simp at hok
      · rw [hmk] at hok
        simp only [Except.ok.injEq, Prod.mk.injEq] at hok
        obtain ⟨h1, h2, h3⟩ := hok
        subst h1
        refine ⟨hc, findFreeObject_some status fuel _ _ hfind, h3.symm, hnone, n, lines, hA, ?_⟩
        rw [← h2, spriteOf_textCount]
  · rw [lowTextManager_full pd env t status fuel stack heap ascii width pen (by omega)] at hok
    simp at hok

theorem releaseText_undo (pd : PoolDefs) (t : Text) (id : Nat) (s : Sprite)
    (hrange : id &&& pd.ITM_ID < pd.MAX_TEXT_OBS)
    (hnone : t.textBlocks (id &&& pd.ITM_ID) = none) :
    releaseText pd
      { t with
        textCount := t.textCount + 1
        textBlocks := fun i => if i = id &&& pd.ITM_ID then some s else t.textBlocks i }
      id true = .ok t := by
  unfold releaseText
  simp only [if_pos hrange, if_true, Option.isSome_some]
  congr 1
  cases t with
  | mk font fontId textCount joinWidth charHeight textBlocks =>
    simp only [Text.mk.injEq, true_and]
    refine ⟨by omega, ?_⟩
    funext i
    by_cases hi : i = id &&& pd.ITM_ID
    · simp only [hi, if_true]
      exact hnone.symm
    · simp only [if_neg hi]

/-- **C15**, as amended. Whenever `lowTextManager(text, width, pen)` succeeds
and returns an `id` whose low 8 bits (the slot built) equal `id & ITM_ID` (the
slot looked up) and lie below `MAX_TEXT_OBS`: `giveSpriteData(id)` returns the
sprite just built, which is the block `makeTextSprite` computes for that text;
`releaseText(id, true)` then restores the members exactly as they were before
the acquisition, so that `giveSpriteData(id)` returns empty, the live-text
counter equals its value before the acquisition, and a build into that slot of
any text of at most `MAX_LINES` lines succeeds. -/
theorem pool_round_trip (pd : PoolDefs) (env : Env) (t : Text) (status : Nat → Nat)
    (fuel : Nat) (stack : Nat → LineInfo) (heap : Int → Nat) (ascii : List Nat) (width : Int)
    (pen : Nat) (id : Nat) (t1 : Text) (st1 : Nat → Nat)
    (hok : lowTextManager pd env t status fuel stack heap ascii width pen = .ok (id, t1, st1))
    (hslot : id &&& pd.ITM_ID = id % 256) (hrange : id % 256 < pd.MAX_TEXT_OBS) :
    (∃ n lines,
      analyzeSentence env.sv t.font t.joinWidth ascii ((width % 65536).toNat) stack
        = .ok (n, lines) ∧
      giveSpriteData pd t1 id = .ok (some (spriteOf env t heap ascii pen n lines), t1)) ∧
    releaseText pd t1 id true = .ok t ∧
    giveSpriteData pd t id = .ok (none, t) ∧
    t1.textCount = t.textCount + 1 ∧
    (∀ stack2 heap2 text2 maxWidth2 pen2,
      (wrapLines env.sv t.font t.joinWidth (effMaxWidth env.sv maxWidth2) text2).length
        ≤ MAX_LINES →
      ∃ t3, makeTextSprite env t stack2 heap2 (id % 256) text2 maxWidth2 pen2 = .ok t3) := by
  obtain ⟨_, _, _, hnone, n, lines, hA, ht1⟩ :=
    lowTextManager_ok_inv pd env t status fuel stack heap ascii width pen id t1 st1 hok
  have hr : id &&& pd.ITM_ID < pd.MAX_TEXT_OBS := by rw [hslot]; exact hrange
  refine ⟨⟨n, lines, hA, ?_⟩, ?_, ?_, ?_, ?_⟩
  · unfold giveSpriteData
    simp only [if_pos hr]
    rw [ht1, hslot]
    simp
  · rw [ht1, ← hslot]
    exact releaseText_undo pd t id _ hr (by rw [hslot]; exact hnone)
  · unfold giveSpriteData
    simp only [if_pos hr]
    rw [hslot, hnone]
  · rw [ht1]
  · intro stack2 heap2 text2 maxWidth2 pen2 hle
    rcases makeTextSprite_cases env t stack2 heap2 (id % 256) text2 maxWidth2 pen2 with
      ⟨hcase, _⟩ | ⟨_, _, n2, lines2, _, hmk⟩
    · rcases hcase with h | h
      · rw [hnone] at h; simp at h
      · omega
    · exact ⟨_, hmk⟩


theorem lowTextManager_ok (pd : PoolDefs) (env : Env) (t : Text) (status : Nat → Nat)
    (fuel : Nat) (stack : Nat → LineInfo) (heap : Int → Nat) (ascii : List Nat) (width : Int)
    (pen : Nat) (f : Nat)
    (hfind : findFreeObject status fuel (firstTextObj pd) = some f)
    (hcount : t.textCount < (pd.MAX_TEXT_OBS : Int))
    (hnone : t.textBlocks (f % 256) = none)
    (hle : (wrapLines env.sv t.font t.joinWidth
      (effMaxWidth env.sv ((width % 65536).toNat)) ascii).length ≤ MAX_LINES) :
    ∃ t1, lowTextManager pd env t status fuel stack heap ascii width pen =
      .ok (f, t1, setStatus status f pd.STAT_FORE) := by
  rw [lowTextManager_eq pd env t status fuel stack heap ascii width pen f hfind hcount]
  rcases makeTextSprite_cases env { t with textCount := t.textCount + 1 } stack heap
      (f % 256) ascii ((width % 65536).toNat) pen with
    ⟨hcase, _⟩ | ⟨_, _, n, lines, _, hmk⟩
  · rcases hcase with h | h
    · rw [show ({ t with textCount := t.textCount + 1 } : Text).textBlocks (f % 256)
        = t.textBlocks (f % 256) from rfl, hnone] at h
      simp at h
    · have h2 : MAX_LINES < (wrapLines env.sv t.font t.joinWidth
        (effMaxWidth env.sv ((width % 65536).toNat)) ascii).length := h
      omega
  · rw [hmk]
    exact ⟨_, rfl⟩

/-- Witness for C15: a fresh pool, every object free, the text "A B": the id
returned is 149 * 65536, whose low 8 and low 16 bits are both 0; releasing it
gives back the fresh pool. -/
theorem pool_round_trip_witness :
    ∃ t1, lowTextManager gamePool (envOf pcVars (plainFont 10))
        (Text.init (envOf pcVars (plainFont 10)) false) (fun _ => 0) 1 staleLines
        (fun _ => 0) textAB 500 1 = .ok (9764864, t1, setStatus (fun _ => 0) 9764864 8) ∧
      releaseText gamePool t1 9764864 true =
        .ok (Text.init (envOf pcVars (plainFont 10)) false) ∧
      giveSpriteData gamePool (Text.init (envOf pcVars (plainFont 10)) false) 9764864 =
        .ok (none, Text.init (envOf pcVars (plainFont 10)) false) := by
  obtain ⟨t1, h1⟩ := lowTextManager_ok gamePool (envOf pcVars (plainFont 10))
    (Text.init (envOf pcVars (plainFont 10)) false) (fun _ => 0) 1 staleLines
    (fun _ => 0) textAB 500 1 9764864
    (findFreeObject_first gamePool (fun _ => 0) 1 9764864 (by decide) (by decide) rfl
      (fun j h1 h2 => by simp only [gamePool] at h1; omega) (by decide))
    (by decide) rfl (by decide)
  have h := pool_round_trip gamePool (envOf pcVars (plainFont 10))
    (Text.init (envOf pcVars (plainFont 10)) false) (fun _ => 0) 1 staleLines
    (fun _ => 0) textAB 500 1 9764864 t1 _ h1 (by decide) (by decide)
  exact ⟨t1, h1, h.2.1, h.2.2.1⟩

/-- Counterexample to C15 as stated: with the first 256 text objects in use
(and the pool fresh) `lowTextManager` succeeds and returns the id
`149 * 65536 + 256`, having built slot 0 (the low 8 bits of the id), but
`giveSpriteData` of that id fails: it decodes the id to `id & ITM_ID = 256`,
which is not below `MAX_TEXT_OBS = 3`. -/
theorem pool_round_trip_fails :
    ∃ t1 st1, lowTextManager gamePool (envOf pcVars (plainFont 10))
        (Text.init (envOf pcVars (plainFont 10)) false) busy256 257 staleLines
        (fun _ => 0) textAB 500 1 = .ok (9765120, t1, st1) ∧
      giveSpriteData gamePool t1 9765120 = .error .assertFailed := by
  obtain ⟨t1, h1⟩ := lowTextManager_ok gamePool (envOf pcVars (plainFont 10))
    (Text.init (envOf pcVars (plainFont 10)) false) busy256 257 staleLines
    (fun _ => 0) textAB 500 1 9765120
    (findFreeObject_first gamePool busy256 257 9765120 (by decide) (by decide) (by decide)
      (fun j h1 h2 => by simp only [busy256]; rw [if_pos (by omega)]; decide) (by decide))
    (by decide) rfl (by decide)
  exact ⟨t1, _, h1, rfl⟩


/-! ## C20: the counter and the number of live slots -/

theorem liveSlots_succ (tb : Nat → Option Sprite) (n : Nat) :
    liveSlots tb (n + 1) = liveSlots tb n + (if (tb n).isSome = true then 1 else 0) := by
  unfold liveSlots
  rw [List.range_succ, List.countP_append]
  simp [List.countP_cons]

theorem liveSlots_fill (tb : Nat → Option Sprite) (s : Nat) (v : Sprite)
    (hnone : tb s = none) :
    ∀ n, liveSlots (fun i => if i = s then some v else tb i) n =
      liveSlots tb n + (if s < n then 1 else 0) := by
  intro n
  induction n with
  | zero => simp [liveSlots]
  | succ n ih =>
    rw [liveSlots_succ, liveSlots_succ, ih]
    by_cases hn : n = s
    · subst hn
      simp [hnone]
    · have h1 : (s < n + 1) ↔ (s < n) := by omega
      simp only [if_neg hn, h1]
      omega

theorem liveSlots_clear (tb : Nat → Option Sprite) (s : Nat)
    (hsome : (tb s).isSome = true) :
    ∀ n, liveSlots (fun i => if i = s then none else tb i) n + (if s < n then 1 else 0) =
      liveSlots tb n := by
  intro n
  induction n with
  | zero => simp [liveSlots]
  | succ n ih =>
    rw [liveSlots_succ, liveSlots_succ, ← ih]
    by_cases hn : n = s
    · subst hn
      simp [hsome]
    · have h1 : (s < n + 1) ↔ (s < n) := by omega
      simp only [if_neg hn, h1]
      omega

theorem lowTextManager_counts (pd : PoolDefs) (env : Env) (t : Text) (status : Nat → Nat)
    (fuel : Nat) (stack : Nat → LineInfo) (heap : Int → Nat) (ascii : List Nat) (width : Int)
    (pen : Nat) (r : Nat × Text × (Nat → Nat))
    (hok : lowTextManager pd env t status fuel stack heap ascii width pen = .ok r)
    (hinv : (liveSlots t.textBlocks pd.MAX_TEXT_OBS : Int) ≤ t.textCount ∧
      t.textCount ≤ (pd.MAX_TEXT_OBS : Int)) :
    (liveSlots r.2.1.textBlocks pd.MAX_TEXT_OBS : Int) ≤ r.2.1.textCount ∧
      r.2.1.textCount ≤ (pd.MAX_TEXT_OBS : Int) := by
  obtain ⟨id, t1, st1⟩ := r
  obtain ⟨hc, _, _, hnone, n, lines, _, ht1⟩ :=
    lowTextManager_ok_inv pd env t status fuel stack heap ascii width pen id t1 st1 hok
  subst ht1
  simp only
  rw [liveSlots_fill t.textBlocks (id % 256) _ hnone]
  constructor
  · split <;> push_cast <;> omega
  · omega

theorem releaseText_counts (pd : PoolDefs) (t : Text) (id : Nat) (updateCount : Bool)
    (t1 : Text) (hok : releaseText pd t id updateCount = .ok t1)
    (hinv : (liveSlots t.textBlocks pd.MAX_TEXT_OBS : Int) ≤ t.textCount ∧
      t.textCount ≤ (pd.MAX_TEXT_OBS : Int)) :
    (liveSlots t1.textBlocks pd.MAX_TEXT_OBS : Int) ≤ t1.textCount ∧
      t1.textCount ≤ (pd.MAX_TEXT_OBS : Int) := by
  unfold releaseText at hok
  by_cases hr : id &&& pd.ITM_ID < pd.MAX_TEXT_OBS
  · simp only [if_pos hr] at hok
    by_cases hs : (t.textBlocks (id &&& pd.ITM_ID)).isSome = true
    · have hcl := liveSlots_clear t.textBlocks (id &&& pd.ITM_ID) hs pd.MAX_TEXT_OBS
      rw [if_pos hr] at hcl
      simp only [if_pos hs] at hok
      cases updateCount with
      | true =>
        simp only [if_true, Except.ok.injEq] at hok
        subst hok
        simp only
        omega
      | false =>
        simp only [Bool.false_eq_true, if_false, Except.ok.injEq] at hok
        subst hok
        simp only
        omega
    · simp only [if_neg hs, Except.ok.injEq] at hok
      subst hok
      exact hinv
  · simp only [if_neg hr] at hok
    simp at hok

theorem runOps_counts (pd : PoolDefs) (env : Env) :
    ∀ (ops : List PoolOp) (t t1 : Text), runOps pd env t ops = .ok t1 →
      ((liveSlots t.textBlocks pd.MAX_TEXT_OBS : Int) ≤ t.textCount ∧
        t.textCount ≤ (pd.MAX_TEXT_OBS : Int)) →
      ((liveSlots t1.textBlocks pd.MAX_TEXT_OBS : Int) ≤ t1.textCount ∧
        t1.textCount ≤ (pd.MAX_TEXT_OBS : Int)) := by
  intro ops
  induction ops with
  | nil =>
    intro t t1 h hinv
    simp only [runOps, Except.ok.injEq] at h
    subst h
    exact hinv
  | cons op ops ih =>
    intro t t1 h hinv
    cases op with
    | acquire status fuel stack heap ascii width pen =>
      simp only [runOps] at h
      cases hl : lowTextManager pd env t status fuel stack heap ascii width pen with
      | error e => rw [hl] at h; simp at h
      | ok r =>
        rw [hl] at h
        exact ih _ _ h (lowTextManager_counts pd env t status fuel stack heap ascii width pen
          r hl hinv)
    | release id updateCount =>
      simp only [runOps] at h
      cases hl : releaseText pd t id updateCount with
      | error e => rw [hl] at h; simp at h
      | ok t2 =>
        rw [hl] at h
        exact ih _ _ h (releaseText_counts pd t id updateCount t2 hl hinv)

/-- **C20**. Starting from the constructed state (all slots empty, counter 0),
after any sequence of successful `lowTextManager` and `releaseText` calls (any
arguments, any `updateCount` values, any object table at each call), the number
of non-empty slots among the `MAX_TEXT_OBS` slots is `<=` the live-text counter
`<= MAX_TEXT_OBS`; in particular the counter is never below 0, so no decrement
in `releaseText` takes it below 0. -/
theorem pool_counter_invariant (pd : PoolDefs) (env : Env) (czechVersion : Bool)
    (ops : List PoolOp) (t : Text)
    (hrun : runOps pd env (Text.init env czechVersion) ops = .ok t) :
    (liveSlots t.textBlocks pd.MAX_TEXT_OBS : Int) ≤ t.textCount ∧
    t.textCount ≤ (pd.MAX_TEXT_OBS : Int) ∧
    0 ≤ t.textCount := by
  have h0 : (liveSlots (Text.init env czechVersion).textBlocks pd.MAX_TEXT_OBS : Int) ≤
      (Text.init env czechVersion).textCount ∧
      (Text.init env czechVersion).textCount ≤ (pd.MAX_TEXT_OBS : Int) := by
    have hz : liveSlots (Text.init env czechVersion).textBlocks pd.MAX_TEXT_OBS = 0 := by
      simp [liveSlots, Text.init]
    rw [hz]
    simp [Text.init]
  obtain ⟨h1, h2⟩ := runOps_counts pd env ops _ t hrun h0
  exact ⟨h1, h2, by omega⟩


/-- Witness for C20: on a fresh pool, acquiring a sprite for "A B" and releasing
it again with `updateCount` set both succeed; the run ends in the constructed
state, with 0 live slots and counter 0. -/
theorem pool_counter_invariant_witness :
    runOps gamePool (envOf pcVars (plainFont 10))
        (Text.init (envOf pcVars (plainFont 10)) false)
        [PoolOp.acquire (fun _ => 0) 1 staleLines (fun _ => 0) textAB 500 1,
         PoolOp.release 9764864 true] =
      .ok (Text.init (envOf pcVars (plainFont 10)) false) ∧
    (liveSlots (Text.init (envOf pcVars (plainFont 10)) false).textBlocks
        gamePool.MAX_TEXT_OBS : Int) ≤
      (Text.init (envOf pcVars (plainFont 10)) false).textCount ∧
    (Text.init (envOf pcVars (plainFont 10)) false).textCount ≤ (gamePool.MAX_TEXT_OBS : Int) ∧
    0 ≤ (Text.init (envOf pcVars (plainFont 10)) false).textCount := by
  obtain ⟨t1, h1⟩ := lowTextManager_ok gamePool (envOf pcVars (plainFont 10))
    (Text.init (envOf pcVars (plainFont 10)) false) (fun _ => 0) 1 staleLines
    (fun _ => 0) textAB 500 1 9764864
    (findFreeObject_first gamePool (fun _ => 0) 1 9764864 (by decide) (by decide) rfl
      (fun j h1 h2 => by simp only [gamePool] at h1; omega) (by decide))
    (by decide) rfl (by decide)
  obtain ⟨_, _, _, hnone, n, lines, _, ht1⟩ :=
    lowTextManager_ok_inv _ _ _ _ _ _ _ _ _ _ _ _ _ h1
  have hrel : releaseText gamePool t1 9764864 true =
      .ok (Text.init (envOf pcVars (plainFont 10)) false) := by
    rw [ht1]
    exact releaseText_undo gamePool (Text.init (envOf pcVars (plainFont 10)) false) 9764864 _
      (by decide) rfl
  have hrun : runOps gamePool (envOf pcVars (plainFont 10))
      (Text.init (envOf pcVars (plainFont 10)) false)
      [PoolOp.acquire (fun _ => 0) 1 staleLines (fun _ => 0) textAB 500 1,
       PoolOp.release 9764864 true] =
      .ok (Text.init (envOf pcVars (plainFont 10)) false) := by
    simp only [runOps, h1, hrel]
  exact ⟨hrun, pool_counter_invariant gamePool (envOf pcVars (plainFont 10)) false _ _ hrun⟩


/-! ## C19: the debug printer -/

theorem debugAdvance_eq (env : Env) (t : Text) (first c : Nat) (x : Int) :
    debugAdvance env t first c x = x + debugPitch env t first c := by
  unfold debugAdvance debugPitch
  cases env.sv.isEnglish with
  | true => simp
  | false => simp; ring

theorem debugLoop_trace (env : Env)
    (clip : Nat → Nat → Nat → Nat → Nat × Nat × Nat × Nat × Nat)
    (t : Text) (first : Nat) (y : Int) :
    ∀ (ascii : List Nat) (x : Int), ascii ≠ [] → (∀ c ∈ ascii, c ≠ 0) →
      debugLoop env clip t first y ascii x =
        (List.range ascii.length).map (fun j =>
          debugCall env clip t first y (ascii.getD j 0)
            (x + ((ascii.take j).map (debugPitch env t first)).sum)) := by
  intro ascii
  induction ascii with
  | nil => intro x h _; exact absurd rfl h
  | cons c rest ih =>
    intro x _ hnz
    simp only [debugLoop, List.length_cons]
    rw [List.range_succ_eq_map, List.map_cons, List.map_map]
    congr 1
    · simp
    · cases rest with
      | nil => simp [deref]
      | cons c2 r =>
        have hc2 : c2 ≠ 0 := hnz c2 (by simp)
        have hd : deref (c2 :: r) ≠ 0 := by simpa [deref] using hc2
        rw [if_pos hd, ih _ (by simp) (fun c hc => hnz c (List.mem_cons_of_mem _ hc)),
          debugAdvance_eq]
        apply List.map_congr_left
        intro j _
        simp only [Function.comp, List.take_succ_cons, List.map_cons, List.sum_cons,
          List.getD_cons_succ]
        congr 1
        ring

/-- The debug printer on a non-empty string of non-zero characters: exactly one
glyph is clipped and drawn per character, the `j`-th being glyph index
`ascii[j] - first` at the cursor `x + sum over i < j of (width_i - d)`, handed
on as a 16-bit value, where `d = 2` when the language is not English and
`d = 0` when it is; the members (the slots and the counter) are unchanged. -/
theorem printDebugLine_trace (env : Env)
    (clip : Nat → Nat → Nat → Nat → Nat × Nat × Nat × Nat × Nat)
    (t : Text) (ascii : List Nat) (first : Nat) (x y : Int)
    (hne : ascii ≠ []) (hnz : ∀ c ∈ ascii, c ≠ 0) :
    (printDebugLine env clip t ascii first x y).2 = t ∧
    (printDebugLine env clip t ascii first x y).1.length = ascii.length ∧
    ∀ j, j < ascii.length →
      ((printDebugLine env clip t ascii first x y).1.map (fun d => d.glyph))[j]? =
        some ((ascii.getD j 0 : Int) - (first : Int)) ∧
      ((printDebugLine env clip t ascii first x y).1.map (fun d => d.clipX))[j]? =
        some (((x + ((ascii.take j).map (debugPitch env t first)).sum) % 65536).toNat) := by
  unfold printDebugLine
  simp only
  rw [debugLoop_trace env clip t first y ascii x hne hnz]
  refine ⟨trivial, by simp, ?_⟩
  intro j hj
  simp [List.getElem?_map, List.getElem?_range hj, debugCall]

/-- **C19**: the empty string. `printDebugLine` runs the body of its
`do ... while` loop before it tests for the terminator, so for the string of 0
characters it clips and draws one glyph, not none: the glyph of index
`0 - first` (the terminator remapped) at `(x, y)`. -/
theorem printDebugLine_empty_draws (env : Env)
    (clip : Nat → Nat → Nat → Nat → Nat × Nat × Nat × Nat × Nat)
    (t : Text) (first : Nat) (x y : Int) :
    (printDebugLine env clip t [] first x y).1 = [debugCall env clip t first y 0 x] ∧
    (printDebugLine env clip t [] first x y).1.length = 1 ∧
    (debugCall env clip t first y 0 x).glyph = -(first : Int) ∧
    (debugCall env clip t first y 0 x).clipX = (x % 65536).toNat := by
  refine ⟨rfl, rfl, ?_, rfl⟩
  simp [debugCall]


/-! ## C17: the width of a line and the extent drawn for it -/

theorem lineExtent_eq_ref (sv : SystemVars) (font : Int → Frame) (cs : List Nat) :
    lineExtent sv font cs = refWordWidth sv font cs := rfl

theorem lineExtent_append_word (sv : SystemVars) (font : Int → Frame)
    (g : List (List Nat)) (w : List Nat) (hg : g ≠ []) :
    lineExtent sv font (joinWords (g ++ [w])) =
      lineExtent sv font (joinWords g) + (refJoinWidth sv font + lineExtent sv font w) := by
  rw [joinWords_append g [w] hg (by simp)]
  simp only [joinWords, lineExtent, refJoinWidth, List.map_append, List.map_cons,
    List.sum_append, List.sum_cons, List.length_append, List.length_cons]
  push_cast
  ring

theorem groupFrom_width (sv : SystemVars) (font : Int → Frame) (mw : Nat) :
    ∀ (ws : List (List Nat)) (cur : LineInfo) (g : List (List Nat)), g ≠ [] →
      (∀ w ∈ ws, ∀ c ∈ w, c ≠ SPACE ∧ c ≠ 0) →
      (cur.width : Int) = lineExtent sv font (joinWords g) % 65536 →
      (wrapFrom (initJoinWidth sv font) mw cur (ws.map (wordInfo sv font))).map
          (fun l => (l.width : Int)) =
        (groupFrom sv font (initJoinWidth sv font) mw cur g ws).map
          (fun x => lineExtent sv font (joinWords x) % 65536) := by
  intro ws
  induction ws with
  | nil =>
    intro cur g hg _ hcur
    simp [groupFrom, wrapFrom, hcur]
  | cons w ws ih =>
    intro cur g hg hclean hcur
    have hw := (wordInfo_clean sv font w (hclean w (by simp))).1
    have hj := initJoinWidth_ref sv font
    have hrest : ∀ v ∈ ws, ∀ c ∈ v, c ≠ SPACE ∧ c ≠ 0 := fun v hv => hclean v (by simp [hv])
    simp only [groupFrom, wrapFrom, List.map_cons]
    by_cases hfit : cur.width + (initJoinWidth sv font + (wordInfo sv font w).width) % 65536 ≤ mw
    · rw [if_pos hfit, if_pos hfit]
      apply ih _ (g ++ [w]) (by simp) hrest
      rw [lineExtent_append_word sv font g w hg, lineExtent_eq_ref sv font w]
      simp only
      push_cast
      omega
    · rw [if_neg hfit, if_neg hfit]
      simp only [List.map_cons]
      rw [ih (wordInfo sv font w) [w] (by simp) hrest
        (by rw [hw]; simp [joinWords, lineExtent_eq_ref]), hcur]

theorem wrapGroups_width (sv : SystemVars) (font : Int → Frame) (mw : Nat) (text : List Nat) :
    (wrapLines sv font (initJoinWidth sv font) mw text).map (fun l => (l.width : Int)) =
      (wrapGroups sv font (initJoinWidth sv font) mw text).map
        (fun x => lineExtent sv font (joinWords x) % 65536) := by
  have hclean := textWords_clean text
  unfold wrapGroups wrapLines
  cases hws : textWords text with
  | nil => simp [wrapInfos]
  | cons w ws =>
    rw [hws] at hclean
    simp only [List.map_cons, wrapInfos]
    exact groupFrom_width sv font mw ws (wordInfo sv font w) [w] (by simp)
      (fun v hv => hclean v (by simp [hv]))
      (by rw [(wordInfo_clean sv font w (hclean w (by simp))).1]
          simp [joinWords, lineExtent_eq_ref])


theorem analyzeSentence_line_extent (sv : SystemVars) (font : Int → Frame)
    (text : List Nat) (maxWidth : Nat) (line : Nat → LineInfo) (n : Nat)
    (lines : Nat → LineInfo) (hz : ∀ c ∈ text, c ≠ 0) (hne : text ≠ [])
    (hlen : text.length < 65536)
    (h : analyzeSentence sv font (initJoinWidth sv font) text maxWidth line = .ok (n, lines)) :
    ∀ i, i < n →
      (lineText text lines i).length = (lines i).length ∧
      ((lines i).width : Int) = lineExtent sv font (lineText text lines i) % 65536 := by
  obtain ⟨hG, hn, hlens, htext⟩ :=
    analyzeSentence_parts sv font (initJoinWidth sv font) text maxWidth line n lines hz hne hlen h
  obtain ⟨_, hnL, hlines⟩ :=
    analyzeSentence_ok sv font (initJoinWidth sv font) text maxWidth line n lines h
  have hwidth := wrapGroups_width sv font (effMaxWidth sv maxWidth) text
  generalize wrapGroups sv font (initJoinWidth sv font) (effMaxWidth sv maxWidth) text = G at *
  generalize wrapLines sv font (initJoinWidth sv font) (effMaxWidth sv maxWidth) text = L at *
  have hLG : L.length = G.length := by
    have := congrArg List.length hwidth
    simpa using this
  intro i hi
  have hiG : i < G.length := by omega
  have hiL : i < L.length := by omega
  have hcov := joinWords_cover (G.map joinWords) lines
    (if text.getLast? = some SPACE then [SPACE] else [])
    (fun k hk => hlens k (by simpa [hG] using hk)) i (by simpa using hiG)
  rw [← htext] at hcov
  have h2 : (G.map joinWords).getD i [] = joinWords (G.getD i []) := by
    simp [List.getD_eq_getElem, hiG]
  refine ⟨by rw [hcov, hlens i hi], ?_⟩
  rw [hcov, h2]
  have h1 : ((lines i).width : Int) = (L.map (fun l => (l.width : Int))).getD i 0 := by
    rw [hlines]
    simp [overlay, hiL, List.getD_eq_getElem]
  rw [h1, hwidth]
  simp [List.getD_eq_getElem, hiG]


theorem lineExtent_cons (sv : SystemVars) (font : Int → Frame) (c : Nat) (cs : List Nat) :
    lineExtent sv font (c :: cs) =
      (charWidth font c : Int) - (overlap sv : Int) + lineExtent sv font cs := by
  simp only [lineExtent, List.map_cons, List.sum_cons, List.length_cons]
  push_cast
  ring

theorem lineExtent_ge (sv : SystemVars) (font : Int → Frame) :
    ∀ cs : List Nat, (∀ c ∈ cs, overlap sv ≤ charWidth font c) →
      (overlap sv : Int) ≤ lineExtent sv font cs := by
  intro cs
  induction cs with
  | nil => intro _; simp [lineExtent]
  | cons c cs ih =>
    intro h
    rw [lineExtent_cons]
    have h1 := ih (fun c2 h2 => h c2 (by simp [h2]))
    have h2 := h c (by simp)
    omega

theorem drawChars_outside (env : Env) (t : Text) (sprWidth pen H : Nat) :
    ∀ (todo : Nat) (cur : List Nat) (p : Int) (mem : Int → Nat) (a : Int),
      todo ≤ cur.length →
      (∀ c ∈ cur.take todo, overlap env.sv ≤ charWidth t.font c ∧ glyphHeight env t c ≤ H) →
      (∀ y : Nat, y < H →
        ¬ (p + (y : Int) * (sprWidth : Int) ≤ a ∧
          a < p + (y : Int) * (sprWidth : Int) + lineExtent env.sv t.font (cur.take todo))) →
      drawChars env t sprWidth pen todo cur p mem a = mem a := by
  intro todo
  induction todo with
  | zero => intro cur p mem a _ _ _; rfl
  | succ todo ih =>
    intro cur p mem a hlen hch hout
    cases cur with
    | nil => simp at hlen
    | cons c rest =>
      rw [List.take_succ_cons] at hch hout
      have hc := hch c (by simp)
      have hrest : ∀ c2 ∈ rest.take todo,
          overlap env.sv ≤ charWidth t.font c2 ∧ glyphHeight env t c2 ≤ H :=
        fun c2 h => hch c2 (by simp [h])
      have hge := lineExtent_ge env.sv t.font (rest.take todo) (fun c2 h => (hrest c2 h).1)
      simp only [drawChars, deref, List.headD_cons, List.tail_cons]
      rw [ih rest _ _ a (by simpa using hlen) hrest, copyChar_snd]
      · apply copyRows_outside
        intro y hy
        have := hout y (by omega)
        rw [lineExtent_cons] at this
        omega
      · intro y hy
        have := hout y hy
        rw [lineExtent_cons] at this
        rw [copyChar_fst]
        omega


theorem drawLines_outside (env : Env) (t : Text) (lines : Nat → LineInfo)
    (sprWidth pen H : Nat) (text0 : List Nat) (hrtl : env.sv.isLangRtl = false) :
    ∀ (todo lineCnt : Nat) (linePtr : Int) (mem : Int → Nat) (a : Int),
      (∀ j, j < todo →
        (lineText text0 lines (lineCnt + j)).length = (lines (lineCnt + j)).length ∧
        (∀ c ∈ lineText text0 lines (lineCnt + j),
          overlap env.sv ≤ charWidth t.font c ∧ glyphHeight env t c ≤ H) ∧
        lineExtent env.sv t.font (lineText text0 lines (lineCnt + j)) =
          ((lines (lineCnt + j)).width : Int)) →
      (∀ j y : Nat, j < todo → y < H →
        ¬ (linePtr + ((j : Int) * linePitch env t + (y : Int)) * (sprWidth : Int)
              + lineLeft lines sprWidth (lineCnt + j) ≤ a ∧
          a < linePtr + ((j : Int) * linePitch env t + (y : Int)) * (sprWidth : Int)
              + lineLeft lines sprWidth (lineCnt + j) + ((lines (lineCnt + j)).width : Int))) →
      drawLines env t lines sprWidth pen todo lineCnt
        (text0.drop (lineStart lines lineCnt)) linePtr mem a = mem a := by
  intro todo
  induction todo with
  | zero => intro lineCnt linePtr mem a _ _; rfl
  | succ todo ih =>
    intro lineCnt linePtr mem a hl hout
    have htxt : (text0.drop (lineStart lines lineCnt)).drop ((lines lineCnt).length + 1) =
        text0.drop (lineStart lines (lineCnt + 1)) := by
      rw [List.drop_drop]
      congr 1
    have hptr : (if env.sv.isPsx = true then
          linePtr + ((t.charHeight : Int) - 4) * (sprWidth : Int)
        else linePtr + (t.charHeight : Int) * (sprWidth : Int)) =
        linePtr + linePitch env t * (sprWidth : Int) := by
      unfold linePitch
      split <;> rfl
    simp only [drawLines, hrtl, Bool.false_eq_true, if_false]
    rw [htxt, hptr, ih (lineCnt + 1)]
    · obtain ⟨h1, h2, h3⟩ := hl 0 (by omega)
      simp only [Nat.add_zero] at h1 h2 h3
      apply drawChars_outside env t sprWidth pen H
      · rw [lineText, List.length_take] at h1
        omega
      · exact h2
      · intro y hy
        have := hout 0 y (by omega) hy
        simp only [Nat.add_zero, Nat.cast_zero, zero_mul, zero_add] at this
        show ¬ (linePtr + lineLeft lines sprWidth lineCnt + (y : Int) * (sprWidth : Int) ≤ a ∧
          a < linePtr + lineLeft lines sprWidth lineCnt + (y : Int) * (sprWidth : Int) +
            lineExtent env.sv t.font (lineText text0 lines lineCnt))
        rw [h3]
        omega
    · intro j hj
      have := hl (j + 1) (by omega)
      have e : lineCnt + (j + 1) = lineCnt + 1 + j := by omega
      rw [e] at this
      exact this
    · intro j y hj hy
      have := hout (j + 1) y (by omega) hy
      have e : lineCnt + (j + 1) = lineCnt + 1 + j := by omega
      have e2 : linePtr + (((j + 1 : Nat) : Int) * linePitch env t + (y : Int)) * (sprWidth : Int)
          = linePtr + linePitch env t * (sprWidth : Int)
            + ((j : Int) * linePitch env t + (y : Int)) * (sprWidth : Int) := by
        push_cast
        ring
      rw [e, e2] at this
      exact this


theorem lineText_mem (text : List Nat) (lines : Nat → LineInfo) (i c : Nat)
    (h : c ∈ lineText text lines i) : c ∈ text :=
  List.mem_of_mem_drop (List.mem_of_mem_take h)

theorem row_bound_pc (i n y H : Nat) (hi : i < n) (hy : y < H) : i * H + y < n * H := by
  have h : (i + 1) * H ≤ n * H := Nat.mul_le_mul_right H hi
  rw [Nat.succ_mul] at h
  omega

theorem row_bound_psx (i n y H : Nat) (hi : i < n) (hy : y < H) (h4 : 4 ≤ H) :
    0 ≤ (i : Int) * ((H : Int) - 4) + (y : Int) ∧
    (i : Int) * ((H : Int) - 4) + (y : Int) <
      2 * (H : Int) * (n : Int) - 4 * ((n : Int) - 1) := by
  have h1 : (0 : Int) ≤ (H : Int) - 4 := by omega
  have h2 : (0 : Int) ≤ (i : Int) := Int.ofNat_nonneg _
  have h3 : (i : Int) + 1 ≤ (n : Int) := by omega
  have h5 : (0 : Int) ≤ (i : Int) * ((H : Int) - 4) := mul_nonneg h2 h1
  have h6 : ((i : Int) + 1) * ((H : Int) - 4) ≤ (n : Int) * ((H : Int) - 4) :=
    mul_le_mul_of_nonneg_right h3 h1
  have h7 : (0 : Int) ≤ (H : Int) * (n : Int) :=
    mul_nonneg (Int.ofNat_nonneg _) (Int.ofNat_nonneg _)
  constructor
  · omega
  · nlinarith

theorem addr_bound (row x W Ht : Int) (h0 : 0 ≤ row) (h1 : row < Ht) (h2 : 0 ≤ x)
    (h3 : x < W) : 0 ≤ row * W + x ∧ row * W + x < W * Ht := by
  have hW : 0 ≤ W := by omega
  constructor
  · have := mul_nonneg h0 hW
    omega
  · have : (row + 1) * W ≤ Ht * W := mul_le_mul_of_nonneg_right (by omega) hW
    nlinarith

theorem spriteOf_width_ge (env : Env) (t : Text) (heap : Int → Nat) (text : List Nat)
    (pen n : Nat) (lines : Nat → LineInfo) (hn : 0 < n)
    (hw : ∀ i, i < n → (lines i).width < 65535) :
    (∀ i, i < n → (lines i).width ≤ (spriteOf env t heap text pen n lines).width) ∧
    (spriteOf env t heap text pen n lines).width < 65536 := by
  obtain ⟨j, hj, hjw⟩ := widestLine_attained lines n hn
  have hge := widestLine_ge lines n
  have hj2 := hw j hj
  show (∀ i, i < n → (lines i).width ≤
      (if env.sv.isPsx then ((widestLine lines n + 1) &&& 0xFFFE) else widestLine lines n)) ∧
    (if env.sv.isPsx then ((widestLine lines n + 1) &&& 0xFFFE) else widestLine lines n) < 65536
  split
  · rw [land_fffe]
    refine ⟨fun i hi => ?_, by omega⟩
    have := hge i hi
    omega
  · refine ⟨fun i hi => hge i hi, by omega⟩

theorem spriteOf_frame (env : Env) (t : Text) (heap : Int → Nat) (text : List Nat)
    (pen n : Nat) (lines : Nat → LineInfo) (hrtl : env.sv.isLangRtl = false)
    (hlines : ∀ i, i < n →
      (lineText text lines i).length = (lines i).length ∧
      (∀ c ∈ lineText text lines i,
        overlap env.sv ≤ charWidth t.font c ∧ glyphHeight env t c ≤ t.charHeight) ∧
      lineExtent env.sv t.font (lineText text lines i) = ((lines i).width : Int))
    (a : Int)
    (hout : ∀ (i y : Nat) (x : Int), i < n → y < t.charHeight →
      lineLeft lines (spriteOf env t heap text pen n lines).width i ≤ x →
      x < lineLeft lines (spriteOf env t heap text pen n lines).width i
        + ((lines i).width : Int) →
      a ≠ ((i : Int) * linePitch env t + (y : Int))
        * ((spriteOf env t heap text pen n lines).width : Int) + x) :
    (spriteOf env t heap text pen n lines).pixels a =
      if 0 ≤ a ∧ a < ((spriteOf env t heap text pen n lines).size : Int) then env.defs.NO_COL
      else heap a := by
  have h := drawLines_outside env t lines (spriteOf env t heap text pen n lines).width pen
    t.charHeight text hrtl n 0 0
    (fun a => if 0 ≤ a ∧ a < ((spriteOf env t heap text pen n lines).size : Int)
      then env.defs.NO_COL else heap a) a
    (fun j hj => by simpa using hlines j hj)
    (fun j y hj hy hin => by
      simp only [Nat.zero_add, zero_add] at hin
      exact hout j y (a - ((j : Int) * linePitch env t + (y : Int))
        * ((spriteOf env t heap text pen n lines).width : Int)) hj hy (by omega) (by omega)
        (by ring))
  exact h


theorem spriteOf_rows (env : Env) (t : Text) (heap : Int → Nat) (text : List Nat)
    (pen n : Nat) (lines : Nat → LineInfo)
    (hpc : env.sv.isPsx = false → t.charHeight * n < 65536)
    (hpsx : env.sv.isPsx = true →
      4 ≤ t.charHeight ∧ 2 * (t.charHeight : Int) * (n : Int) - 4 * ((n : Int) - 1) < 65536) :
    (spriteOf env t heap text pen n lines).height < 65536 ∧
    ∀ i y : Nat, i < n → y < t.charHeight →
      0 ≤ (i : Int) * linePitch env t + (y : Int) ∧
      (i : Int) * linePitch env t + (y : Int) <
        ((spriteOf env t heap text pen n lines).height : Int) := by
  have hh : (spriteOf env t heap text pen n lines).height =
      if env.sv.isPsx then
        (((2 * (t.charHeight : Int) * (n : Int) - 4 * ((n : Int) - 1)) % 65536).toNat)
      else (t.charHeight * n) % 65536 := rfl
  rw [hh]
  unfold linePitch
  cases hp : env.sv.isPsx with
  | false =>
    have h1 := hpc hp
    simp only [Bool.false_eq_true, if_false]
    rw [Nat.mod_eq_of_lt h1]
    refine ⟨h1, fun i y hi hy => ?_⟩
    have hb := row_bound_pc i n y t.charHeight hi hy
    have hb2 : ((i * t.charHeight + y : Nat) : Int) < ((n * t.charHeight : Nat) : Int) := by
      exact_mod_cast hb
    have h0 : (0 : Int) ≤ (i : Int) * (t.charHeight : Int) :=
      mul_nonneg (Int.ofNat_nonneg _) (Int.ofNat_nonneg _)
    push_cast at hb2 ⊢
    constructor
    · omega
    · linarith
  | true =>
    obtain ⟨h4, h1⟩ := hpsx hp
    simp only [if_true]
    constructor
    · omega
    · intro i y hi hy
      obtain ⟨hb1, hb2⟩ := row_bound_psx i n y t.charHeight hi hy h4
      refine ⟨hb1, ?_⟩
      omega


theorem glyphLeft_cons_succ (sv : SystemVars) (font : Int → Frame) (c : Nat) (cs : List Nat)
    (p : Int) (j : Nat) :
    glyphLeft sv font (c :: cs) p (j + 1) =
      glyphLeft sv font cs (p + (charWidth font c : Int) - (overlap sv : Int)) j := by
  simp only [glyphLeft, List.take_succ_cons, List.map_cons, List.sum_cons]
  omega

theorem glyphLeft_last (sv : SystemVars) (font : Int → Frame) :
    ∀ (cs : List Nat) (p : Int), cs ≠ [] →
      glyphLeft sv font cs p (cs.length - 1)
          + (charWidth font (cs.getD (cs.length - 1) 0) : Int) =
        p + lineExtent sv font cs := by
  intro cs
  induction cs with
  | nil => intro p h; exact absurd rfl h
  | cons c cs ih =>
    intro p _
    cases cs with
    | nil => simp [glyphLeft, lineExtent]
    | cons c2 r =>
      have h := ih (p + (charWidth font c : Int) - (overlap sv : Int)) (by simp)
      have e : (c :: c2 :: r).length - 1 = ((c2 :: r).length - 1) + 1 := by simp
      rw [e, glyphLeft_cons_succ, List.getD_cons_succ, h, lineExtent_cons sv font c]
      ring

theorem paintLine_cons (env : Env) (t : Text) (sprWidth pen : Nat) (c : Nat) (cs : List Nat)
    (p : Int) (mem : Int → Nat) :
    paintLine env t sprWidth pen (c :: cs) p mem =
      paintLine env t sprWidth pen cs
        (p + (charWidth t.font c : Int) - (overlap env.sv : Int))
        (copyChar env t c p sprWidth pen mem).2 := by
  unfold paintLine
  rw [List.length_cons, List.range_succ_eq_map, List.foldl_cons, List.foldl_map]
  have h0 : glyphLeft env.sv t.font (c :: cs) p 0 = p := by simp [glyphLeft]
  simp only [List.getD_cons_zero, h0, List.getD_cons_succ, glyphLeft_cons_succ]

theorem drawChars_paintLine (env : Env) (t : Text) (sprWidth pen : Nat) :
    ∀ (todo : Nat) (cur : List Nat) (p : Int) (mem : Int → Nat), todo ≤ cur.length →
      drawChars env t sprWidth pen todo cur p mem =
        paintLine env t sprWidth pen (cur.take todo) p mem := by
  intro todo
  induction todo with
  | zero => intro cur p mem _; simp [drawChars, paintLine]
  | succ todo ih =>
    intro cur p mem hlen
    cases cur with
    | nil => simp at hlen
    | cons c rest =>
      rw [List.take_succ_cons, paintLine_cons]
      simp only [drawChars, deref, List.headD_cons, List.tail_cons]
      rw [ih rest _ _ (by simpa using hlen), copyChar_fst]

theorem drawLines_paintLines (env : Env) (t : Text) (lines : Nat → LineInfo)
    (sprWidth pen : Nat) (text0 : List Nat) (hrtl : env.sv.isLangRtl = false) :
    ∀ (todo lineCnt : Nat) (linePtr : Int) (mem : Int → Nat),
      (∀ j, j < todo →
        (lineText text0 lines (lineCnt + j)).length = (lines (lineCnt + j)).length) →
      drawLines env t lines sprWidth pen todo lineCnt
          (text0.drop (lineStart lines lineCnt)) linePtr mem =
        (List.range todo).foldl
          (fun m j =>
            paintLine env t sprWidth pen (lineText text0 lines (lineCnt + j))
              (linePtr + (j : Int) * linePitch env t * (sprWidth : Int)
                + lineLeft lines sprWidth (lineCnt + j)) m) mem := by
  intro todo
  induction todo with
  | zero => intro lineCnt linePtr mem _; rfl
  | succ todo ih =>
    intro lineCnt linePtr mem hl
    have htxt : (text0.drop (lineStart lines lineCnt)).drop ((lines lineCnt).length + 1) =
        text0.drop (lineStart lines (lineCnt + 1)) := by
      rw [List.drop_drop]
      congr 1
    have hptr : (if env.sv.isPsx = true then
          linePtr + ((t.charHeight : Int) - 4) * (sprWidth : Int)
        else linePtr + (t.charHeight : Int) * (sprWidth : Int)) =
        linePtr + linePitch env t * (sprWidth : Int) := by
      unfold linePitch
      split <;> rfl
    have h0 := hl 0 (by omega)
    simp only [Nat.add_zero] at h0
    have hle : (lines lineCnt).length ≤ (text0.drop (lineStart lines lineCnt)).length := by
      rw [lineText, List.length_take] at h0
      omega
    simp only [drawLines, hrtl, Bool.false_eq_true, if_false]
    rw [htxt, hptr, drawChars_paintLine env t sprWidth pen _ _ _ _ hle,
      ih (lineCnt + 1) _ _ (fun j hj => by
        have := hl (j + 1) (by omega)
        rw [show lineCnt + (j + 1) = lineCnt + 1 + j by omega] at this
        exact this),
      List.range_succ_eq_map, List.foldl_cons, List.foldl_map]
    have hfirst : paintLine env t sprWidth pen
          (List.take (lines lineCnt).length (text0.drop (lineStart lines lineCnt)))
          (linePtr + lineLeft lines sprWidth lineCnt) mem =
        paintLine env t sprWidth pen (lineText text0 lines (lineCnt + 0))
          (linePtr + ((0 : Nat) : Int) * linePitch env t * (sprWidth : Int)
            + lineLeft lines sprWidth (lineCnt + 0)) mem := by
      simp [lineText]
    have hstep : ∀ (m : Int → Nat) (j : Nat),
        paintLine env t sprWidth pen (lineText text0 lines (lineCnt + 1 + j))
          (linePtr + linePitch env t * (sprWidth : Int)
            + (j : Int) * linePitch env t * (sprWidth : Int)
            + lineLeft lines sprWidth (lineCnt + 1 + j)) m =
        paintLine env t sprWidth pen (lineText text0 lines (lineCnt + (j + 1)))
          (linePtr + ((j + 1 : Nat) : Int) * linePitch env t * (sprWidth : Int)
            + lineLeft lines sprWidth (lineCnt + (j + 1))) m := by
      intro m j
      have e : linePtr + linePitch env t * (sprWidth : Int)
            + (j : Int) * linePitch env t * (sprWidth : Int) =
          linePtr + ((j + 1 : Nat) : Int) * linePitch env t * (sprWidth : Int) := by
        push_cast
        ring
      rw [show lineCnt + (j + 1) = lineCnt + 1 + j by omega, e]
    show List.foldl _ (paintLine env t sprWidth pen
        (List.take (lines lineCnt).length (text0.drop (lineStart lines lineCnt)))
        (linePtr + lineLeft lines sprWidth lineCnt) mem) (List.range todo) = _
    rw [hfirst]
    simp only [hstep]

theorem spriteOf_pixels_paint (env : Env) (t : Text) (heap : Int → Nat) (text : List Nat)
    (pen n : Nat) (lines : Nat → LineInfo) (hrtl : env.sv.isLangRtl = false)
    (hlen : ∀ i, i < n → (lineText text lines i).length = (lines i).length) :
    (spriteOf env t heap text pen n lines).pixels =
      paintLines env t lines (spriteOf env t heap text pen n lines).width pen text n
        (fun a => if 0 ≤ a ∧ a < ((spriteOf env t heap text pen n lines).size : Int)
          then env.defs.NO_COL else heap a) := by
  have h := drawLines_paintLines env t lines (spriteOf env t heap text pen n lines).width pen
    text hrtl n 0 0
    (fun a => if 0 ≤ a ∧ a < ((spriteOf env t heap text pen n lines).size : Int)
      then env.defs.NO_COL else heap a)
    (fun j hj => by simpa using hlen j hj)
  simp only [Nat.zero_add, zero_add] at h
  exact h

/-- **C17**, as amended. Let `t` be as constructed (`_joinWidth` is the width of
the space less twice the overlap) and `text` a non-empty text of fewer than
65536 characters, none of them NUL, for which `analyzeSentence` returns `n`
lines. Then every line `i < n` covers `length_i` characters of the text and its
width is the sum of `charWidth` over these characters (interior spaces
included) less `overlap * (length_i - 1)`, modulo 2^16. When the text is not
reordered (no right-to-left language), the pixel memory `makeTextSprite` stores
is the cleared buffer with the lines composited one after the other, character
`j` of line `i` by `copyChar` at the cursor `start_i` plus the widths less the
overlap of the characters before it, in row `i * pitch`; so the sum above is
the distance from the line's start cursor to the right edge of its last glyph.
When moreover every glyph of the text is at least `overlap` wide and
`charHeight` high, every such extent is below 65535, the sprite height does not
wrap (`charHeight * n < 65536`; on the PSX `2 * charHeight * n - 4 * (n - 1) <
65536`) and, on the PSX, `charHeight >= 4`: every line lies inside the sprite's
width (`0 <= start_i` and `start_i + width_i <= sprWidth`, with
`start_i = (sprWidth - width_i) / 2`), every row drawn lies inside its height,
and every byte the pixel memory differs in from the cleared buffer lies inside
the buffer, at row `i * pitch + y` (`y < charHeight`) and a column in
`[start_i, start_i + width_i)` for some line `i`. -/
theorem makeTextSprite_line_extent (env : Env) (t : Text) (stack : Nat → LineInfo)
    (heap : Int → Nat) (text : List Nat) (maxWidth pen n : Nat) (lines : Nat → LineInfo)
    (hjw : t.joinWidth = initJoinWidth env.sv t.font)
    (hz : ∀ c ∈ text, c ≠ 0) (hne : text ≠ []) (hlen : text.length < 65536)
    (hA : analyzeSentence env.sv t.font t.joinWidth text maxWidth stack = .ok (n, lines)) :
    (∀ i, i < n →
      (lineText text lines i).length = (lines i).length ∧
      ((lines i).width : Int) = lineExtent env.sv t.font (lineText text lines i) % 65536) ∧
    (∀ slot, t.textBlocks slot = none →
      makeTextSprite env t stack heap slot text maxWidth pen =
        .ok { t with textBlocks := fun i =>
                if i = slot then some (spriteOf env t heap text pen n lines)
                else t.textBlocks i }) ∧
    (env.sv.isLangRtl = false →
      (spriteOf env t heap text pen n lines).pixels =
        paintLines env t lines (spriteOf env t heap text pen n lines).width pen text n
          (fun a => if 0 ≤ a ∧ a < ((spriteOf env t heap text pen n lines).size : Int)
            then env.defs.NO_COL else heap a) ∧
      (∀ i, i < n → 1 ≤ (lines i).length → ∀ p : Int,
        glyphLeft env.sv t.font (lineText text lines i) p ((lines i).length - 1)
            + (charWidth t.font ((lineText text lines i).getD ((lines i).length - 1) 0) : Int) =
          p + lineExtent env.sv t.font (lineText text lines i)) ∧
      ((∀ c ∈ text, overlap env.sv ≤ charWidth t.font c ∧
          glyphHeight env t c = t.charHeight) →
        (∀ i, i < n → lineExtent env.sv t.font (lineText text lines i) < 65535) →
        (env.sv.isPsx = false → t.charHeight * n < 65536) →
        (env.sv.isPsx = true →
          4 ≤ t.charHeight ∧
            2 * (t.charHeight : Int) * (n : Int) - 4 * ((n : Int) - 1) < 65536) →
        (∀ i, i < n →
          0 ≤ lineLeft lines (spriteOf env t heap text pen n lines).width i ∧
          lineLeft lines (spriteOf env t heap text pen n lines).width i
              + ((lines i).width : Int) ≤
            ((spriteOf env t heap text pen n lines).width : Int)) ∧
        (∀ i y : Nat, i < n → y < t.charHeight →
          0 ≤ (i : Int) * linePitch env t + (y : Int) ∧
          (i : Int) * linePitch env t + (y : Int) <
            ((spriteOf env t heap text pen n lines).height : Int)) ∧
        (spriteOf env t heap text pen n lines).size =
          (spriteOf env t heap text pen n lines).width *
            (spriteOf env t heap text pen n lines).height ∧
        ∀ a : Int,
          (spriteOf env t heap text pen n lines).pixels a ≠
            (if 0 ≤ a ∧ a < ((spriteOf env t heap text pen n lines).size : Int)
              then env.defs.NO_COL else heap a) →
          (0 ≤ a ∧ a < ((spriteOf env t heap text pen n lines).size : Int)) ∧
          ∃ (i y : Nat) (x : Int), i < n ∧ y < t.charHeight ∧
            lineLeft lines (spriteOf env t heap text pen n lines).width i ≤ x ∧
            x < lineLeft lines (spriteOf env t heap text pen n lines).width i
              + ((lines i).width : Int) ∧
            a = ((i : Int) * linePitch env t + (y : Int))
              * ((spriteOf env t heap text pen n lines).width : Int) + x)) := by
  have hA2 := hA
  rw [hjw] at hA2
  have hext := analyzeSentence_line_extent env.sv t.font text maxWidth stack n lines
    hz hne hlen hA2
  have hn : 0 < n :=
    (analyzeSentence_parts env.sv t.font _ text maxWidth stack n lines hz hne hlen hA).2.1
  refine ⟨fun i hi => hext i hi,
    fun slot hslot => makeTextSprite_ok _ _ _ _ _ _ _ _ _ _ hA hslot, ?_⟩
  intro hrtl
  refine ⟨spriteOf_pixels_paint env t heap text pen n lines hrtl (fun i hi => (hext i hi).1),
    ?_, ?_⟩
  · intro i hi hL p
    have hl := (hext i hi).1
    have hne2 : lineText text lines i ≠ [] := by
      intro h0
      rw [h0] at hl
      simp at hl
      omega
    have := glyphLeft_last env.sv t.font (lineText text lines i) p hne2
    rw [hl] at this
    exact this
  intro hch hov hpc hpsx
  have hEq : ∀ i, i < n →
      lineExtent env.sv t.font (lineText text lines i) = ((lines i).width : Int) := by
    intro i hi
    have h1 := (hext i hi).2
    have h2 := hov i hi
    have h3 := lineExtent_ge env.sv t.font (lineText text lines i)
      (fun c hc => (hch c (lineText_mem text lines i c hc)).1)
    omega
  have hwlt : ∀ i, i < n → (lines i).width < 65535 := by
    intro i hi
    have h1 := hEq i hi
    have h2 := hov i hi
    omega
  obtain ⟨hWge, hWlt⟩ := spriteOf_width_ge env t heap text pen n lines hn hwlt
  obtain ⟨hHlt, hrows⟩ := spriteOf_rows env t heap text pen n lines hpc hpsx
  have hleft : ∀ i, i < n →
      0 ≤ lineLeft lines (spriteOf env t heap text pen n lines).width i ∧
      lineLeft lines (spriteOf env t heap text pen n lines).width i
          + ((lines i).width : Int) ≤
        ((spriteOf env t heap text pen n lines).width : Int) := by
    intro i hi
    have h1 := hWge i hi
    unfold lineLeft
    rw [Int.tdiv_eq_ediv (by omega) (by norm_num)]
    omega
  have hsize : (spriteOf env t heap text pen n lines).size =
      (spriteOf env t heap text pen n lines).width *
        (spriteOf env t heap text pen n lines).height := by
    have hs : (spriteOf env t heap text pen n lines).size =
        ((spriteOf env t heap text pen n lines).width *
          (spriteOf env t heap text pen n lines).height) % 4294967296 := rfl
    rw [hs]
    apply Nat.mod_eq_of_lt
    calc (spriteOf env t heap text pen n lines).width *
          (spriteOf env t heap text pen n lines).height
        < 65536 * 65536 := Nat.mul_lt_mul'' hWlt hHlt
      _ = 4294967296 := by norm_num
  refine ⟨hleft, hrows, hsize, ?_⟩
  intro a ha
  have hex : ∃ (i y : Nat) (x : Int), i < n ∧ y < t.charHeight ∧
      lineLeft lines (spriteOf env t heap text pen n lines).width i ≤ x ∧
      x < lineLeft lines (spriteOf env t heap text pen n lines).width i
        + ((lines i).width : Int) ∧
      a = ((i : Int) * linePitch env t + (y : Int))
        * ((spriteOf env t heap text pen n lines).width : Int) + x := by
    by_contra hcon
    apply ha
    apply spriteOf_frame env t heap text pen n lines hrtl
      (fun i hi => ⟨(hext i hi).1,
        fun c hc => ⟨(hch c (lineText_mem text lines i c hc)).1,
          le_of_eq (hch c (lineText_mem text lines i c hc)).2⟩, hEq i hi⟩)
    intro i y x hi hy hx1 hx2 hax
    exact hcon ⟨i, y, x, hi, hy, hx1, hx2, hax⟩
  refine ⟨?_, hex⟩
  obtain ⟨i, y, x, hi, hy, hx1, hx2, hax⟩ := hex
  obtain ⟨hl1, hl2⟩ := hleft i hi
  obtain ⟨hr1, hr2⟩ := hrows i y hi hy
  have hb := addr_bound ((i : Int) * linePitch env t + (y : Int)) x
    ((spriteOf env t heap text pen n lines).width : Int)
    ((spriteOf env t heap text pen n lines).height : Int) hr1 hr2 (by omega) (by omega)
  rw [hsize, hax]
  push_cast
  exact hb

/-- Witness for C17: "HELLO WORLD" at width 10 in a font of 4 x 2 glyphs made of
letter pixels: two lines of width 8 = 5 * 4 - 4 * 3 in a sprite 8 wide and 4
high. The byte at offset 31 (row 3, column 7: the right edge of the last glyph
of line 1) holds the pen, differs from the cleared buffer, and is located by
the theorem inside the buffer and inside line 1. -/
theorem makeTextSprite_line_extent_witness :
    ((overlay staleLines [⟨8, 5⟩, ⟨8, 5⟩] 1).width : Int) =
      lineExtent pcVars inkFont (lineText helloWorld (overlay staleLines [⟨8, 5⟩, ⟨8, 5⟩]) 1)
        % 65536 ∧
    glyphLeft pcVars inkFont (lineText helloWorld (overlay staleLines [⟨8, 5⟩, ⟨8, 5⟩]) 1) 0
        ((overlay staleLines [⟨8, 5⟩, ⟨8, 5⟩] 1).length - 1)
      + (charWidth inkFont ((lineText helloWorld (overlay staleLines [⟨8, 5⟩, ⟨8, 5⟩]) 1).getD
          ((overlay staleLines [⟨8, 5⟩, ⟨8, 5⟩] 1).length - 1) 0) : Int) =
      0 + lineExtent pcVars inkFont
        (lineText helloWorld (overlay staleLines [⟨8, 5⟩, ⟨8, 5⟩]) 1) ∧
    (spriteOf (envOf pcVars inkFont) (Text.init (envOf pcVars inkFont) false)
      (fun _ => 5) helloWorld 7 2 (overlay staleLines [⟨8, 5⟩, ⟨8, 5⟩])).pixels 31 = 7 ∧
    ((0 : Int) ≤ 31 ∧ (31 : Int) < ((spriteOf (envOf pcVars inkFont)
      (Text.init (envOf pcVars inkFont) false)
      (fun _ => 5) helloWorld 7 2 (overlay staleLines [⟨8, 5⟩, ⟨8, 5⟩])).size : Int)) ∧
    ∃ (i y : Nat) (x : Int), i < 2 ∧
      y < (Text.init (envOf pcVars inkFont) false).charHeight ∧
      lineLeft (overlay staleLines [⟨8, 5⟩, ⟨8, 5⟩]) (spriteOf (envOf pcVars inkFont)
        (Text.init (envOf pcVars inkFont) false)
        (fun _ => 5) helloWorld 7 2 (overlay staleLines [⟨8, 5⟩, ⟨8, 5⟩])).width i ≤ x ∧
      x < lineLeft (overlay staleLines [⟨8, 5⟩, ⟨8, 5⟩]) (spriteOf (envOf pcVars inkFont)
        (Text.init (envOf pcVars inkFont) false)
        (fun _ => 5) helloWorld 7 2 (overlay staleLines [⟨8, 5⟩, ⟨8, 5⟩])).width i
        + ((overlay staleLines [⟨8, 5⟩, ⟨8, 5⟩] i).width : Int) ∧
      (31 : Int) = ((i : Int) * linePitch (envOf pcVars inkFont)
          (Text.init (envOf pcVars inkFont) false) + (y : Int))
        * ((spriteOf (envOf pcVars inkFont) (Text.init (envOf pcVars inkFont) false)
          (fun _ => 5) helloWorld 7 2 (overlay staleLines [⟨8, 5⟩, ⟨8, 5⟩])).width : Int)
        + x := by
  have h := makeTextSprite_line_extent (envOf pcVars inkFont)
    (Text.init (envOf pcVars inkFont) false) staleLines (fun _ => 5) helloWorld 10 7 2
    (overlay staleLines [⟨8, 5⟩, ⟨8, 5⟩]) rfl (by decide) (by decide) (by decide)
    (by rw [analyzeSentence_eq]; rfl)
  have hpix : (spriteOf (envOf pcVars inkFont) (Text.init (envOf pcVars inkFont) false)
      (fun _ => 5) helloWorld 7 2 (overlay staleLines [⟨8, 5⟩, ⟨8, 5⟩])).pixels 31 = 7 := by
    decide
  obtain ⟨_, hlast, hframe⟩ := h.2.2 rfl
  have hin := (hframe (by decide) (by decide) (fun _ => by decide)
    (fun hp => absurd hp (by decide))).2.2.2 31 (by rw [hpix]; decide)
  exact ⟨(h.1 1 (by decide)).2, hlast 1 (by decide) (by decide) 0, hpix, hin.1, hin.2⟩

/-- Counterexample to C17 as stated: on the PSX, with glyphs 2 rows high after
halving (`charHeight = 2`), at least `overlap` wide and all of the same height,
"A B" makes two lines in a sprite 4 wide and 4 high (16 bytes); the second line
is drawn 2 rows above the first (`linePtr += (charHeight - 4) * sprWidth`), so
the byte at offset -8, in front of the buffer, is written with the pen. -/
theorem makeTextSprite_draws_outside :
    (∀ c ∈ textAB, overlap psxVars ≤ charWidth lowFont c ∧
      glyphHeight (envOf psxVars lowFont) (Text.init (envOf psxVars lowFont) false) c =
        (Text.init (envOf psxVars lowFont) false).charHeight) ∧
    (Text.init (envOf psxVars lowFont) false).charHeight = 2 ∧
    ∃ lines, analyzeSentence psxVars lowFont
        (Text.init (envOf psxVars lowFont) false).joinWidth textAB 500 staleLines =
        .ok (2, lines) ∧
      lines 0 = ⟨3, 1⟩ ∧ lines 1 = ⟨3, 1⟩ ∧
      (spriteOf (envOf psxVars lowFont) (Text.init (envOf psxVars lowFont) false)
        (fun _ => 0) textAB 7 2 lines).width = 4 ∧
      (spriteOf (envOf psxVars lowFont) (Text.init (envOf psxVars lowFont) false)
        (fun _ => 0) textAB 7 2 lines).height = 4 ∧
      (spriteOf (envOf psxVars lowFont) (Text.init (envOf psxVars lowFont) false)
        (fun _ => 0) textAB 7 2 lines).size = 16 ∧
      (spriteOf (envOf psxVars lowFont) (Text.init (envOf psxVars lowFont) false)
        (fun _ => 0) textAB 7 2 lines).pixels (-8) = 7 := by
  refine ⟨by decide, by decide, overlay staleLines [⟨3, 1⟩, ⟨3, 1⟩], ?_, rfl, rfl, ?_, ?_, ?_, ?_⟩
  · rw [analyzeSentence_eq]; rfl
  · decide
  · decide
  · decide
  · decide

end Sword1
